import Mathlib

/-!
Shallow embedding of the APSW cursor execution state machine
(`src/apsw.c`, CURSOR CODE section: `resetcursor`, `APSWCursor_dobinding`,
`APSWCursor_dobindings`, `APSWCursor_doexectrace`, `APSWCursor_step`,
`APSWCursor_execute`, `APSWCursor_executemany`, `APSWCursor_close`,
`APSWCursor_next`, and the trace accessors), together with the engine
contract it consumes.

The engine (SQLite) is abstracted: a compiled statement is described by its
parameter count, its parameter-name table and the scripted sequence of
outcomes of successive `sqlite3_step` calls.  A cursor's SQL text is the
chain of statement descriptions obtained by splitting the multi-statement
source string; the C byte-offset `zsqlnextpos` into the source string
becomes an index into that chain (NULL pointer = `none`, pointing at the
terminating NUL = index past the end of the chain).

Python-level error state (`PyErr_Occurred` / `PyErr_Format`) is modelled as
an explicit `pendingErr` field threaded through the cursor; functions that
return NULL / -1 in C return a `Bool` success flag here.

An event log is added to the cursor purely as observation instrumentation:
each engine-facing call (acquire/prepare, step, bind-all, trace callback,
release/finalize) appends one event, so ordering claims can be stated as
equalities on the final log.
-/

namespace APSW

/-! ### Engine result codes (sqlite3.h) -/

def SQLITE_OK : Nat := 0
def SQLITE_ERROR : Nat := 1
def SQLITE_BUSY : Nat := 5
def SQLITE_SCHEMA : Nat := 17
def SQLITE_TOOBIG : Nat := 18
def SQLITE_ROW : Nat := 100
def SQLITE_DONE : Nat := 101

/-- The largest value representable in a signed 32-bit int
(`APSW_INT32_MAX` in apsw.c). -/
def APSW_INT32_MAX : Nat := 2147483647

/-! ### Values supplied as bindings

`APSWCursor_dobinding` dispatches on the Python type of the supplied
object: None, int/long, float, unicode/str, buffer, and zeroblob all have a
defined mapping to an engine type; any other type falls into the final
`else` branch and raises a type error. -/

inductive SQValue
  | null
  | int (i : Int)
  | float (mantissa : Int)
  | text (s : String)
  | blob (len : Nat)
  | zeroblob (len : Nat)
  | unsupported
deriving DecidableEq, Repr

/-! ### Python-level exceptions raised by the cursor code -/

inductive PyExc
  | threadingViolation
  | connectionClosed
  | incomplete
  | bindingCount
  | bindingNoName
  | badType
  | traceAbort
  | sqlError (code : Nat)
deriving DecidableEq, Repr

/-! ### Engine statements -/

/-- One outcome of a `sqlite3_step` call as scripted for a compiled
statement. -/
inductive StepRes
  | row
  | done
  | errc (code : Nat)
deriving DecidableEq, Repr

/-- Static description of one compiled statement of a chain: its parameter
count, the engine's parameter-name table (`sqlite3_bind_parameter_name`,
names carry their `:`/`$` prefix) and the scripted step outcomes. -/
structure StmtSpec where
  nargs : Nat
  names : List (Option String)
  steps : List StepRes
deriving DecidableEq, Repr

/-- One element of the statement chain obtained from the source SQL text:
either a compilable statement or a piece of text the engine's compiler
rejects. -/
inductive PrepItem
  | good (s : StmtSpec)
  | bad
deriving DecidableEq, Repr

/-- A live compiled unit as held by the cursor: its chain position
(identifying which source statement it was compiled from), the remaining
scripted step outcomes, the code an eventual `sqlite3_finalize` will
report (the error of the most recent failed step, `SQLITE_OK` otherwise),
and the current contents of its parameter slots. -/
structure Stmt where
  pos : Nat
  rem : List StepRes
  lastErr : Nat
  binds : List (Option SQValue)
  spec : StmtSpec
deriving DecidableEq, Repr

/-- Engine contract: advance a statement one step. -/
def sqlite3_step (st : Stmt) : Nat × Stmt :=
  match st.rem with
  | [] => (SQLITE_DONE, st)
  | .row :: r => (SQLITE_ROW, { st with rem := r })
  | .done :: r => (SQLITE_DONE, { st with rem := r })
  | .errc c :: r => (c, { st with rem := r, lastErr := c })

/-- Engine contract: `sqlite3_bind_parameter_count`. -/
def parameterCount (st : Stmt) : Nat := st.spec.nargs

/-- Engine contract: `sqlite3_bind_parameter_name` for 1-based `arg`;
`none` models a NULL return (nameless positional parameter). -/
def parameterName (st : Stmt) (arg : Nat) : Option String :=
  (st.spec.names.get? (arg - 1)).join

/-- Engine contract: the `sqlite3_bind_*` family — store a value into a
1-based parameter slot. -/
def bindSlot (st : Stmt) (arg : Nat) (v : SQValue) : Stmt :=
  { st with binds := st.binds.set (arg - 1) (some v) }

/-! ### Bindings and batch items -/

/-- An application-supplied binding collection: a flat positional sequence
or a name-keyed mapping (association list standing in for a Python dict;
keys are unique). -/
inductive Bindings
  | seq (vals : List SQValue)
  | dict (m : List (String × SQValue))
deriving DecidableEq, Repr

/-- One element produced by the `executemany` batch iterator: a usable
binding collection, or an object that is neither a dict nor a sequence
(`PySequence_Fast` fails on it with a TypeError). -/
inductive EMItem
  | item (b : Bindings)
  | badItem
deriving DecidableEq, Repr

/-! ### Cursor state -/

inductive CStatus
  | begin
  | row
  | done
deriving DecidableEq, Repr

/-- Observation instrumentation: one entry per engine-facing call made by
the cursor. `prepared p` = a unit for chain position `p` was acquired;
`stepped p res` = `sqlite3_step` on the unit for position `p` returned
`res`; `boundOk p off` = `APSWCursor_dobindings` succeeded for the unit at
position `p` with the bindings offset at `off`; `traced p` = the
pre-execution trace callback fired for position `p`; `released p` = the
unit was given back to the statement cache; `destroyed p` = the unit was
finalized outright (error-disqualified from reuse). -/
inductive Event
  | prepared (pos : Nat)
  | stepped (pos res : Nat)
  | boundOk (pos : Nat) (offset : Int)
  | traced (pos : Nat)
  | released (pos : Nat)
  | destroyed (pos : Nat)
deriving DecidableEq, Repr

/-- The APSWCursor object (apsw.c `struct APSWCursor` fields used by the
execution state machine).  `connOpen` stands for
`self->connection->db != NULL`; `pendingErr` for the thread's Python error
indicator; `exectrace` is the scripted return values of an installed exec
tracer (`none` = no tracer installed, exhausted script = tracer keeps
returning true); `rowtrace` records only whether a row tracer is installed
(its transformation is modelled as the identity). -/
structure Cursor where
  connOpen : Bool
  inuse : Bool
  statement : Option Stmt
  zsql : Option (List PrepItem)
  zsqlnextpos : Option Nat
  status : CStatus
  bindings : Option Bindings
  bindingsoffset : Int
  emiter : Option (List EMItem)
  exectrace : Option (List Bool)
  rowtrace : Bool
  pendingErr : Option PyExc
  log : List Event
deriving DecidableEq, Repr

/-- `APSWCursor_init`: the state of a freshly created cursor. -/
def freshCursor : Cursor :=
  { connOpen := true, inuse := false, statement := none, zsql := none,
    zsqlnextpos := none, status := .done, bindings := none,
    bindingsoffset := 0, emiter := none, exectrace := none,
    rowtrace := false, pendingErr := none, log := [] }

/-- `*self->zsqlnextpos` is a non-NUL character: the remainder of the
source string holds at least one more statement. -/
def remainderNonempty (c : Cursor) : Bool :=
  match c.zsqlnextpos, c.zsql with
  | some i, some chain => decide (i < chain.length)
  | _, _ => false

/-- `PyErr_Format` guarded by `PyErr_Occurred` (raise only if no error is
already pending) — the pattern used by `CHECK_USE` and the
`ExcIncomplete` raises in `resetcursor`. -/
def raiseIfClear (c : Cursor) (e : PyExc) : Cursor :=
  if c.pendingErr = none then { c with pendingErr := some e } else c

/-- `SET_EXC(db, res)`: turn a non-OK engine code into a Python exception
unless an error is already pending. -/
def setExc (c : Cursor) (res : Nat) : Cursor :=
  if res ≠ SQLITE_OK ∧ c.pendingErr = none
  then { c with pendingErr := some (.sqlError res) } else c

/-! ### Statement cache (spec-modelled)

The statement cache implementation (statementcache.c) is not among the
source files; only its callers are.  The two entry points the cursor uses
are modelled from the spec, §4.1:

* `acquire(connection, sql_text)` — "locating the first statement boundary
  as determined by the engine's own compiler…  Returns the unit and the
  remaining unconsumed suffix of `sql_text` (empty if this was the last
  statement).  Fails with `CompileError` carrying the engine's diagnostic
  if compilation fails; a failed compile never enters the cache."  Cache
  hits versus fresh compiles are indistinguishable at the cursor level and
  are not modelled; capacity-based eviction is likewise internal to the
  cache and not modelled.

* `release(unit)` — "Returns a unit to its key's available queue if … the
  unit completed without an error that could have left it in a corrupted
  state (e.g., engine-reported schema-change or misuse errors disqualify
  it).  Otherwise finalizes it immediately."  Per the engine contract,
  finalization reports the error code of the most recent failed step
  ("this will get the error code for us" in `APSWCursor_step`).
-/

/-- Modelled from the spec: `statementcache_prepare` — acquire the unit at
chain position `pos` of the source text `chain`.  Returns
`(result code, acquired unit, new remainder position)`; an empty remainder
yields no unit with `SQLITE_OK`, mirroring `sqlite3_prepare_v2` on an
empty statement. -/
def statementcache_prepare (chain : List PrepItem) (pos : Nat) :
    Nat × Option Stmt × Nat :=
  match chain.get? pos with
  | some (.good s) =>
      (SQLITE_OK, some ⟨pos, s.steps, SQLITE_OK, List.replicate s.nargs none, s⟩, pos + 1)
  | some .bad => (SQLITE_ERROR, none, pos)
  | none => (SQLITE_OK, none, pos)

/-- Modelled from the spec: the code `statementcache_finalize` reports for
a unit (the engine error of the unit's most recent failed step, else
`SQLITE_OK`). -/
def statementcache_finalize (st : Stmt) : Nat := st.lastErr

/-- Modelled from the spec: whether `statementcache_finalize` returns the
unit to the cache's reuse pool (`released`) or destroys it
(error-disqualified, `destroyed`). -/
def releaseEvent (st : Stmt) : Event :=
  if st.lastErr = SQLITE_OK then .released st.pos else .destroyed st.pos

/-! ### BindingReconciler (`APSWCursor_dobinding` / `APSWCursor_dobindings`) -/

/-- `APSWCursor_dobinding`: marshal one value into one parameter slot.
Mirrors the type dispatch of apsw.c; the oversize checks correspond to the
`strbytes > APSW_INT32_MAX` / `buflen > APSW_INT32_MAX` guards. -/
def APSWCursor_dobinding (st : Stmt) (arg : Nat) (obj : SQValue) :
    Except PyExc Stmt :=
  match obj with
  | .null => .ok (bindSlot st arg .null)
  | .int i => .ok (bindSlot st arg (.int i))
  | .float m => .ok (bindSlot st arg (.float m))
  | .text s =>
      if s.utf8ByteSize > APSW_INT32_MAX then .error (.sqlError SQLITE_TOOBIG)
      else .ok (bindSlot st arg (.text s))
  | .blob n =>
      if n > APSW_INT32_MAX then .error (.sqlError SQLITE_TOOBIG)
      else .ok (bindSlot st arg (.blob n))
  | .zeroblob n => .ok (bindSlot st arg (.zeroblob n))
  | .unsupported => .error .badType

/-- A value `APSWCursor_dobinding` accepts. -/
def bindSafe : SQValue → Bool
  | .text s => decide (s.utf8ByteSize ≤ APSW_INT32_MAX)
  | .blob n => decide (n ≤ APSW_INT32_MAX)
  | .unsupported => false
  | _ => true

/-- The dict loop of `APSWCursor_dobindings`: for each of the `k` slots
starting at 1-based `arg`, look up the slot's name (failing on a nameless
slot), bind the dict's value for that name if present, and skip the slot
as a no-op otherwise. -/
def bindDictArgs (m : List (String × SQValue)) :
    Stmt → Nat → Nat → Except PyExc Stmt
  | st, _, 0 => .ok st
  | st, arg, k + 1 =>
      match parameterName st arg with
      | none => .error .bindingNoName
      | some key =>
          match m.lookup (key.drop 1) with
          | none => bindDictArgs m st (arg + 1) k
          | some obj =>
              match APSWCursor_dobinding st arg obj with
              | .error e => .error e
              | .ok st2 => bindDictArgs m st2 (arg + 1) k

/-- The sequence loop of `APSWCursor_dobindings`: bind the `k` slots
starting at 1-based `arg` from the flat sequence `vals`, reading value
number `arg - 1 + off` for slot `arg` (in-range by the preceding arity
check; the default is never consulted on checked inputs). -/
def bindSeqArgs (vals : List SQValue) (off : Int) :
    Stmt → Nat → Nat → Except PyExc Stmt
  | st, _, 0 => .ok st
  | st, arg, k + 1 =>
      let obj := vals.getD (off + (arg : Int) - 1).toNat .null
      match APSWCursor_dobinding st arg obj with
      | .error e => .error e
      | .ok st2 => bindSeqArgs vals off st2 (arg + 1) k

/-- `APSWCursor_dobindings`: reconcile the cursor's binding collection with
the current statement's parameter slots, advancing `bindingsoffset` past
the consumed sub-range for a positional sequence. -/
def APSWCursor_dobindings (c : Cursor) : Cursor × Bool :=
  if c.pendingErr ≠ none then (c, false)
  else
    let nargs : Nat := match c.statement with
      | some st => parameterCount st
      | none => 0
    if nargs > 0 ∧ c.bindings = none then
      ({ c with pendingErr := some .bindingCount }, false)
    else
      match c.bindings with
      | some (.dict m) =>
          match c.statement with
          | none => (c, true)
          | some st =>
              match bindDictArgs m st 1 nargs with
              | .error e => ({ c with pendingErr := some e }, false)
              | .ok st2 =>
                  ({ c with statement := some st2,
                            log := c.log ++ [.boundOk st.pos c.bindingsoffset] }, true)
      | _ =>
          let sz : Int := match c.bindings with
            | some (.seq vals) => vals.length
            | _ => 0
          if remainderNonempty c ∧ sz - c.bindingsoffset < (nargs : Int) then
            ({ c with pendingErr := some .bindingCount }, false)
          else if ¬remainderNonempty c ∧ sz - c.bindingsoffset ≠ (nargs : Int) then
            ({ c with pendingErr := some .bindingCount }, false)
          else
            let vals : List SQValue := match c.bindings with
              | some (.seq vals) => vals
              | _ => []
            match c.statement with
            | none => ({ c with bindingsoffset := c.bindingsoffset + nargs }, true)
            | some st =>
                match bindSeqArgs vals c.bindingsoffset st 1 nargs with
                | .error e => ({ c with pendingErr := some e }, false)
                | .ok st2 =>
                    ({ c with statement := some st2,
                              bindingsoffset := c.bindingsoffset + nargs,
                              log := c.log ++ [.boundOk st.pos c.bindingsoffset] }, true)

/-! ### resetcursor -/

/-- First phase of `resetcursor`: finalize/release the held unit (apsw.c
lines "if(self->statement) { res=statementcache_finalize(...); ... }"),
raising the finalize error via `SET_EXC` unless forcing. -/
def resetFinalize (c : Cursor) (force : Bool) : Cursor × Nat :=
  match c.statement with
  | some st =>
      let code := statementcache_finalize st
      let c2 := { c with log := c.log ++ [releaseEvent st], statement := none }
      (if force then c2 else setExc c2 code, code)
  | none => (c, SQLITE_OK)

/-- Second phase of `resetcursor`: the abandoned-chain check — if not
forcing, the cursor is not `DONE`, the remainder text is non-empty and
finalize reported no error, this is an abort: raise `ExcIncomplete`
(unless an error is already pending) and report `SQLITE_ERROR`. -/
def resetChainCheck (c : Cursor) (force : Bool) (res : Nat) : Cursor × Nat :=
  if force = false ∧ c.status ≠ .done ∧ remainderNonempty c = true ∧
      res = SQLITE_OK
  then (raiseIfClear c .incomplete, SQLITE_ERROR)
  else (c, res)

/-- Third phase of `resetcursor`: the abandoned-batch check — if not
forcing, the cursor is not `DONE` and the batch iterator yields another
element, raise `ExcIncomplete` (unless already pending) and report
`SQLITE_ERROR`. -/
def resetEmCheck (c : Cursor) (force : Bool) (res : Nat) : Cursor × Nat :=
  match c.emiter with
  | some (_ :: _) =>
      if force = false ∧ c.status ≠ .done
      then (raiseIfClear c .incomplete, SQLITE_ERROR)
      else (c, res)
  | _ => (c, res)

/-- `resetcursor(self, force)`: drop the bindings, finalize/release the
held unit, detect an abandoned chain or batch iterator (unless `force`, or
unless the operation already finished or already failed), drop the batch
iterator and the owned SQL text, and land in `DONE`.  Returns the updated
cursor and the SQLite error code. -/
def resetcursor (c : Cursor) (force : Bool) : Cursor × Nat :=
  let fin := resetFinalize { c with bindings := none, bindingsoffset := -1 } force
  let ck := resetChainCheck fin.1 force fin.2
  let em := resetEmCheck { ck.1 with zsqlnextpos := none } force ck.2
  ({ em.1 with emiter := none, zsql := none, status := .done }, em.2)

/-! ### Exec tracer (`APSWCursor_doexectrace`) -/

/-- `APSWCursor_doexectrace`: fire the installed pre-execution trace
callback for the statement about to run; a false return aborts with
`ExcTraceAbort`.  The callback's scripted return values live in
`c.exectrace`; an exhausted script keeps returning true. -/
def APSWCursor_doexectrace (c : Cursor) : Cursor × Bool :=
  match c.exectrace with
  | none => (c, true)
  | some rs =>
      let pos : Nat := match c.statement with
        | some st => st.pos
        | none => 0
      let c1 := { c with log := c.log ++ [.traced pos] }
      match rs with
      | [] => (c1, true)
      | r :: rest =>
          let c2 := { c1 with exectrace := some rest }
          if r then (c2, true)
          else ({ c2 with pendingErr := some .traceAbort }, false)

/-! ### The transition algorithm (`APSWCursor_step`)

The C `for(;;)` loop is written as fuel-indexed recursion; `none` means
the fuel ran out before the loop returned (the theorems always supply
sufficient fuel).  `some (c, true)` is C's "return self", `some (c, false)`
is "return NULL" with the error in `c.pendingErr`. -/

mutual

/-- One entry into `APSWCursor_step`'s loop: step the engine and dispatch
on `res & 0xff`. -/
def stepLoop : Nat → Cursor → Option (Cursor × Bool)
  | 0, _ => none
  | fuel + 1, c =>
      let stepped : Nat × Cursor :=
        match c.statement with
        | some st =>
            let r := sqlite3_step st
            (r.1, { c with statement := some r.2,
                           log := c.log ++ [.stepped st.pos r.1] })
        | none => (SQLITE_DONE, c)
      let res := stepped.1
      let c1 := stepped.2
      if res % 256 = SQLITE_ROW then
        let c2 := { c1 with status := .row }
        some (if c2.pendingErr = none then (c2, true) else (c2, false))
      else if res % 256 = SQLITE_DONE then
        if c1.pendingErr ≠ none then some ({ c1 with status := .done }, false)
        else
          let c2 := { c1 with status := .done }
          if remainderNonempty c2 = false then
            match c2.emiter with
            | none =>
                let r := resetcursor c2 false
                some (if r.2 = SQLITE_OK then (r.1, true) else (r.1, false))
            | some [] =>
                let r := resetcursor c2 false
                some (if r.2 = SQLITE_OK then (r.1, true) else (r.1, false))
            | some (item :: rest) =>
                let c3 := { c2 with emiter := some rest,
                                    zsqlnextpos := some 0,
                                    bindings := none, bindingsoffset := 0 }
                match item with
                | .badItem => some ({ c3 with pendingErr := some .badType }, false)
                | .item b => stepGoAgain fuel { c3 with bindings := some b }
          else
            stepGoAgain fuel c2
      else
        let c2 := { c1 with status := .done }
        let r := resetcursor c2 false
        some (r.1, false)

/-- The tail of the loop body ("finalise and go again"): release the
finished unit, acquire the next one from the remainder text, reconcile
bindings, fire the exec tracer, and loop. -/
def stepGoAgain : Nat → Cursor → Option (Cursor × Bool)
  | fuel, c =>
      let fin : Cursor × Nat :=
        match c.statement with
        | some st =>
            ({ c with statement := none, log := c.log ++ [releaseEvent st] },
             statementcache_finalize st)
        | none => (c, SQLITE_OK)
      let c1 := setExc fin.1 fin.2
      if fin.2 ≠ SQLITE_OK then some (c1, false)
      else
        let pos := c1.zsqlnextpos.getD 0
        let prep := statementcache_prepare (c1.zsql.getD []) pos
        if prep.1 ≠ SQLITE_OK then some (setExc c1 prep.1, false)
        else
          let c2 := { c1 with statement := prep.2.1, zsqlnextpos := some prep.2.2 }
          let c3 := match prep.2.1 with
            | some st => { c2 with log := c2.log ++ [Event.prepared st.pos] }
            | none => c2
          let bnd := APSWCursor_dobindings c3
          if bnd.2 = false then some (bnd.1, false)
          else
            let tr := APSWCursor_doexectrace bnd.1
            if tr.2 = false then some (tr.1, false)
            else stepLoop fuel { tr.1 with status := .begin }

end

/-! ### Public entry points -/

/-- `APSWCursor_execute(self, sql, bindings)`.  The SQL text arrives
already split into its statement chain; the bindings argument is `none`
when omitted. -/
def APSWCursor_execute (c : Cursor) (chain : List PrepItem)
    (b : Option Bindings) (fuel : Nat) : Option (Cursor × Bool) :=
  if c.inuse then some (raiseIfClear c .threadingViolation, false)
  else if c.connOpen = false then
    some ({ c with pendingErr := some .connectionClosed }, false)
  else
    let r := resetcursor c false
    if r.2 ≠ SQLITE_OK then some (r.1, false)
    else
      let c1 := { r.1 with zsql := some chain, bindings := b }
      let prep := statementcache_prepare chain 0
      if prep.1 ≠ SQLITE_OK then some (setExc c1 prep.1, false)
      else
        let c2 := { c1 with statement := prep.2.1, zsqlnextpos := some prep.2.2 }
        let c3 := match prep.2.1 with
          | some st => { c2 with log := c2.log ++ [Event.prepared st.pos] }
          | none => c2
        let c4 := { c3 with bindingsoffset := 0 }
        let bnd := APSWCursor_dobindings c4
        if bnd.2 = false then some (bnd.1, false)
        else
          let tr := APSWCursor_doexectrace bnd.1
          if tr.2 = false then some (tr.1, false)
          else stepLoop fuel { tr.1 with status := .begin }

/-- `APSWCursor_executemany(self, sql, sequenceofbindings)`. -/
def APSWCursor_executemany (c : Cursor) (chain : List PrepItem)
    (batch : List EMItem) (fuel : Nat) : Option (Cursor × Bool) :=
  if c.inuse then some (raiseIfClear c .threadingViolation, false)
  else if c.connOpen = false then
    some ({ c with pendingErr := some .connectionClosed }, false)
  else
    let r := resetcursor c false
    if r.2 ≠ SQLITE_OK then some (r.1, false)
    else
      let c1 := { r.1 with zsql := some chain }
      match batch with
      | [] => some ({ c1 with emiter := some [] }, true)
      | item :: rest =>
          let c2 := { c1 with emiter := some rest }
          match item with
          | .badItem => some ({ c2 with pendingErr := some .badType }, false)
          | .item b =>
              let c3 := { c2 with bindings := some b }
              let prep := statementcache_prepare chain 0
              if prep.1 ≠ SQLITE_OK then some (setExc c3 prep.1, false)
              else
                let c4 := { c3 with statement := prep.2.1,
                                    zsqlnextpos := some prep.2.2 }
                let c5 := match prep.2.1 with
                  | some st => { c4 with log := c4.log ++ [Event.prepared st.pos] }
                  | none => c4
                let c6 := { c5 with bindingsoffset := 0 }
                let bnd := APSWCursor_dobindings c6
                if bnd.2 = false then some (bnd.1, false)
                else
                  let tr := APSWCursor_doexectrace bnd.1
                  if tr.2 = false then some (tr.1, false)
                  else stepLoop fuel { tr.1 with status := .begin }

/-- `APSWCursor_close(self, force)`.  A cursor whose connection has been
closed is already closed: return None without touching anything. -/
def APSWCursor_close (c : Cursor) (force : Bool) : Cursor × Bool :=
  if c.inuse then (raiseIfClear c .threadingViolation, false)
  else if c.connOpen = false then (c, true)
  else
    let r := resetcursor c force
    if r.2 = SQLITE_OK then (r.1, true) else (r.1, false)

/-- Result of one `APSWCursor_next` call: a produced row, clean
exhaustion (StopIteration), or an error. -/
inductive NextRes
  | gotRow
  | exhausted
  | failed
deriving DecidableEq, Repr

/-- `APSWCursor_next`: the row-iterator protocol.  Row marshaling is not
modelled and an installed row tracer is modelled as the identity
transformation (it returns the row unchanged). -/
def APSWCursor_next (fuel : Nat) (c : Cursor) : Option (Cursor × NextRes) :=
  if c.inuse then some (raiseIfClear c .threadingViolation, .failed)
  else if c.connOpen = false then
    some ({ c with pendingErr := some .connectionClosed }, .failed)
  else
    match c.status with
    | .done => some (c, .exhausted)
    | .row => some ({ c with status := .begin }, .gotRow)
    | .begin =>
        match stepLoop fuel c with
        | none => none
        | some (c1, false) => some (c1, .failed)
        | some (c1, true) =>
            match c1.status with
            | .done => some (c1, .exhausted)
            | _ => some ({ c1 with status := .begin }, .gotRow)

/-- `APSWCursor_setexectrace`. -/
def APSWCursor_setexectrace (c : Cursor) (fn : Option (List Bool)) :
    Cursor × Bool :=
  if c.inuse then (raiseIfClear c .threadingViolation, false)
  else if c.connOpen = false then
    ({ c with pendingErr := some .connectionClosed }, false)
  else ({ c with exectrace := fn }, true)

/-- `APSWCursor_setrowtrace`. -/
def APSWCursor_setrowtrace (c : Cursor) (fn : Bool) : Cursor × Bool :=
  if c.inuse then (raiseIfClear c .threadingViolation, false)
  else if c.connOpen = false then
    ({ c with pendingErr := some .connectionClosed }, false)
  else ({ c with rowtrace := fn }, true)

/-! ### Driving a cursor to exhaustion -/

/-- Pull rows through `APSWCursor_next` until exhaustion or an error;
models the caller's `for row in cursor.execute(...)` loop. -/
def drive : Nat → Cursor → Option (Cursor × Bool)
  | 0, _ => none
  | f + 1, c =>
      match APSWCursor_next (f + 1) c with
      | none => none
      | some (c1, .failed) => some (c1, false)
      | some (c1, .exhausted) => some (c1, true)
      | some (c1, .gotRow) => drive f c1

/-- `execute` followed by draining the row iterator. -/
def runExecute (c : Cursor) (chain : List PrepItem) (b : Option Bindings)
    (fuel : Nat) : Option (Cursor × Bool) :=
  match APSWCursor_execute c chain b fuel with
  | none => none
  | some (c1, false) => some (c1, false)
  | some (c1, true) => drive fuel c1

/-- `executemany` followed by draining the row iterator. -/
def runExecutemany (c : Cursor) (chain : List PrepItem)
    (batch : List EMItem) (fuel : Nat) : Option (Cursor × Bool) :=
  match APSWCursor_executemany c chain batch fuel with
  | none => none
  | some (c1, false) => some (c1, false)
  | some (c1, true) => drive fuel c1

/-! ### Chains built from unit descriptions

For the ordering claims, a multi-statement source text is described by a
list of `(parameter count, row count)` pairs: statement number `i` has
`nᵢ` nameless positional parameters and yields `rᵢ` rows before reporting
done. -/

/-- Build the statement chain for a list of `(nargs, rows)` unit
descriptions. -/
def mkChain (us : List (Nat × Nat)) : List PrepItem :=
  us.map fun p => .good ⟨p.1, List.replicate p.1 none, List.replicate p.2 .row⟩

/-- Total positional parameter count of a list of unit descriptions. -/
def sumArgs (us : List (Nat × Nat)) : Nat := (us.map Prod.fst).sum

/-- Total row count of a list of unit descriptions. -/
def sumRows (us : List (Nat × Nat)) : Nat := (us.map Prod.snd).sum

/-- The events of acquiring unit `j` and making it runnable: acquisition,
binding reconciliation at offset `off`, and — when a tracer is
installed — the pre-execution trace callback. -/
def enterEvents (tr : Bool) (j : Nat) (off : Int) : List Event :=
  [.prepared j, .boundOk j off] ++ (if tr then [.traced j] else [])

/-- The full event trail of running a chain of units starting at chain
position `j` with the bindings offset at `off`: each unit is entered,
stepped through its rows and its final done, and released — strictly in
chain order. -/
def chainEvents (tr : Bool) : List (Nat × Nat) → Nat → Int → List Event
  | [], _, _ => []
  | p :: rest, j, off =>
      enterEvents tr j off ++ List.replicate p.2 (.stepped j SQLITE_ROW)
      ++ [.stepped j SQLITE_DONE, .released j]
      ++ chainEvents tr rest (j + 1) (off + p.1)

/-- The event trail of crossing a run of zero-row units (done reported on
their first step) starting at chain position `j`. -/
def zeroCrossEvents (tr : Bool) : List (Nat × Nat) → Nat → Int → List Event
  | [], _, _ => []
  | p :: rest, j, off =>
      enterEvents tr j off ++ [.stepped j SQLITE_DONE, .released j]
      ++ zeroCrossEvents tr rest (j + 1) (off + p.1)

/-- Index of the first unit description with a nonzero row count. -/
def firstRowy : List (Nat × Nat) → Option Nat
  | [] => none
  | p :: rest => if p.2 > 0 then some 0 else (firstRowy rest).map (· + 1)

/-- A cursor in the middle of a single `execute` over a chain: the unit
for chain position `i` is held with `r` scripted row steps remaining
(slot contents `bl` and static description `sp` are inert at this point),
the remainder text starts at position `i + 1`, and the flat positional
sequence `vals` has been consumed up to offset `off`. -/
def midCursor (ch : List PrepItem) (i r : Nat) (sp : StmtSpec)
    (bl : List (Option SQValue)) (vals : List SQValue) (tr : Bool)
    (off : Int) (lg : List Event) (stt : CStatus) : Cursor :=
  { connOpen := true, inuse := false,
    statement := some ⟨i, List.replicate r .row, SQLITE_OK, bl, sp⟩,
    zsql := some ch, zsqlnextpos := some (i + 1), status := stt,
    bindings := some (.seq vals), bindingsoffset := off,
    emiter := none, exectrace := if tr then some [] else none,
    rowtrace := false, pendingErr := none, log := lg }

/-- The cursor state after a successful run has been fully drained and
`resetcursor` has released everything. -/
def doneCursor (tr : Bool) (lg : List Event) : Cursor :=
  { connOpen := true, inuse := false, statement := none, zsql := none,
    zsqlnextpos := none, status := .done, bindings := none,
    bindingsoffset := -1, emiter := none,
    exectrace := if tr then some [] else none, rowtrace := false,
    pendingErr := none, log := lg }

/-! ### executemany event shapes -/

/-- The events of one `executemany` repetition of a single statement with
`r0` rows: acquire the first (only) unit of the chain, reconcile the
repetition's bindings at offset 0, fire the tracer, step through the rows
and the final done. -/
def c2Rep (r0 : Nat) (tr : Bool) : List Event :=
  [.prepared 0, .boundOk 0 0] ++ (if tr then [.traced 0] else [])
  ++ List.replicate r0 (.stepped 0 SQLITE_ROW) ++ [.stepped 0 SQLITE_DONE]

/-- The full event trail of `executemany` over `k` binding sets for a
single statement with `r0` rows: `k` repetitions, each released before
the next is acquired (the final release comes from the closing
`resetcursor`). -/
def c2Events (r0 : Nat) (tr : Bool) (k : Nat) : List Event :=
  (List.replicate k (c2Rep r0 tr ++ [Event.released 0])).flatten

/-- The trailing events of `executemany` after the current repetition has
produced its rows: `k` further repetitions, each preceded by the release
of its predecessor's unit. -/
def emTail (r0 : Nat) (tr : Bool) (k : Nat) : List Event :=
  (List.replicate k ([Event.released 0] ++ c2Rep r0 tr)).flatten

/-- A cursor in the middle of an `executemany` over the single-unit chain
`mkChain [(n, r0)]`: the unit is held with `r` scripted row steps
remaining, `tail` is what remains of the batch iterator, and the current
repetition's binding collection `b` and offset `off` are inert. -/
def emCursor (n r0 r : Nat) (sp : StmtSpec) (bl : List (Option SQValue))
    (b : Option Bindings) (off : Int) (tail : List EMItem) (tr : Bool)
    (lg : List Event) (stt : CStatus) : Cursor :=
  { connOpen := true, inuse := false,
    statement := some ⟨0, List.replicate r .row, SQLITE_OK, bl, sp⟩,
    zsql := some (mkChain [(n, r0)]), zsqlnextpos := some 1, status := stt,
    bindings := b, bindingsoffset := off,
    emiter := some tail, exectrace := if tr then some [] else none,
    rowtrace := false, pendingErr := none, log := lg }

/-- The cursor state after `executemany` aborts on a binding set whose
arity does not match: the freshly re-acquired unit is still held, the
bad binding set is still attached, the batch iterator still holds the
never-visited remainder, and `ExcBindings` is pending. -/
def emAbortCursor (n r0 : Nat) (badb : Bindings) (rest : List EMItem)
    (tr : Bool) (lg : List Event) : Cursor :=
  { connOpen := true, inuse := false,
    statement := some ⟨0, List.replicate r0 .row, SQLITE_OK,
                       List.replicate n none,
                       ⟨n, List.replicate n none, List.replicate r0 .row⟩⟩,
    zsql := some (mkChain [(n, r0)]), zsqlnextpos := some 1, status := .done,
    bindings := some badb, bindingsoffset := 0,
    emiter := some rest, exectrace := if tr then some [] else none,
    rowtrace := false, pendingErr := some .bindingCount, log := lg }

/-- A cursor in batch mode right after one repetition reported done and
the next binding set was pulled from the iterator: the finished unit is
still held, the remainder position was rewound to the start of the chain,
and the fresh binding set is attached at offset 0. -/
def emPulled (n r0 : Nat) (sp : StmtSpec) (bl : List (Option SQValue))
    (bb : Bindings) (tail : List EMItem) (tr : Bool)
    (lg : List Event) : Cursor :=
  { connOpen := true, inuse := false,
    statement := some ⟨0, [], SQLITE_OK, bl, sp⟩,
    zsql := some (mkChain [(n, r0)]), zsqlnextpos := some 0,
    status := .done, bindings := some bb, bindingsoffset := 0,
    emiter := some tail, exectrace := if tr then some [] else none,
    rowtrace := false, pendingErr := none, log := lg }

/-! ## Theorems -/

/-- Claim C10: if the bindings iterable passed to `executemany` yields no
elements, `executemany` returns the cursor immediately in the `DONE`
state; the SQL text is never compiled or stepped (the event log is
unchanged, whatever the chain contains — including uncompilable text) and
no error is raised. -/
theorem executemany_empty_batch (c : Cursor) (chain : List PrepItem)
    (fuel : Nat) (hiu : c.inuse = false) (hco : c.connOpen = true)
    (hpe : c.pendingErr = none) (hst : c.statement = none)
    (hss : c.status = .done) :
    APSWCursor_executemany c chain [] fuel =
      some ({ c with bindings := none, bindingsoffset := -1,
                     zsqlnextpos := none, status := .done,
                     zsql := some chain, emiter := some [] }, true) := by
  obtain ⟨co, iu, stm, zq, zp, stt, bnd, bo, em, et, rt, pe, lg⟩ := c
  simp only at hiu hco hpe hst hss
  subst hiu hco hpe hst hss
  cases em with
  | none =>
      simp [APSWCursor_executemany, resetcursor, resetFinalize, resetChainCheck, resetEmCheck, SQLITE_OK]
  | some l =>
      cases l with
      | nil => simp [APSWCursor_executemany, resetcursor, resetFinalize, resetChainCheck, resetEmCheck, SQLITE_OK]
      | cons x xs => simp [APSWCursor_executemany, resetcursor, resetFinalize, resetChainCheck, resetEmCheck, SQLITE_OK]

/-- A closed instance of `executemany_empty_batch` at a concrete cursor
and an uncompilable chain. -/
theorem executemany_empty_batch_witness :
    APSWCursor_executemany freshCursor [PrepItem.bad] [] 5 =
      some ({ freshCursor with bindings := none, bindingsoffset := -1,
                               zsqlnextpos := none, status := .done,
                               zsql := some [PrepItem.bad],
                               emiter := some [] }, true) :=
  executemany_empty_batch freshCursor [PrepItem.bad] 5 rfl rfl rfl rfl rfl

/-- Claim C8: calling `close(force=true)` twice in a row never raises and
never finalizes the same engine handle twice: the first call clears the
held statement, the bindings, the remainder text and the batch iterator,
and the second call finds nothing to release — it changes nothing at all
(in particular it appends no release/finalize event). -/
theorem close_force_twice_idempotent (c : Cursor) (hiu : c.inuse = false)
    (hco : c.connOpen = true) (hpe : c.pendingErr = none)
    (hok : ∀ st, c.statement = some st → st.lastErr = SQLITE_OK) :
    (APSWCursor_close c true).2 = true ∧
    (APSWCursor_close (APSWCursor_close c true).1 true).2 = true ∧
    (APSWCursor_close (APSWCursor_close c true).1 true).1 =
      (APSWCursor_close c true).1 ∧
    (APSWCursor_close c true).1.statement = none ∧
    (APSWCursor_close c true).1.bindings = none ∧
    (APSWCursor_close c true).1.zsqlnextpos = none ∧
    (APSWCursor_close c true).1.emiter = none ∧
    (APSWCursor_close c true).1.zsql = none ∧
    (APSWCursor_close c true).1.pendingErr = none := by
  obtain ⟨co, iu, stm, zq, zp, stt, bnd, bo, em, et, rt, pe, lg⟩ := c
  simp only at hiu hco hpe hok
  subst hiu hco hpe
  cases stm with
  | none =>
      rcases em with _ | (_ | ⟨x, xs⟩) <;>
        simp [APSWCursor_close, resetcursor, resetFinalize, resetChainCheck,
              resetEmCheck, SQLITE_OK]
  | some st =>
      have hst : st.lastErr = SQLITE_OK := hok st rfl
      rcases em with _ | (_ | ⟨x, xs⟩) <;>
        simp [APSWCursor_close, resetcursor, resetFinalize, resetChainCheck,
              resetEmCheck, SQLITE_OK, hst,
              statementcache_finalize, releaseEvent, setExc]

/-- A closed instance of `close_force_twice_idempotent` on a cursor that
still holds a live unit mid-chain. -/
theorem close_force_twice_idempotent_witness :
    (APSWCursor_close
        { freshCursor with
            statement := some ⟨0, [.row], SQLITE_OK, [], ⟨0, [], [.row]⟩⟩,
            zsql := some (mkChain [(0, 1), (0, 1)]), zsqlnextpos := some 1,
            status := .row, emiter := some [EMItem.badItem] } true).2 = true ∧
    (APSWCursor_close
       (APSWCursor_close
         { freshCursor with
             statement := some ⟨0, [.row], SQLITE_OK, [], ⟨0, [], [.row]⟩⟩,
             zsql := some (mkChain [(0, 1), (0, 1)]), zsqlnextpos := some 1,
             status := .row, emiter := some [EMItem.badItem] } true).1
       true).2 = true :=
  have h := close_force_twice_idempotent
    { freshCursor with
        statement := some ⟨0, [.row], SQLITE_OK, [], ⟨0, [], [.row]⟩⟩,
        zsql := some (mkChain [(0, 1), (0, 1)]), zsqlnextpos := some 1,
        status := .row, emiter := some [EMItem.badItem] }
    rfl rfl rfl (by intro st hst; cases hst; rfl)
  ⟨h.1, h.2.1⟩

/-- Counterexample to claim C9: `close` on a cursor whose owning
connection has been torn down does **not** fail with the
connection-closed error — it succeeds immediately (returns None), leaving
the cursor untouched and raising nothing.  (apsw.c: "if connection is
closed, then we must also be closed".) -/
theorem close_on_closed_connection_succeeds_cex :
    APSWCursor_close { freshCursor with connOpen := false } false =
      ({ freshCursor with connOpen := false }, true) ∧
    (APSWCursor_close { freshCursor with connOpen := false } false).1.pendingErr
      = none := by
  constructor <;> rfl

/-- Claim C9 (amended): every modelled cursor operation **except `close`**
on a cursor whose owning connection has been torn down fails with the
connection-closed error; `close` instead succeeds as a no-op (the cursor
counts as already closed). -/
theorem closed_connection_operations (c : Cursor) (chain : List PrepItem)
    (b : Option Bindings) (batch : List EMItem) (fn : Option (List Bool))
    (rfn : Bool) (fuel : Nat) (hiu : c.inuse = false)
    (hco : c.connOpen = false) :
    APSWCursor_execute c chain b fuel =
      some ({ c with pendingErr := some .connectionClosed }, false) ∧
    APSWCursor_executemany c chain batch fuel =
      some ({ c with pendingErr := some .connectionClosed }, false) ∧
    APSWCursor_next fuel c =
      some ({ c with pendingErr := some .connectionClosed }, .failed) ∧
    APSWCursor_setexectrace c fn =
      ({ c with pendingErr := some .connectionClosed }, false) ∧
    APSWCursor_setrowtrace c rfn =
      ({ c with pendingErr := some .connectionClosed }, false) ∧
    APSWCursor_close c false = (c, true) ∧
    APSWCursor_close c true = (c, true) := by
  refine ⟨?_, ?_, ?_, ?_, ?_, ?_, ?_⟩ <;>
    simp [APSWCursor_execute, APSWCursor_executemany, APSWCursor_next,
          APSWCursor_setexectrace, APSWCursor_setrowtrace, APSWCursor_close,
          hiu, hco]

/-- A closed instance of `closed_connection_operations`. -/
theorem closed_connection_operations_witness :
    APSWCursor_execute { freshCursor with connOpen := false } [] none 3 =
      some ({ freshCursor with connOpen := false
                               , pendingErr := some .connectionClosed }, false) ∧
    APSWCursor_close { freshCursor with connOpen := false } false =
      ({ freshCursor with connOpen := false }, true) :=
  have h := closed_connection_operations
    { freshCursor with connOpen := false } [] none [] none false 3 rfl rfl
  ⟨h.1, h.2.2.2.2.2.1⟩

/-- Claim C7: every modelled public cursor entry point (`execute`,
`executemany`, next-row, `close`, and the trace setters), called while
the object's in-use flag is already set, fails immediately with
`ThreadingViolation` and modifies nothing but the error indicator. -/
theorem inuse_entry_points_fail_fast (c : Cursor) (chain : List PrepItem)
    (b : Option Bindings) (batch : List EMItem) (fn : Option (List Bool))
    (rfn : Bool) (fuel : Nat) (hiu : c.inuse = true)
    (hpe : c.pendingErr = none) :
    APSWCursor_execute c chain b fuel =
      some ({ c with pendingErr := some .threadingViolation }, false) ∧
    APSWCursor_executemany c chain batch fuel =
      some ({ c with pendingErr := some .threadingViolation }, false) ∧
    APSWCursor_next fuel c =
      some ({ c with pendingErr := some .threadingViolation }, .failed) ∧
    APSWCursor_close c false =
      ({ c with pendingErr := some .threadingViolation }, false) ∧
    APSWCursor_close c true =
      ({ c with pendingErr := some .threadingViolation }, false) ∧
    APSWCursor_setexectrace c fn =
      ({ c with pendingErr := some .threadingViolation }, false) ∧
    APSWCursor_setrowtrace c rfn =
      ({ c with pendingErr := some .threadingViolation }, false) := by
  refine ⟨?_, ?_, ?_, ?_, ?_, ?_, ?_⟩ <;>
    simp [APSWCursor_execute, APSWCursor_executemany, APSWCursor_next,
          APSWCursor_setexectrace, APSWCursor_setrowtrace, APSWCursor_close,
          raiseIfClear, hiu, hpe]

/-- A closed instance of `inuse_entry_points_fail_fast`. -/
theorem inuse_entry_points_fail_fast_witness :
    APSWCursor_execute { freshCursor with inuse := true } [] none 3 =
      some ({ freshCursor with inuse := true
                               , pendingErr := some .threadingViolation }, false) ∧
    APSWCursor_close { freshCursor with inuse := true } true =
      ({ freshCursor with inuse := true
                          , pendingErr := some .threadingViolation }, false) :=
  have h := inuse_entry_points_fail_fast
    { freshCursor with inuse := true } [] none [] none false 3 rfl rfl
  ⟨h.1, h.2.2.2.2.1⟩

/-- `remainderNonempty` reads only the remainder pointer and the owned
text. -/
theorem remainderNonempty_eq (c : Cursor) :
    remainderNonempty c =
      match c.zsqlnextpos, c.zsql with
      | some i, some chain => decide (i < chain.length)
      | _, _ => false := rfl

/-- `resetFinalize` does not touch the status, remainder pointer, owned
text or batch iterator. -/
theorem resetFinalize_fields (c : Cursor) (force : Bool) :
    (resetFinalize c force).1.status = c.status ∧
    (resetFinalize c force).1.zsqlnextpos = c.zsqlnextpos ∧
    (resetFinalize c force).1.zsql = c.zsql ∧
    (resetFinalize c force).1.emiter = c.emiter := by
  rcases hstm : c.statement with _ | st <;>
    simp only [resetFinalize, hstm, setExc] <;> (try split_ifs) <;> simp_all

/-- `resetFinalize` keeps an already-pending error. -/
theorem resetFinalize_pending_some (c : Cursor) (force : Bool) (e : PyExc)
    (hpe : c.pendingErr = some e) :
    (resetFinalize c force).1.pendingErr = some e := by
  rcases hstm : c.statement with _ | st <;>
    simp only [resetFinalize, hstm, setExc] <;> (try split_ifs) <;> simp_all

/-- `resetFinalize` when no unit is held. -/
theorem resetFinalize_none (c : Cursor) (force : Bool)
    (h : c.statement = none) : resetFinalize c force = (c, SQLITE_OK) := by
  simp [resetFinalize, h]

/-- `resetFinalize` on a cleanly-finalizable unit: release it, report
`SQLITE_OK`, raise nothing. -/
theorem resetFinalize_clean (c : Cursor) (force : Bool) (st : Stmt)
    (hstm : c.statement = some st) (hlast : st.lastErr = SQLITE_OK) :
    resetFinalize c force =
      ({ c with log := c.log ++ [.released st.pos], statement := none },
       SQLITE_OK) := by
  simp [resetFinalize, hstm, statementcache_finalize, hlast, releaseEvent,
        setExc, SQLITE_OK]

/-- `resetChainCheck` keeps an already-pending error. -/
theorem resetChainCheck_pending_some (c : Cursor) (force : Bool) (res : Nat)
    (e : PyExc) (hpe : c.pendingErr = some e) :
    (resetChainCheck c force res).1.pendingErr = some e := by
  simp only [resetChainCheck, raiseIfClear]
  split_ifs <;> simp_all

/-- `resetEmCheck` keeps an already-pending error. -/
theorem resetEmCheck_pending_some (c : Cursor) (force : Bool) (res : Nat)
    (e : PyExc) (hpe : c.pendingErr = some e) :
    (resetEmCheck c force res).1.pendingErr = some e := by
  rcases hem : c.emiter with _ | (_ | ⟨x, xs⟩) <;>
    simp only [resetEmCheck, hem, raiseIfClear] <;> (try split_ifs) <;>
      simp_all

/-- `resetChainCheck` under force is the identity. -/
theorem resetChainCheck_force (c : Cursor) (res : Nat) :
    resetChainCheck c true res = (c, res) := by
  simp [resetChainCheck]

/-- `resetEmCheck` under force is the identity. -/
theorem resetEmCheck_force (c : Cursor) (res : Nat) :
    resetEmCheck c true res = (c, res) := by
  rcases hem : c.emiter with _ | (_ | ⟨x, xs⟩) <;> simp [resetEmCheck, hem]

/-- `resetcursor` never replaces an already-pending error: both the
finalize-error raise (`SET_EXC`) and the incomplete raises are guarded by
`PyErr_Occurred`. -/
theorem resetcursor_preserves_pending (c : Cursor) (force : Bool)
    (e : PyExc) (hpe : c.pendingErr = some e) :
    (resetcursor c force).1.pendingErr = some e := by
  have hA : (resetFinalize { c with bindings := none, bindingsoffset := -1 }
      force).1.pendingErr = some e :=
    resetFinalize_pending_some _ force e hpe
  have hB := resetChainCheck_pending_some
    (resetFinalize { c with bindings := none, bindingsoffset := -1 } force).1
    force
    (resetFinalize { c with bindings := none, bindingsoffset := -1 } force).2
    e hA
  have hC := resetEmCheck_pending_some
    { (resetChainCheck
        (resetFinalize { c with bindings := none, bindingsoffset := -1 }
          force).1 force
        (resetFinalize { c with bindings := none, bindingsoffset := -1 }
          force).2).1 with zsqlnextpos := none }
    force
    (resetChainCheck
        (resetFinalize { c with bindings := none, bindingsoffset := -1 }
          force).1 force
        (resetFinalize { c with bindings := none, bindingsoffset := -1 }
          force).2).2
    e hB
  simpa [resetcursor] using hC

/-- `resetcursor` under `force` reports success and raises nothing when
the held unit (if any) finalizes cleanly. -/
theorem resetcursor_force_clean (c : Cursor)
    (hok : ∀ st, c.statement = some st → st.lastErr = SQLITE_OK) :
    (resetcursor c true).2 = SQLITE_OK ∧
    (resetcursor c true).1.pendingErr = c.pendingErr := by
  have hfin : ∃ c1 : Cursor,
      resetFinalize { c with bindings := none, bindingsoffset := -1 } true =
        (c1, SQLITE_OK) ∧ c1.pendingErr = c.pendingErr := by
    obtain hstm | ⟨st, hstm⟩ : c.statement = none ∨
        ∃ st, c.statement = some st := by
      cases c.statement
      exacts [Or.inl rfl, Or.inr ⟨_, rfl⟩]
    · exact ⟨_, resetFinalize_none
        { c with bindings := none, bindingsoffset := -1 } true hstm, rfl⟩
    · exact ⟨_, resetFinalize_clean
        { c with bindings := none, bindingsoffset := -1 } true st hstm
        (hok st hstm), rfl⟩
  obtain ⟨c1, heq, hpe1⟩ := hfin
  simp only [resetcursor, heq, resetChainCheck_force, resetEmCheck_force]
  simp [hpe1]

/-- `resetcursor(force=false)` on a not-yet-done cursor with a non-empty
remainder or a non-exhausted batch iterator reports an error and raises
`ExcIncomplete` (given no error is already pending and the held unit
finalizes cleanly). -/
theorem resetcursor_incomplete (c : Cursor)
    (hpe : c.pendingErr = none) (hnd : c.status ≠ .done)
    (hok : ∀ st, c.statement = some st → st.lastErr = SQLITE_OK)
    (hun : remainderNonempty c = true ∨ ∃ x xs, c.emiter = some (x :: xs)) :
    (resetcursor c false).2 = SQLITE_ERROR ∧
    (resetcursor c false).1.pendingErr = some .incomplete := by
  have hfin : ∃ c1 : Cursor,
      resetFinalize { c with bindings := none, bindingsoffset := -1 } false =
        (c1, SQLITE_OK) ∧
      c1.pendingErr = none ∧ c1.status = c.status ∧
      c1.zsqlnextpos = c.zsqlnextpos ∧ c1.zsql = c.zsql ∧
      c1.emiter = c.emiter := by
    obtain hstm | ⟨st, hstm⟩ : c.statement = none ∨
        ∃ st, c.statement = some st := by
      cases c.statement
      exacts [Or.inl rfl, Or.inr ⟨_, rfl⟩]
    · exact ⟨_, resetFinalize_none
        { c with bindings := none, bindingsoffset := -1 } false hstm,
        hpe, rfl, rfl, rfl, rfl⟩
    · exact ⟨_, resetFinalize_clean
        { c with bindings := none, bindingsoffset := -1 } false st hstm
        (hok st hstm),
        hpe, rfl, rfl, rfl, rfl⟩
  obtain ⟨c1, hfin, hc1pe, hc1st, hc1zp, hc1zq, hc1em⟩ := hfin
  have hrem1 : remainderNonempty c1 = remainderNonempty c := by
    rw [remainderNonempty_eq, remainderNonempty_eq, hc1zp, hc1zq]
  rw [resetcursor, hfin]
  rcases hun with hrem | ⟨x, xs, hem⟩
  · have hck : resetChainCheck c1 false SQLITE_OK =
        ({ c1 with pendingErr := some .incomplete }, SQLITE_ERROR) := by
      simp [resetChainCheck, hc1st, hnd, hrem1, hrem, raiseIfClear, hc1pe]
    rw [hck]
    rcases hem : c1.emiter with _ | (_ | ⟨y, ys⟩) <;>
      simp [resetEmCheck, hem, raiseIfClear, hc1st, hnd]
  · have hem1 : c1.emiter = some (x :: xs) := hc1em.trans hem
    by_cases hrem : remainderNonempty c = true
    · have hck : resetChainCheck c1 false SQLITE_OK =
          ({ c1 with pendingErr := some .incomplete }, SQLITE_ERROR) := by
        simp [resetChainCheck, hc1st, hnd, hrem1, hrem, raiseIfClear, hc1pe]
      rw [hck]
      simp [resetEmCheck, hem1, raiseIfClear, hc1st, hnd]
    · have hck : resetChainCheck c1 false SQLITE_OK = (c1, SQLITE_OK) := by
        simp [resetChainCheck, hrem1, hrem]
      rw [hck]
      simp [resetEmCheck, hem1, raiseIfClear, hc1st, hnd, hc1pe]

/-- Claim C3: `close(force=false)` on a cursor whose statement chain or
batch-binding iterator is not exhausted fails with
`IncompleteExecutionError`; the check is suppressed when `force` is true
(close succeeds and raises nothing), and an error already pending when
close runs — teardown of an operation that already failed — is never
replaced by the incomplete error.  The hypothesis that the held unit (if
any) finalizes cleanly holds for every unit a cursor can be left holding:
a unit whose step errored is finalized on the spot by the step loop. -/
theorem close_unexhausted_incomplete (c : Cursor) (hiu : c.inuse = false)
    (hco : c.connOpen = true)
    (hok : ∀ st, c.statement = some st → st.lastErr = SQLITE_OK) :
    (c.pendingErr = none → c.status ≠ .done →
      (remainderNonempty c = true ∨ (∃ x xs, c.emiter = some (x :: xs))) →
      (APSWCursor_close c false).2 = false ∧
      (APSWCursor_close c false).1.pendingErr = some .incomplete) ∧
    ((APSWCursor_close c true).2 = true ∧
      (APSWCursor_close c true).1.pendingErr = c.pendingErr) ∧
    (∀ e, c.pendingErr = some e →
      (APSWCursor_close c false).1.pendingErr = some e) := by
  refine ⟨?_, ?_, ?_⟩
  · intro hpe hnd hun
    have h := resetcursor_incomplete c hpe hnd hok hun
    simp [APSWCursor_close, hiu, hco, h.1, h.2, SQLITE_ERROR, SQLITE_OK]
  · have h := resetcursor_force_clean c hok
    simp [APSWCursor_close, hiu, hco, h.1, h.2, SQLITE_OK]
  · intro e hpe
    have h := resetcursor_preserves_pending c false e hpe
    by_cases hres : (resetcursor c false).2 = SQLITE_OK <;>
      simp [APSWCursor_close, hiu, hco, hres, h]

/-- A closed instance of `close_unexhausted_incomplete`: a cursor paused
on a row with one more statement in the chain. -/
theorem close_unexhausted_incomplete_witness :
    (APSWCursor_close
      { freshCursor with
          statement := some ⟨0, [], SQLITE_OK, [], ⟨0, [], [.row]⟩⟩,
          zsql := some (mkChain [(0, 1), (0, 0)]), zsqlnextpos := some 1,
          status := .row } false).2 = false ∧
    (APSWCursor_close
      { freshCursor with
          statement := some ⟨0, [], SQLITE_OK, [], ⟨0, [], [.row]⟩⟩,
          zsql := some (mkChain [(0, 1), (0, 0)]), zsqlnextpos := some 1,
          status := .row } false).1.pendingErr = some .incomplete :=
  (close_unexhausted_incomplete
      { freshCursor with
          statement := some ⟨0, [], SQLITE_OK, [], ⟨0, [], [.row]⟩⟩,
          zsql := some (mkChain [(0, 1), (0, 0)]), zsqlnextpos := some 1,
          status := .row }
      rfl rfl (by intro st h; cases h; rfl)).1 rfl (by decide)
    (Or.inl (by decide))

/-- `resetcursor(force=false)` on a cursor already in `DONE` that holds an
error-disqualified unit: the unit is destroyed (not released to the
cache), its engine code is raised, and no incomplete check fires. -/
theorem resetcursor_error_unit (c : Cursor) (st : Stmt)
    (hstm : c.statement = some st) (hpe : c.pendingErr = none)
    (herr : st.lastErr ≠ SQLITE_OK) (hnd : c.status = .done) :
    resetcursor c false =
      ({ c with statement := none, bindings := none, bindingsoffset := -1,
                zsqlnextpos := none, emiter := none, zsql := none,
                status := .done, pendingErr := some (.sqlError st.lastErr),
                log := c.log ++ [.destroyed st.pos] }, st.lastErr) := by
  rcases hem : c.emiter with _ | (_ | ⟨x, xs⟩) <;>
    simp [resetcursor, resetFinalize, statementcache_finalize, releaseEvent,
          setExc, resetChainCheck, resetEmCheck, raiseIfClear,
          hstm, hpe, hnd, herr, hem]

/-- Claim C6: when the engine's step reports anything other than row or
done (a schema-invalidated statement included), the step loop finalizes
the current unit outright instead of returning it to the cache, lands in
`DONE`, and propagates the engine's error; the appended log shows no
acquisition — no retry or re-prepare is ever attempted. -/
theorem step_error_finalizes_and_propagates (c : Cursor) (st : Stmt)
    (code : Nat) (rest : List StepRes) (f : Nat)
    (hst : c.statement = some st) (hrem : st.rem = .errc code :: rest)
    (hpe : c.pendingErr = none) (hrow : code % 256 ≠ SQLITE_ROW)
    (hdone : code % 256 ≠ SQLITE_DONE) (hok : code ≠ SQLITE_OK) :
    stepLoop (f + 1) c =
      some ({ c with statement := none, bindings := none,
                     bindingsoffset := -1, zsqlnextpos := none,
                     emiter := none, zsql := none, status := .done,
                     pendingErr := some (.sqlError code),
                     log := c.log ++
                       [.stepped st.pos code, .destroyed st.pos] },
            false) := by
  have hstep : sqlite3_step st = (code, { st with rem := rest, lastErr := code }) := by
    simp [sqlite3_step, hrem]
  have hres := resetcursor_error_unit
    { c with statement := some { st with rem := rest, lastErr := code },
             log := c.log ++ [.stepped st.pos code], status := .done }
    { st with rem := rest, lastErr := code } rfl hpe hok rfl
  rw [hpe] at hres
  simp only [stepLoop, hst, hstep]
  simp only [SQLITE_ROW, SQLITE_DONE] at hrow hdone ⊢
  simp [hrow, hdone, hpe, hres]

/-- A closed instance of `step_error_finalizes_and_propagates`: a
schema-invalidated statement (`SQLITE_SCHEMA` = 17) mid-chain, with the
batch iterator active. -/
theorem step_error_finalizes_and_propagates_witness :
    stepLoop 4
      { freshCursor with
          statement := some ⟨0, [.errc 17], SQLITE_OK, [], ⟨0, [], [.errc 17]⟩⟩,
          zsql := some (mkChain [(0, 0), (0, 0)]), zsqlnextpos := some 1,
          status := .begin, emiter := some [EMItem.badItem] } =
      some ({ freshCursor with
                statement := none, bindings := none, bindingsoffset := -1,
                zsqlnextpos := none, emiter := none, zsql := none,
                status := .done, pendingErr := some (.sqlError 17),
                log := [.stepped 0 17, .destroyed 0] }, false) := by
  have h := step_error_finalizes_and_propagates
    { freshCursor with
        statement := some ⟨0, [.errc 17], SQLITE_OK, [], ⟨0, [], [.errc 17]⟩⟩,
        zsql := some (mkChain [(0, 0), (0, 0)]), zsqlnextpos := some 1,
        status := .begin, emiter := some [EMItem.badItem] }
    ⟨0, [.errc 17], SQLITE_OK, [], ⟨0, [], [.errc 17]⟩⟩ 17 [] 3
    rfl rfl rfl (by decide) (by decide) (by decide)
  simpa using h

/-! ### Binding reconciler lemmas -/

/-- A value `bindSafe` accepts is marshalled into its slot. -/
theorem dobinding_ok (st : Stmt) (arg : Nat) (v : SQValue)
    (h : bindSafe v = true) :
    APSWCursor_dobinding st arg v = .ok (bindSlot st arg v) := by
  cases v <;> simp_all [APSWCursor_dobinding, bindSafe]

/-- Values pulled out of an all-safe sequence (or the never-consulted
default) are safe. -/
theorem getD_bindSafe (vals : List SQValue)
    (hsafe : ∀ v ∈ vals, bindSafe v = true) (i : Nat) :
    bindSafe (vals.getD i .null) = true := by
  rcases h : vals[i]? with _ | v
  · simp [List.getD, h, bindSafe]
  · have hv : vals.getD i .null = v := by simp [List.getD, h]
    rw [hv]
    exact hsafe v (List.getElem?_mem h)

/-- The positional binding loop succeeds on an all-safe sequence and
touches nothing but the slot contents. -/
theorem bindSeqArgs_ok (vals : List SQValue) (off : Int)
    (hsafe : ∀ v ∈ vals, bindSafe v = true) :
    ∀ (k : Nat) (st : Stmt) (arg : Nat), ∃ st2,
      bindSeqArgs vals off st arg k = .ok st2 ∧ st2.pos = st.pos ∧
      st2.rem = st.rem ∧ st2.lastErr = st.lastErr ∧ st2.spec = st.spec := by
  intro k
  induction k with
  | zero => exact fun st arg => ⟨st, rfl, rfl, rfl, rfl, rfl⟩
  | succ k ih =>
      intro st arg
      obtain ⟨st2, h2, hp, hr, hl, hs⟩ :=
        ih (bindSlot st arg (vals.getD (off + (arg : Int) - 1).toNat .null))
          (arg + 1)
      refine ⟨st2, ?_, hp, hr, hl, hs⟩
      simp only [bindSeqArgs,
        dobinding_ok st arg _ (getD_bindSafe vals hsafe _)]
      exact h2

/-- `APSWCursor_dobindings` on a positional sequence: the arity check
fails with `ExcBindings` when the values remaining at the current offset
are fewer than the unit's parameter count (more statements follow) or not
exactly the parameter count (last statement). -/
theorem dobindings_seq_count_fail (c : Cursor) (vals : List SQValue)
    (st : Stmt) (hb : c.bindings = some (.seq vals))
    (hst : c.statement = some st) (hpe : c.pendingErr = none)
    (hcount :
      (remainderNonempty c = true ∧
        (vals.length : Int) - c.bindingsoffset < (parameterCount st : Int)) ∨
      (remainderNonempty c = false ∧
        (vals.length : Int) - c.bindingsoffset ≠ (parameterCount st : Int))) :
    APSWCursor_dobindings c = ({ c with pendingErr := some .bindingCount },
      false) := by
  rcases hcount with ⟨hrem, hlt⟩ | ⟨hrem, hne⟩
  · simp [APSWCursor_dobindings, hb, hst, hpe, hrem, hlt]
  · simp [APSWCursor_dobindings, hb, hst, hpe, hrem, hne]

/-- `APSWCursor_dobindings` on a positional sequence: when the arity check
passes and the consumed window is all-safe, binding succeeds, the offset
advances by the parameter count, and nothing else of the cursor changes
(the statement keeps its position, remaining steps, finalize code and
description — only slot contents move). -/
theorem dobindings_seq_ok (c : Cursor) (vals : List SQValue) (st : Stmt)
    (hb : c.bindings = some (.seq vals)) (hst : c.statement = some st)
    (hpe : c.pendingErr = none)
    (hsafe : ∀ v ∈ vals, bindSafe v = true)
    (hcount :
      (remainderNonempty c = true ∧
        (parameterCount st : Int) ≤ (vals.length : Int) - c.bindingsoffset) ∨
      (remainderNonempty c = false ∧
        (vals.length : Int) - c.bindingsoffset = (parameterCount st : Int))) :
    ∃ st2, APSWCursor_dobindings c =
      ({ c with statement := some st2,
                bindingsoffset := c.bindingsoffset + parameterCount st,
                log := c.log ++ [.boundOk st.pos c.bindingsoffset] }, true) ∧
      st2.pos = st.pos ∧ st2.rem = st.rem ∧ st2.lastErr = st.lastErr ∧
      st2.spec = st.spec := by
  obtain ⟨st2, h2, hp, hr, hl, hs⟩ :=
    bindSeqArgs_ok vals c.bindingsoffset hsafe (parameterCount st) st 1
  refine ⟨st2, ?_, hp, hr, hl, hs⟩
  rcases hcount with ⟨hrem, hge⟩ | ⟨hrem, heq⟩ <;>
    simp [APSWCursor_dobindings, hb, hst, hpe, hrem, h2] <;>
    omega

/-- Claim C4: for a positional binding sequence applied to one compiled
unit, binding fails with `BindingCountError` unless the number of values
remaining at the current chain offset is exactly the unit's parameter
count when this is the last unit of the chain (`remainderNonempty =
false`), or at least that count when more units follow; on success the
offset advances by the parameter count so the same flat sequence feeds
the later units of the chain. -/
theorem positional_binding_arity (c : Cursor) (vals : List SQValue)
    (st : Stmt) (hb : c.bindings = some (.seq vals))
    (hst : c.statement = some st) (hpe : c.pendingErr = none) :
    ((¬ ((remainderNonempty c = true ∧
          (parameterCount st : Int) ≤
            (vals.length : Int) - c.bindingsoffset) ∨
        (remainderNonempty c = false ∧
          (vals.length : Int) - c.bindingsoffset =
            (parameterCount st : Int)))) →
      APSWCursor_dobindings c =
        ({ c with pendingErr := some .bindingCount }, false)) ∧
    ((∀ v ∈ vals, bindSafe v = true) →
     ((remainderNonempty c = true ∧
        (parameterCount st : Int) ≤ (vals.length : Int) - c.bindingsoffset) ∨
      (remainderNonempty c = false ∧
        (vals.length : Int) - c.bindingsoffset = (parameterCount st : Int))) →
      ∃ st2, APSWCursor_dobindings c =
        ({ c with statement := some st2,
                  bindingsoffset := c.bindingsoffset + parameterCount st,
                  log := c.log ++ [.boundOk st.pos c.bindingsoffset] },
         true)) := by
  constructor
  · intro hbad
    apply dobindings_seq_count_fail c vals st hb hst hpe
    rcases hrem : remainderNonempty c with _ | _
    · right
      refine ⟨rfl, ?_⟩
      intro h
      exact hbad (Or.inr ⟨hrem, h⟩)
    · left
      refine ⟨rfl, ?_⟩
      by_contra h
      exact hbad (Or.inl ⟨hrem, by omega⟩)
  · intro hsafe hcount
    obtain ⟨st2, heq, _, _, _, _⟩ :=
      dobindings_seq_ok c vals st hb hst hpe hsafe hcount
    exact ⟨st2, heq⟩

/-- A closed instance of `positional_binding_arity`: a last-in-chain unit
with 2 parameters given 3 remaining values fails with `ExcBindings`; with
exactly 2 it succeeds and the offset advances from 1 to 3. -/
theorem positional_binding_arity_witness :
    APSWCursor_dobindings
      { freshCursor with
          statement := some ⟨0, [], SQLITE_OK, [none, none],
                             ⟨2, [none, none], []⟩⟩,
          bindings := some (.seq [.int 1, .int 2, .int 3, .int 4]),
          bindingsoffset := 1, zsqlnextpos := some 1,
          zsql := some (mkChain [(2, 0)]) } =
      ({ freshCursor with
          statement := some ⟨0, [], SQLITE_OK, [none, none],
                             ⟨2, [none, none], []⟩⟩,
          bindings := some (.seq [.int 1, .int 2, .int 3, .int 4]),
          bindingsoffset := 1, zsqlnextpos := some 1,
          zsql := some (mkChain [(2, 0)]),
          pendingErr := some .bindingCount }, false) ∧
    ∃ st2, APSWCursor_dobindings
      { freshCursor with
          statement := some ⟨0, [], SQLITE_OK, [none, none],
                             ⟨2, [none, none], []⟩⟩,
          bindings := some (.seq [.int 1, .int 2, .int 3]),
          bindingsoffset := 1, zsqlnextpos := some 1,
          zsql := some (mkChain [(2, 0)]) } =
      ({ freshCursor with
          statement := some st2,
          bindings := some (.seq [.int 1, .int 2, .int 3]),
          bindingsoffset := 3, zsqlnextpos := some 1,
          zsql := some (mkChain [(2, 0)]),
          log := [.boundOk 0 1] }, true) := by
  constructor
  · have h := (positional_binding_arity
      { freshCursor with
          statement := some ⟨0, [], SQLITE_OK, [none, none],
                             ⟨2, [none, none], []⟩⟩,
          bindings := some (.seq [.int 1, .int 2, .int 3, .int 4]),
          bindingsoffset := 1, zsqlnextpos := some 1,
          zsql := some (mkChain [(2, 0)]) }
      [.int 1, .int 2, .int 3, .int 4]
      ⟨0, [], SQLITE_OK, [none, none], ⟨2, [none, none], []⟩⟩
      rfl rfl rfl).1 (by decide)
    simpa using h
  · have h := (positional_binding_arity
      { freshCursor with
          statement := some ⟨0, [], SQLITE_OK, [none, none],
                             ⟨2, [none, none], []⟩⟩,
          bindings := some (.seq [.int 1, .int 2, .int 3]),
          bindingsoffset := 1, zsqlnextpos := some 1,
          zsql := some (mkChain [(2, 0)]) }
      [.int 1, .int 2, .int 3]
      ⟨0, [], SQLITE_OK, [none, none], ⟨2, [none, none], []⟩⟩
      rfl rfl rfl).2 (by decide) (by decide)
    simpa using h

/-- Binding a slot does not change the parameter-name table. -/
theorem parameterName_bindSlot (st : Stmt) (a : Nat) (v : SQValue)
    (x : Nat) : parameterName (bindSlot st a v) x = parameterName st x := rfl

/-- The dict loop hits the first nameless slot of its window and fails
with `ExcBindings`, provided the named slots before it bind cleanly. -/
theorem bindDictArgs_noname (m : List (String × SQValue)) :
    ∀ (j k : Nat) (st : Stmt) (arg : Nat), j < k →
      parameterName st (arg + j) = none →
      (∀ i, i < j → parameterName st (arg + i) ≠ none) →
      (∀ i key v, i < j → parameterName st (arg + i) = some key →
        m.lookup (key.drop 1) = some v → bindSafe v = true) →
      bindDictArgs m st arg k = .error .bindingNoName := by
  intro j
  induction j with
  | zero =>
      intro k st arg hj hun hnm hsf
      obtain ⟨k', rfl⟩ : ∃ k', k = k' + 1 :=
        ⟨k - 1, by omega⟩
      simp only [Nat.add_zero] at hun
      simp [bindDictArgs, hun]
  | succ j ih =>
      intro k st arg hj hun hnm hsf
      obtain ⟨k', rfl⟩ : ∃ k', k = k' + 1 :=
        ⟨k - 1, by omega⟩
      obtain ⟨key, hkey⟩ : ∃ key, parameterName st arg = some key := by
        rcases h : parameterName st arg with _ | key
        · exact absurd (by simpa using h) (by simpa using hnm 0 (by omega))
        · exact ⟨key, rfl⟩
      have hun1 : parameterName st (arg + 1 + j) = none := by
        have : arg + 1 + j = arg + (j + 1) := by omega
        rw [this]
        exact hun
      have hnm1 : ∀ i, i < j → parameterName st (arg + 1 + i) ≠ none := by
        intro i hi
        have : arg + 1 + i = arg + (i + 1) := by omega
        rw [this]
        exact hnm (i + 1) (by omega)
      have hsf1 : ∀ i key v, i < j → parameterName st (arg + 1 + i) = some key →
          m.lookup (key.drop 1) = some v → bindSafe v = true := by
        intro i key v hi hk hl
        have heq : arg + 1 + i = arg + (i + 1) := by omega
        rw [heq] at hk
        exact hsf (i + 1) key v (by omega) hk hl
      rcases hlk : m.lookup (key.drop 1) with _ | obj
      · simp only [bindDictArgs, hkey, hlk]
        exact ih k' st (arg + 1) (by omega) hun1 hnm1 hsf1
      · have hobj : bindSafe obj = true :=
          hsf 0 key obj (by omega) (by simpa using hkey) hlk
        simp only [bindDictArgs, hkey, hlk, dobinding_ok st arg obj hobj]
        exact ih k' (bindSlot st arg obj) (arg + 1) (by omega) hun1 hnm1 hsf1

/-- The dict loop succeeds when every slot of its window is named and
every mapped value is safe; slots whose name is absent from the mapping
keep their previous contents. -/
theorem bindDictArgs_ok (m : List (String × SQValue)) :
    ∀ (k : Nat) (st : Stmt) (arg : Nat),
      (∀ i, i < k → parameterName st (arg + i) ≠ none) →
      (∀ i key v, i < k → parameterName st (arg + i) = some key →
        m.lookup (key.drop 1) = some v → bindSafe v = true) →
      ∃ st2, bindDictArgs m st arg k = .ok st2 ∧ st2.pos = st.pos ∧
        st2.rem = st.rem ∧ st2.lastErr = st.lastErr ∧ st2.spec = st.spec ∧
        (∀ i key, parameterName st (i + 1) = some key →
          m.lookup (key.drop 1) = none →
          st2.binds.get? i = st.binds.get? i) := by
  intro k
  induction k with
  | zero =>
      intro st arg _ _
      exact ⟨st, rfl, rfl, rfl, rfl, rfl, fun _ _ _ _ => rfl⟩
  | succ k ih =>
      intro st arg hnm hsf
      obtain ⟨key, hkey⟩ : ∃ key, parameterName st arg = some key := by
        rcases h : parameterName st arg with _ | key
        · exact absurd (by simpa using h) (by simpa using hnm 0 (by omega))
        · exact ⟨key, rfl⟩
      have hnm1 : ∀ i, i < k → parameterName st (arg + 1 + i) ≠ none := by
        intro i hi
        have : arg + 1 + i = arg + (i + 1) := by omega
        rw [this]
        exact hnm (i + 1) (by omega)
      have hsf1 : ∀ i key v, i < k → parameterName st (arg + 1 + i) = some key →
          m.lookup (key.drop 1) = some v → bindSafe v = true := by
        intro i key v hi hk hl
        have heq : arg + 1 + i = arg + (i + 1) := by omega
        rw [heq] at hk
        exact hsf (i + 1) key v (by omega) hk hl
      rcases hlk : m.lookup (key.drop 1) with _ | obj
      · obtain ⟨st2, h2, hp, hr, hl2, hs, hu⟩ := ih st (arg + 1) hnm1 hsf1
        refine ⟨st2, ?_, hp, hr, hl2, hs, hu⟩
        simp only [bindDictArgs, hkey, hlk]
        exact h2
      · have hobj : bindSafe obj = true :=
          hsf 0 key obj (by omega) (by simpa using hkey) hlk
        obtain ⟨st2, h2, hp, hr, hl2, hs, hu⟩ :=
          ih (bindSlot st arg obj) (arg + 1) hnm1 hsf1
        refine ⟨st2, ?_, hp, hr, hl2, hs, ?_⟩
        · simp only [bindDictArgs, hkey, hlk, dobinding_ok st arg obj hobj]
          exact h2
        · intro i key2 hk2 hl2'
          have hne : i ≠ arg - 1 := by
            intro hi
            subst hi
            have halias : parameterName st (arg - 1 + 1) = some key := by
              rcases Nat.eq_zero_or_pos arg with h0 | hpos
              · subst h0
                simpa [parameterName] using hkey
              · have harith : arg - 1 + 1 = arg := by omega
                rw [harith]
                exact hkey
            rw [hk2] at halias
            obtain rfl : key2 = key := (Option.some.injEq _ _).mp halias
            rw [hl2'] at hlk
            cases hlk
          have := hu i key2 hk2 hl2'
          rw [this]
          show ((st.binds.set (arg - 1) (some obj)).get? i) = st.binds.get? i
          rw [List.get?_eq_getElem?, List.get?_eq_getElem?]
          exact List.getElem?_set_ne (Ne.symm hne)

/-- Counterexample to claim C5: applying a mapping (dict) binding set to a
unit whose parameter slot has **no name** is not a valid no-op — the code
fails immediately with `ExcBindings` ("Binding 0 has no name, but you
supplied a dict"), before anything is bound. -/
theorem dict_unnamed_slot_fails_cex :
    APSWCursor_dobindings
      { freshCursor with
          statement := some ⟨0, [], SQLITE_OK, [none], ⟨1, [none], []⟩⟩,
          bindings := some (.dict []) } =
      ({ freshCursor with
          statement := some ⟨0, [], SQLITE_OK, [none], ⟨1, [none], []⟩⟩,
          bindings := some (.dict []),
          pendingErr := some .bindingNoName }, false) := by
  decide

/-- Claim C5 (amended): for a mapping binding set, a parameter slot with
no name makes the operation fail with `ExcBindings` (the unit cannot be
addressed by name); it is the *named* slots whose name is absent from the
mapping that are left untouched as a valid no-op, with the engine default
of unbound-equals-null applying to them. -/
theorem dict_binding_unnamed_and_missing (c : Cursor)
    (m : List (String × SQValue)) (st : Stmt)
    (hb : c.bindings = some (.dict m)) (hst : c.statement = some st)
    (hpe : c.pendingErr = none) :
    ((∃ j, j < parameterCount st ∧ parameterName st (1 + j) = none ∧
        (∀ i, i < j → parameterName st (1 + i) ≠ none) ∧
        (∀ i key v, i < j → parameterName st (1 + i) = some key →
          m.lookup (key.drop 1) = some v → bindSafe v = true)) →
      APSWCursor_dobindings c =
        ({ c with pendingErr := some .bindingNoName }, false)) ∧
    (((∀ i, i < parameterCount st → parameterName st (1 + i) ≠ none) ∧
      (∀ i key v, i < parameterCount st → parameterName st (1 + i) = some key →
        m.lookup (key.drop 1) = some v → bindSafe v = true)) →
      ∃ st2, APSWCursor_dobindings c =
        ({ c with statement := some st2,
                  log := c.log ++ [.boundOk st.pos c.bindingsoffset] },
         true) ∧
        (∀ i key, parameterName st (i + 1) = some key →
          m.lookup (key.drop 1) = none →
          st2.binds.get? i = st.binds.get? i)) := by
  constructor
  · rintro ⟨j, hj, hun, hnm, hsf⟩
    have h := bindDictArgs_noname m j (parameterCount st) st 1 hj hun hnm hsf
    rcases hn : parameterCount st with _ | n
    · omega
    · simp [APSWCursor_dobindings, hb, hst, hpe, hn, hn ▸ h]
  · rintro ⟨hnm, hsf⟩
    obtain ⟨st2, h2, _, _, _, _, hu⟩ :=
      bindDictArgs_ok m (parameterCount st) st 1 hnm hsf
    refine ⟨st2, ?_, hu⟩
    rcases hn : parameterCount st with _ | n <;>
      simp [APSWCursor_dobindings, hb, hst, hpe, hn, hn ▸ h2]

/-- A closed instance of `dict_binding_unnamed_and_missing`: a two-slot
unit (`:a`, `:b`) bound from a mapping that only has `a` — slot 2 stays
untouched. -/
theorem dict_binding_unnamed_and_missing_witness :
    ∃ st2, APSWCursor_dobindings
      { freshCursor with
          statement := some ⟨0, [], SQLITE_OK, [none, none],
                             ⟨2, [some ":a", some ":b"], []⟩⟩,
          bindings := some (.dict [("a", .int 7)]) } =
      ({ freshCursor with
          statement := some st2,
          bindings := some (.dict [("a", .int 7)]),
          log := [.boundOk 0 0] }, true) ∧
      st2.binds.get? 1 = some none :=
  have h := (dict_binding_unnamed_and_missing
    { freshCursor with
        statement := some ⟨0, [], SQLITE_OK, [none, none],
                           ⟨2, [some ":a", some ":b"], []⟩⟩,
        bindings := some (.dict [("a", .int 7)]) }
    [("a", .int 7)]
    ⟨0, [], SQLITE_OK, [none, none], ⟨2, [some ":a", some ":b"], []⟩⟩
    rfl rfl rfl).2
    ⟨by decide, by
      intro i key v hi hk hl
      simp only [parameterCount] at hi
      interval_cases i <;> simp_all [parameterName] <;> subst hk
      · rw [show List.lookup (":a".drop 1) [("a", SQValue.int 7)]
            = some (SQValue.int 7) from rfl] at hl
        injection hl with hv
        subst hv
        rfl
      · rw [show List.lookup (":b".drop 1) [("a", SQValue.int 7)]
            = (none : Option SQValue) from rfl] at hl
        cases hl⟩
  by
    obtain ⟨st2, heq, hu⟩ := h
    refine ⟨st2, by simpa using heq, ?_⟩
    have := hu 1 ":b" (by decide) (by decide)
    simpa using this

/-! ### Step-loop and drive helpers -/

/-- `resetcursor(force=false)` at the clean end of a run (status already
`DONE`, held unit finalizes cleanly, batch iterator absent or exhausted):
release the unit and succeed. -/
theorem resetcursor_clean_final (c : Cursor) (st : Stmt)
    (hstm : c.statement = some st) (hlast : st.lastErr = SQLITE_OK)
    (hpe : c.pendingErr = none) (hnd : c.status = .done)
    (hem : c.emiter = none ∨ c.emiter = some []) :
    resetcursor c false =
      ({ c with statement := none, bindings := none, bindingsoffset := -1,
                zsqlnextpos := none, emiter := none, zsql := none,
                status := .done, log := c.log ++ [.released st.pos] },
       SQLITE_OK) := by
  have hfin := resetFinalize_clean
    { c with bindings := none, bindingsoffset := -1 } false st hstm hlast
  rw [resetcursor, hfin]
  have hck : resetChainCheck
      { c with bindings := none, bindingsoffset := -1,
               log := c.log ++ [Event.released st.pos], statement := none }
      false SQLITE_OK =
      ({ c with bindings := none, bindingsoffset := -1,
                log := c.log ++ [Event.released st.pos], statement := none },
       SQLITE_OK) := by
    simp [resetChainCheck, hnd]
  rw [hck]
  rcases hem with hem | hem <;> simp [resetEmCheck, hem]

/-- One engine step that yields a row: the loop records the row, flags
`ROW`, and hands control back. -/
theorem stepLoop_row (c : Cursor) (st : Stmt) (rs : List StepRes) (f : Nat)
    (hst : c.statement = some st) (hrem : st.rem = .row :: rs)
    (hpe : c.pendingErr = none) :
    stepLoop (f + 1) c =
      some ({ c with statement := some { st with rem := rs }, status := .row,
                     log := c.log ++ [.stepped st.pos SQLITE_ROW] }, true) := by
  have hstep : sqlite3_step st = (SQLITE_ROW, { st with rem := rs }) := by
    simp [sqlite3_step, hrem]
  simp [stepLoop, hst, hstep, hpe, SQLITE_ROW]

/-- `next` on a cursor paused at a row just flips it back to `BEGIN`. -/
theorem next_on_row (f : Nat) (c : Cursor) (hiu : c.inuse = false)
    (hco : c.connOpen = true) (hss : c.status = .row) :
    APSWCursor_next f c = some ({ c with status := .begin }, .gotRow) := by
  simp [APSWCursor_next, hiu, hco, hss]

/-- `drive` on an exhausted cursor reports clean completion at once. -/
theorem drive_done (f : Nat) (c : Cursor) (hiu : c.inuse = false)
    (hco : c.connOpen = true) (hss : c.status = .done) :
    drive (f + 1) c = some (c, true) := by
  simp [drive, APSWCursor_next, hiu, hco, hss]

/-- `drive` through `r` pending row steps: each `next` pulls one row and
re-enters the loop, leaving the unit with no scripted steps and the log
extended by `r` row events. -/
theorem drive_rows :
    ∀ (r f : Nat) (c : Cursor) (st : Stmt),
      c.statement = some st → st.rem = List.replicate r .row →
      c.status = .begin → c.pendingErr = none → c.inuse = false →
      c.connOpen = true →
      drive (r + (f + 1)) c =
        drive (f + 1)
          { c with statement := some { st with rem := [] },
                   log := c.log ++
                     List.replicate r (.stepped st.pos SQLITE_ROW) } := by
  intro r
  induction r with
  | zero =>
      intro f c st hst hrem hss hpe hiu hco
      obtain ⟨co, iu, stm, zq, zp, stt, bnd, bo, em, et, rt, pe, lg⟩ := c
      obtain ⟨pos, rem, le, bl, sp⟩ := st
      simp only at hst hrem hss hpe hiu hco
      simp only [List.replicate] at hrem
      subst hst hrem hss hpe hiu hco
      simp [Nat.zero_add]
  | succ r ih =>
      intro f c st hst hrem hss hpe hiu hco
      have harith : r + 1 + (f + 1) = (r + (f + 1)) + 1 := by omega
      rw [harith]
      have hrow := stepLoop_row c st (List.replicate r .row) (r + (f + 1))
        hst (by rw [hrem]; simp [List.replicate_succ]) hpe
      have hnext : APSWCursor_next ((r + (f + 1)) + 1) c =
          some ({ c with statement := some { st with rem := List.replicate r .row },
                         log := c.log ++ [.stepped st.pos SQLITE_ROW],
                         status := .begin }, .gotRow) := by
        simp only [APSWCursor_next, hiu, hco, hss]
        simp [hiu, hco, hrow]
      rw [drive]
      simp only [hnext]
      have hih := ih f
        { c with statement := some { st with rem := List.replicate r .row },
                 log := c.log ++ [.stepped st.pos SQLITE_ROW],
                 status := .begin }
        { st with rem := List.replicate r .row }
        rfl rfl rfl hpe hiu hco
      rw [hih]
      congr 1
      obtain ⟨co, iu, stm, zq, zp, stt, bnd, bo, em, et, rt, pe, lg⟩ := c
      simp only at hss
      subst hss
      simp [List.replicate_succ]

/-! ### Chain bookkeeping lemmas -/

theorem sumArgs_append (a b : List (Nat × Nat)) :
    sumArgs (a ++ b) = sumArgs a + sumArgs b := by
  simp [sumArgs]

theorem sumRows_append (a b : List (Nat × Nat)) :
    sumRows (a ++ b) = sumRows a + sumRows b := by
  simp [sumRows]

theorem sumArgs_take_drop (l : List (Nat × Nat)) (k : Nat) :
    sumArgs (l.take k) + sumArgs (l.drop k) = sumArgs l := by
  rw [← sumArgs_append, List.take_append_drop]

theorem sumRows_take_drop (l : List (Nat × Nat)) (k : Nat) :
    sumRows (l.take k) + sumRows (l.drop k) = sumRows l := by
  rw [← sumRows_append, List.take_append_drop]

theorem getD_of_lt (l : List (Nat × Nat)) (k : Nat) (h : k < l.length) :
    l.getD k (0, 0) = l[k] := by
  simp [List.getD, List.getElem?_eq_getElem h]

theorem sumArgs_take_succ (l : List (Nat × Nat)) (k : Nat)
    (h : k < l.length) :
    sumArgs (l.take (k + 1)) = sumArgs (l.take k) + (l.getD k (0, 0)).1 := by
  rw [← List.take_concat_get' l k h, sumArgs_append, getD_of_lt l k h]
  simp [sumArgs]

theorem sumRows_take_succ (l : List (Nat × Nat)) (k : Nat)
    (h : k < l.length) :
    sumRows (l.take (k + 1)) = sumRows (l.take k) + (l.getD k (0, 0)).2 := by
  rw [← List.take_concat_get' l k h, sumRows_append, getD_of_lt l k h]
  simp [sumRows]

theorem mkChain_length (us : List (Nat × Nat)) :
    (mkChain us).length = us.length := by
  simp [mkChain]

theorem mkChain_get? (us : List (Nat × Nat)) (i : Nat) :
    (mkChain us).get? i =
      (us.get? i).map fun p =>
        .good ⟨p.1, List.replicate p.1 none, List.replicate p.2 .row⟩ := by
  simp [mkChain, List.get?_map]

/-- If the chain suffix past position `i` matches `mkChain (p :: rest)`,
position `i` is in range and describes `p`. -/
theorem chain_suffix_head (ch : List PrepItem) (i : Nat) (p : Nat × Nat)
    (rest : List (Nat × Nat)) (hch : ch.drop i = mkChain (p :: rest)) :
    ch.get? i = some (.good ⟨p.1, List.replicate p.1 none,
      List.replicate p.2 .row⟩) ∧
    ch.drop (i + 1) = mkChain rest ∧ i < ch.length := by
  have h0 : (ch.drop i).get? 0 = ch.get? (i + 0) := List.get?_drop ch i 0
  have h1 : ch.get? i = some (.good ⟨p.1, List.replicate p.1 none,
      List.replicate p.2 .row⟩) := by
    rw [show i = i + 0 by omega, ← h0, hch]
    rfl
  have h2 : ch.drop (i + 1) = mkChain rest := by
    have : (ch.drop i).drop 1 = ch.drop (i + 1) := by
      rw [List.drop_drop]
    rw [← this, hch]
    rfl
  have h3 : i < ch.length := by
    have := List.length_drop i ch
    rw [hch] at this
    simp [mkChain_length] at this
    omega
  exact ⟨h1, h2, h3⟩

/-- A chain suffix equal to `mkChain []` means position `i` is past the
end. -/
theorem chain_suffix_nil (ch : List PrepItem) (i : Nat)
    (hch : ch.drop i = mkChain []) : ch.length ≤ i := by
  have := List.length_drop i ch
  rw [hch] at this
  simp [mkChain] at this
  omega

/-! ### Event-shape lemmas -/

theorem firstRowy_none_rows :
    ∀ (l : List (Nat × Nat)), firstRowy l = none → ∀ p ∈ l, p.2 = 0 := by
  intro l
  induction l with
  | nil => intro _ p hp; cases hp
  | cons p rest ih =>
      intro h q hq
      simp only [firstRowy] at h
      by_cases hp : p.2 > 0
      · simp [hp] at h
      · simp only [hp, if_false, Option.map_eq_none'] at h
        rcases List.mem_cons.mp hq with rfl | hq2
        · omega
        · exact ih h q hq2

theorem chainEvents_of_no_rowy (tr : Bool) :
    ∀ (l : List (Nat × Nat)) (j : Nat) (off : Int), firstRowy l = none →
      chainEvents tr l j off = zeroCrossEvents tr l j off := by
  intro l
  induction l with
  | nil => intro j off _; rfl
  | cons p rest ih =>
      intro j off h
      simp only [firstRowy] at h
      by_cases hp : p.2 > 0
      · simp [hp] at h
      · simp only [hp, if_false, Option.map_eq_none'] at h
        have hp0 : p.2 = 0 := by omega
        simp only [chainEvents, zeroCrossEvents, hp0, List.replicate,
          ih (j + 1) (off + (p.1 : Int)) h]
        simp

theorem firstRowy_some_spec :
    ∀ (l : List (Nat × Nat)) (k : Nat), firstRowy l = some k →
      k < l.length ∧ (∀ m, m < k → (l.getD m (0, 0)).2 = 0) ∧
      0 < (l.getD k (0, 0)).2 := by
  intro l
  induction l with
  | nil => intro k h; cases h
  | cons p rest ih =>
      intro k h
      simp only [firstRowy] at h
      by_cases hp : p.2 > 0
      · simp only [hp, if_pos] at h
        obtain rfl : k = 0 := by cases h; rfl
        refine ⟨by simp, ?_, by simpa [List.getD] using hp⟩
        intro m hm
        omega
      · simp only [hp, if_false, Option.map_eq_some'] at h
        obtain ⟨k', hk', rfl⟩ := h
        obtain ⟨hlen, hzero, hpos⟩ := ih k' hk'
        refine ⟨by simp; omega, ?_, by simpa [List.getD] using hpos⟩
        intro m hm
        cases m with
        | zero => simpa [List.getD] using Nat.eq_zero_of_not_pos hp
        | succ m2 => simpa [List.getD] using hzero m2 (by omega)

theorem chainEvents_split (tr : Bool) :
    ∀ (k : Nat) (l : List (Nat × Nat)) (j : Nat) (off : Int),
      (∀ m, m < k → (l.getD m (0, 0)).2 = 0) → k < l.length →
      chainEvents tr l j off =
        zeroCrossEvents tr (l.take k) j off
        ++ enterEvents tr (j + k) (off + (sumArgs (l.take k) : Int))
        ++ List.replicate (l.getD k (0, 0)).2 (.stepped (j + k) SQLITE_ROW)
        ++ [.stepped (j + k) SQLITE_DONE, .released (j + k)]
        ++ chainEvents tr (l.drop (k + 1)) (j + k + 1)
            (off + (sumArgs (l.take (k + 1)) : Int)) := by
  intro k
  induction k with
  | zero =>
      intro l j off _ hlen
      rcases l with _ | ⟨p, rest⟩
      · simp at hlen
      · have hgd : (p :: rest).getD 0 (0, 0) = p := rfl
        have htk : (p :: rest).take 0 = ([] : List (Nat × Nat)) := rfl
        have htk1 : (p :: rest).take (0 + 1) = [p] := rfl
        have hdp : (p :: rest).drop (0 + 1) = rest := rfl
        rw [hgd, htk, htk1, hdp]
        simp [chainEvents, zeroCrossEvents, sumArgs, enterEvents]
  | succ k ih =>
      intro l j off hz hlen
      rcases l with _ | ⟨p, rest⟩
      · simp at hlen
      · have hp0 : p.2 = 0 := by
          simpa [List.getD] using hz 0 (by omega)
        have hz2 : ∀ m, m < k → (rest.getD m (0, 0)).2 = 0 := by
          intro m hm
          simpa [List.getD] using hz (m + 1) (by omega)
        have hlen2 : k < rest.length := by
          simp at hlen
          omega
        have hrec := ih rest (j + 1) (off + (p.1 : Int)) hz2 hlen2
        have hgd : ∀ d : Nat × Nat, (p :: rest).getD (k + 1) d = rest.getD k d := by
          intro d
          simp [List.getD]
        have htake : (p :: rest).take (k + 1) = p :: rest.take k := rfl
        have htake2 : (p :: rest).take (k + 1 + 1) = p :: rest.take (k + 1) := rfl
        have hdrop : (p :: rest).drop (k + 1 + 1) = rest.drop (k + 1) := rfl
        have hsa : ∀ q : List (Nat × Nat),
            (sumArgs (p :: q) : Int) = (p.1 : Int) + (sumArgs q : Int) := by
          intro q
          simp [sumArgs]
        have e1 : j + (k + 1) = j + 1 + k := by omega
        calc chainEvents tr (p :: rest) j off
            = enterEvents tr j off ++ [.stepped j SQLITE_DONE, .released j]
              ++ chainEvents tr rest (j + 1) (off + (p.1 : Int)) := by
              simp [chainEvents, hp0]
          _ = enterEvents tr j off ++ [.stepped j SQLITE_DONE, .released j]
              ++ (zeroCrossEvents tr (rest.take k) (j + 1) (off + (p.1 : Int))
                ++ enterEvents tr (j + 1 + k)
                    (off + (p.1 : Int) + (sumArgs (rest.take k) : Int))
                ++ List.replicate (rest.getD k (0, 0)).2
                    (.stepped (j + 1 + k) SQLITE_ROW)
                ++ [.stepped (j + 1 + k) SQLITE_DONE, .released (j + 1 + k)]
                ++ chainEvents tr (rest.drop (k + 1)) (j + 1 + k + 1)
                    (off + (p.1 : Int) + (sumArgs (rest.take (k + 1)) : Int))) := by
              rw [hrec]
          _ = _ := by
              rw [hgd, htake, htake2, hdrop, e1]
              simp only [zeroCrossEvents, hsa]
              simp [List.append_assoc, add_assoc]

/-! ### Advancing through a chain -/

/-- A unit with no scripted steps left reports done; with a non-empty
remainder the loop proceeds to "finalise and go again". -/
theorem stepLoop_done_advance (ch : List PrepItem) (i : Nat) (sp : StmtSpec)
    (bl : List (Option SQValue)) (vals : List SQValue) (tr : Bool)
    (off : Int) (lg : List Event) (f : Nat) (hlt : i + 1 < ch.length) :
    stepLoop (f + 1) (midCursor ch i 0 sp bl vals tr off lg .begin) =
      stepGoAgain f
        (midCursor ch i 0 sp bl vals tr off
          (lg ++ [.stepped i SQLITE_DONE]) .done) := by
  have hrem : remainderNonempty
      { midCursor ch i 0 sp bl vals tr off lg .begin with
        statement := some ⟨i, [], SQLITE_OK, bl, sp⟩,
        log := lg ++ [Event.stepped i SQLITE_DONE], status := .done } = true := by
    simp [remainderNonempty, midCursor, hlt]
  simp only [stepLoop, midCursor, List.replicate, sqlite3_step]
  simp only [midCursor, SQLITE_DONE, SQLITE_OK] at hrem
  simp [SQLITE_DONE, SQLITE_ROW, SQLITE_OK, hrem, midCursor]

/-- A unit with no scripted steps left, an empty remainder and no batch
iterator: the run finishes cleanly, releasing the unit. -/
theorem stepLoop_done_finish (ch : List PrepItem) (i : Nat) (sp : StmtSpec)
    (bl : List (Option SQValue)) (vals : List SQValue) (tr : Bool)
    (off : Int) (lg : List Event) (f : Nat) (hlen : ch.length ≤ i + 1) :
    stepLoop (f + 1) (midCursor ch i 0 sp bl vals tr off lg .begin) =
      some (doneCursor tr (lg ++ [.stepped i SQLITE_DONE, .released i]),
        true) := by
  have hreset := resetcursor_clean_final
    { midCursor ch i 0 sp bl vals tr off lg .begin with
      statement := some ⟨i, [], SQLITE_OK, bl, sp⟩,
      log := lg ++ [Event.stepped i SQLITE_DONE], status := .done }
    ⟨i, [], SQLITE_OK, bl, sp⟩ rfl rfl rfl rfl (Or.inl rfl)
  have hrem : remainderNonempty
      { midCursor ch i 0 sp bl vals tr off lg .begin with
        statement := some ⟨i, [], SQLITE_OK, bl, sp⟩,
        log := lg ++ [Event.stepped i SQLITE_DONE], status := .done } = false := by
    simp [remainderNonempty, midCursor]
    omega
  simp only [stepLoop, midCursor, List.replicate, sqlite3_step]
  simp only [midCursor, SQLITE_DONE, SQLITE_OK] at hrem hreset
  simp [SQLITE_DONE, SQLITE_ROW, hrem, hreset, midCursor, doneCursor,
    SQLITE_OK, List.append_assoc]

/-- Advancing past a finished unit: "finalise and go again" releases the
current unit, acquires the next one from the remainder, binds from the
flat sequence at the tracked offset, fires the tracer, and re-enters the
step loop on the new unit. -/
theorem stepGoAgain_advance (vals : List SQValue) (tr : Bool)
    (hsafe : ∀ v ∈ vals, bindSafe v = true)
    (ch : List PrepItem) (i : Nat) (sp : StmtSpec)
    (bl : List (Option SQValue)) (off : Int) (lg : List Event) (f : Nat)
    (p : Nat × Nat) (rest : List (Nat × Nat))
    (hch : ch.drop (i + 1) = mkChain (p :: rest))
    (hoff : off + (sumArgs (p :: rest) : Int) = (vals.length : Int)) :
    ∃ bl2, stepGoAgain f (midCursor ch i 0 sp bl vals tr off lg .done) =
      stepLoop f (midCursor ch (i + 1) p.2
        ⟨p.1, List.replicate p.1 none, List.replicate p.2 .row⟩ bl2 vals tr
        (off + (p.1 : Int))
        (lg ++ [.released i] ++ enterEvents tr (i + 1) off) .begin) := by
  obtain ⟨hget, hch2, hlen⟩ := chain_suffix_head ch (i + 1) p rest hch
  have hget2 : ch[i + 1]? = some (PrepItem.good ⟨p.1,
      List.replicate p.1 none, List.replicate p.2 .row⟩) := by
    rw [← List.get?_eq_getElem?]
    exact hget
  have hprep : statementcache_prepare ch (i + 1) =
      (SQLITE_OK, some ⟨i + 1, List.replicate p.2 .row, SQLITE_OK,
        List.replicate p.1 none,
        ⟨p.1, List.replicate p.1 none, List.replicate p.2 .row⟩⟩, i + 2) := by
    simp [statementcache_prepare, hget2]
  set stF : Stmt := ⟨i + 1, List.replicate p.2 .row, SQLITE_OK,
    List.replicate p.1 none,
    ⟨p.1, List.replicate p.1 none, List.replicate p.2 .row⟩⟩ with hstF
  set C3 : Cursor :=
    { connOpen := true, inuse := false, statement := some stF,
      zsql := some ch, zsqlnextpos := some (i + 2), status := .done,
      bindings := some (.seq vals), bindingsoffset := off, emiter := none,
      exectrace := if tr then some [] else none, rowtrace := false,
      pendingErr := none,
      log := lg ++ [.released i, .prepared (i + 1)] } with hC3
  have hcount :
      (remainderNonempty C3 = true ∧
        (parameterCount stF : Int) ≤ (vals.length : Int) - C3.bindingsoffset) ∨
      (remainderNonempty C3 = false ∧
        (vals.length : Int) - C3.bindingsoffset = (parameterCount stF : Int)) := by
    rcases rest with _ | ⟨q, rest2⟩
    · right
      have hle := chain_suffix_nil ch (i + 2) hch2
      constructor
      · simp [remainderNonempty, hC3]
        omega
      · simp only [sumArgs, List.map_cons, List.map_nil, List.sum_cons,
          List.sum_nil] at hoff
        simp [hC3, hstF, parameterCount]
        omega
    · left
      obtain ⟨_, _, hlen2⟩ := chain_suffix_head ch (i + 2) q rest2 hch2
      constructor
      · simp [remainderNonempty, hC3, hlen2]
      · have hnn : (0 : Int) ≤ (sumArgs (q :: rest2) : Int) := by positivity
        simp only [sumArgs, List.map_cons, List.sum_cons] at hoff hnn
        simp [hC3, hstF, parameterCount, sumArgs]
        omega
  obtain ⟨st2, hbind, hp2, hr2, hl2, hs2⟩ :=
    dobindings_seq_ok C3 vals stF rfl rfl rfl hsafe hcount
  refine ⟨st2.binds, ?_⟩
  have hst2 : st2 = ⟨i + 1, List.replicate p.2 .row, SQLITE_OK, st2.binds,
      ⟨p.1, List.replicate p.1 none, List.replicate p.2 .row⟩⟩ := by
    obtain ⟨a, b, c, d, e⟩ := st2
    simp only [hstF] at hp2 hr2 hl2 hs2
    subst hp2 hr2 hl2 hs2
    rfl
  -- now unfold stepGoAgain
  rw [stepGoAgain]
  simp only [midCursor, statementcache_finalize, releaseEvent, setExc,
    ne_eq, not_true_eq_false, if_false, if_true, and_false, false_and,
    ite_true, ite_false, not_false_eq_true, and_true, true_and]
  simp only [Option.getD_some, hprep]
  have hlog : lg ++ [Event.released i] ++ [Event.prepared (i + 1)] =
      lg ++ [Event.released i, Event.prepared (i + 1)] := by simp
  rw [hlog]
  rw [hC3] at hbind
  rw [hst2] at hbind
  rw [hbind]
  cases tr
  case false =>
    simp [APSWCursor_doexectrace, midCursor, enterEvents, parameterCount,
      hstF, List.append_assoc]
  case true =>
    simp [APSWCursor_doexectrace, midCursor, enterEvents, parameterCount,
      hstF, List.append_assoc]


/-- Crossing a run of zero-row trailing units: "finalise and go again"
releases the finished unit, then each remaining unit reports done on its
first step and is released in turn, ending in a fully drained cursor. -/
theorem stepGoAgain_zeroCross (vals : List SQValue) (tr : Bool)
    (hsafe : ∀ v ∈ vals, bindSafe v = true) :
    ∀ (rest : List (Nat × Nat)) (p : Nat × Nat) (ch : List PrepItem)
      (i : Nat) (sp : StmtSpec) (bl : List (Option SQValue)) (off : Int)
      (lg : List Event) (f : Nat),
      (∀ q ∈ p :: rest, q.2 = 0) →
      ch.drop (i + 1) = mkChain (p :: rest) →
      off + (sumArgs (p :: rest) : Int) = (vals.length : Int) →
      stepGoAgain ((p :: rest).length + f + 1)
          (midCursor ch i 0 sp bl vals tr off lg .done) =
        some (doneCursor tr
          (lg ++ [.released i] ++ zeroCrossEvents tr (p :: rest) (i + 1) off),
          true) := by
  intro rest
  induction rest with
  | nil =>
      intro p ch i sp bl off lg f hz hch hoff
      have hp2 : p.2 = 0 := hz p (by simp)
      obtain ⟨hget, hch2, hlen0⟩ := chain_suffix_head ch (i + 1) p [] hch
      have hlen : ch.length ≤ i + 1 + 1 := chain_suffix_nil ch (i + 1 + 1) hch2
      obtain ⟨bl2, hadv⟩ := stepGoAgain_advance vals tr hsafe ch i sp bl off lg
        (([p] : List (Nat × Nat)).length + f + 1) p [] hch hoff
      rw [hadv, hp2]
      rw [show ([p] : List (Nat × Nat)).length + f + 1 = (f + 1) + 1 from by simp; omega]
      rw [stepLoop_done_finish ch (i + 1) _ bl2 vals tr (off + (p.1 : Int)) _
        (f + 1) hlen]
      simp [zeroCrossEvents, List.append_assoc]
  | cons q rest2 ih =>
      intro p ch i sp bl off lg f hz hch hoff
      have hp2 : p.2 = 0 := hz p (by simp)
      obtain ⟨hget, hch2, hlen0⟩ := chain_suffix_head ch (i + 1) p (q :: rest2) hch
      obtain ⟨hgetq, hch3, hlenq⟩ := chain_suffix_head ch (i + 1 + 1) q rest2 hch2
      obtain ⟨bl2, hadv⟩ := stepGoAgain_advance vals tr hsafe ch i sp bl off lg
        ((p :: q :: rest2).length + f + 1) p (q :: rest2) hch hoff
      rw [hadv, hp2]
      rw [show (p :: q :: rest2 : List (Nat × Nat)).length + f + 1 =
        ((q :: rest2 : List (Nat × Nat)).length + f + 1) + 1 from by simp; omega]
      rw [stepLoop_done_advance ch (i + 1) _ bl2 vals tr (off + (p.1 : Int)) _
        ((q :: rest2 : List (Nat × Nat)).length + f + 1) hlenq]
      have hz2 : ∀ r ∈ q :: rest2, r.2 = 0 := by
        intro r hr
        exact hz r (List.mem_cons_of_mem p hr)
      have hoff2 : (off + (p.1 : Int)) + (sumArgs (q :: rest2) : Int) =
          (vals.length : Int) := by
        simp only [sumArgs, List.map_cons, List.sum_cons] at hoff ⊢
        push_cast at hoff ⊢
        omega
      rw [ih q ch (i + 1) _ bl2 (off + (p.1 : Int)) _ f hz2 hch2 hoff2]
      simp [zeroCrossEvents, List.append_assoc]

/-- Advancing to the first remaining unit that yields rows: "finalise and
go again" crosses the zero-row units before it and pauses on that unit's
first row, with the bindings offset advanced past every unit entered. -/
theorem stepGoAgain_rowy (vals : List SQValue) (tr : Bool)
    (hsafe : ∀ v ∈ vals, bindSafe v = true) :
    ∀ (k : Nat) (suf : List (Nat × Nat)) (ch : List PrepItem) (i : Nat)
      (sp : StmtSpec) (bl : List (Option SQValue)) (off : Int)
      (lg : List Event) (f : Nat),
      firstRowy suf = some k →
      ch.drop (i + 1) = mkChain suf →
      off + (sumArgs suf : Int) = (vals.length : Int) →
      ∃ bl2, stepGoAgain (k + f + 1)
          (midCursor ch i 0 sp bl vals tr off lg .done) =
        some (midCursor ch (i + 1 + k) ((suf.getD k (0, 0)).2 - 1)
          ⟨(suf.getD k (0, 0)).1, List.replicate (suf.getD k (0, 0)).1 none,
            List.replicate (suf.getD k (0, 0)).2 .row⟩ bl2 vals tr
          (off + (sumArgs (suf.take (k + 1)) : Int))
          (lg ++ [.released i] ++ zeroCrossEvents tr (suf.take k) (i + 1) off
            ++ enterEvents tr (i + 1 + k) (off + (sumArgs (suf.take k) : Int))
            ++ [.stepped (i + 1 + k) SQLITE_ROW]) .row, true) := by
  intro k
  induction k with
  | zero =>
      intro suf ch i sp bl off lg f hfr hch hoff
      rcases suf with _ | ⟨p, rest⟩
      · simp [firstRowy] at hfr
      by_cases hp : p.2 > 0
      case neg =>
        exfalso
        simp only [firstRowy, hp, if_false, Option.map_eq_some'] at hfr
        obtain ⟨k', _, hk'⟩ := hfr
        omega
      obtain ⟨bl2, hadv⟩ := stepGoAgain_advance vals tr hsafe ch i sp bl off lg
        (0 + f + 1) p rest hch hoff
      refine ⟨bl2, ?_⟩
      rw [hadv]
      rw [show (0 : Nat) + f + 1 = f + 1 from by omega]
      have hrem : (⟨i + 1, List.replicate p.2 .row, SQLITE_OK, bl2,
          ⟨p.1, List.replicate p.1 none, List.replicate p.2 .row⟩⟩ : Stmt).rem =
          .row :: List.replicate (p.2 - 1) .row := by
        have : p.2 = (p.2 - 1) + 1 := by omega
        rw [show List.replicate p.2 StepRes.row =
          List.replicate ((p.2 - 1) + 1) StepRes.row from by rw [← this]]
        simp [List.replicate_succ]
      rw [stepLoop_row (midCursor ch (i + 1) p.2
          ⟨p.1, List.replicate p.1 none, List.replicate p.2 .row⟩ bl2 vals tr
          (off + (p.1 : Int))
          (lg ++ [Event.released i] ++ enterEvents tr (i + 1) off) .begin)
        ⟨i + 1, List.replicate p.2 .row, SQLITE_OK, bl2,
          ⟨p.1, List.replicate p.1 none, List.replicate p.2 .row⟩⟩
        (List.replicate (p.2 - 1) .row) f rfl hrem rfl]
      simp [midCursor, List.getD, zeroCrossEvents, sumArgs,
        List.append_assoc]
  | succ k ih =>
      intro suf ch i sp bl off lg f hfr hch hoff
      rcases suf with _ | ⟨p, rest⟩
      · simp [firstRowy] at hfr
      have hp : ¬ p.2 > 0 := by
        intro hp
        simp [firstRowy, hp] at hfr
      simp only [firstRowy, hp, if_false, Option.map_eq_some'] at hfr
      obtain ⟨k2, hfr2, hk2⟩ := hfr
      have hkk : k2 = k := by omega
      rw [hkk] at hfr2
      have hp0 : p.2 = 0 := by omega
      obtain ⟨hget, hch2, hlen0⟩ := chain_suffix_head ch (i + 1) p rest hch
      have hklen : k < rest.length := (firstRowy_some_spec rest k hfr2).1
      have hlt : i + 1 + 1 < ch.length := by
        have hld := List.length_drop (i + 1 + 1) ch
        rw [hch2] at hld
        rw [mkChain_length] at hld
        omega
      obtain ⟨bl2, hadv⟩ := stepGoAgain_advance vals tr hsafe ch i sp bl off lg
        (k + 1 + f + 1) p rest hch hoff
      rw [hadv, hp0]
      rw [show k + 1 + f + 1 = (k + f + 1) + 1 from by omega]
      rw [stepLoop_done_advance ch (i + 1) _ bl2 vals tr (off + (p.1 : Int)) _
        (k + f + 1) hlt]
      have hoff2 : (off + (p.1 : Int)) + (sumArgs rest : Int) =
          (vals.length : Int) := by
        simp only [sumArgs, List.map_cons, List.sum_cons] at hoff ⊢
        push_cast at hoff ⊢
        omega
      obtain ⟨bl3, hrec⟩ := ih rest ch (i + 1) _ bl2 (off + (p.1 : Int))
        (lg ++ [.released i] ++ enterEvents tr (i + 1) off
          ++ [.stepped (i + 1) SQLITE_DONE]) f hfr2 hch2 hoff2
      refine ⟨bl3, ?_⟩
      rw [show lg ++ [Event.released i] ++ enterEvents tr (i + 1) off
          ++ [Event.stepped (i + 1) SQLITE_DONE] =
          (lg ++ [Event.released i] ++ enterEvents tr (i + 1) off)
          ++ [Event.stepped (i + 1) SQLITE_DONE] from by
        simp [List.append_assoc]] at hrec
      rw [hrec]
      have he1 : i + 1 + 1 + k = i + 1 + (k + 1) := by omega
      rw [he1]
      simp [List.getD, zeroCrossEvents, sumArgs, List.append_assoc,
        add_assoc]

/-- All row counts before the first rowy unit are zero, so the rows
consumed by the zero-cross prefix sum to nothing. -/
theorem sumRows_take_eq_zero (l : List (Nat × Nat)) :
    ∀ (k : Nat), (∀ m, m < k → (l.getD m (0, 0)).2 = 0) →
      sumRows (l.take k) = 0 := by
  intro k
  induction k with
  | zero => intro _; simp [sumRows]
  | succ k ih =>
      intro h
      by_cases hk : k < l.length
      · rw [sumRows_take_succ l k hk, ih fun m hm => h m (by omega),
          h k (by omega)]
      · have hle : l.length ≤ k := by omega
        rw [List.take_of_length_le hle,
          List.take_of_length_le (by omega : l.length ≤ k + 1)] at *
        exact ih fun m hm => h m (by omega)
/-- A chain suffix drops to a chain suffix. -/
theorem mkChain_drop (us : List (Nat × Nat)) (k : Nat) :
    (mkChain us).drop k = mkChain (us.drop k) := by
  simp [mkChain, List.map_drop]
/-- All zero row counts means no rows in total. -/
theorem sumRows_eq_zero (l : List (Nat × Nat))
    (h : ∀ p ∈ l, p.2 = 0) : sumRows l = 0 := by
  induction l with
  | nil => rfl
  | cons p rest ih =>
      simp only [sumRows, List.map_cons, List.sum_cons] at *
      rw [h p (by simp), ih fun q hq => h q (by simp [hq])]

/-- Draining the final unit of a chain: its pending rows are pulled one
`next` at a time, its done releases it, and the iterator reports
exhaustion. -/
theorem drive_last_unit (vals : List SQValue) (tr : Bool)
    (ch : List PrepItem) (i r : Nat) (sp : StmtSpec)
    (bl : List (Option SQValue)) (off : Int) (lg : List Event) (f : Nat)
    (hlen : ch.length ≤ i + 1) :
    drive (r + (f + 1) + 1)
        (midCursor ch i r sp bl vals tr off lg .begin) =
      some (doneCursor tr
        (lg ++ List.replicate r (.stepped i SQLITE_ROW)
          ++ [.stepped i SQLITE_DONE, .released i]), true) := by
  have hrows : drive (r + ((f + 1) + 1))
      (midCursor ch i r sp bl vals tr off lg .begin) =
      drive ((f + 1) + 1) (midCursor ch i 0 sp bl vals tr off
        (lg ++ List.replicate r (.stepped i SQLITE_ROW)) .begin) :=
    drive_rows r (f + 1) (midCursor ch i r sp bl vals tr off lg .begin)
      ⟨i, List.replicate r .row, SQLITE_OK, bl, sp⟩ rfl rfl rfl rfl rfl rfl
  rw [show r + (f + 1) + 1 = r + ((f + 1) + 1) from by omega, hrows]
  have hSL := stepLoop_done_finish ch i sp bl vals tr off
    (lg ++ List.replicate r (.stepped i SQLITE_ROW)) (f + 1) hlen
  have hnext : APSWCursor_next ((f + 1) + 1)
      (midCursor ch i 0 sp bl vals tr off
        (lg ++ List.replicate r (.stepped i SQLITE_ROW)) .begin) =
      some (doneCursor tr
        (lg ++ List.replicate r (.stepped i SQLITE_ROW)
          ++ [.stepped i SQLITE_DONE, .released i]), .exhausted) := by
    simp only [APSWCursor_next, midCursor]
    simp only [midCursor, List.replicate_zero] at hSL
    simp [hSL, doneCursor, List.append_assoc]
  rw [drive]
  simp only [hnext]

/-- Driving a mid-chain cursor to exhaustion: the rows pending on the
current unit are pulled in order, then every later unit of the chain is
entered, stepped through its rows and released, strictly in chain order,
ending with the cursor drained and the full event trail recorded. -/
theorem driveChain (vals : List SQValue) (tr : Bool)
    (hsafe : ∀ v ∈ vals, bindSafe v = true) :
    ∀ (n : Nat) (suf : List (Nat × Nat)) (ch : List PrepItem) (i r : Nat)
      (sp : StmtSpec) (bl : List (Option SQValue)) (off : Int)
      (lg : List Event) (f : Nat),
      suf.length ≤ n →
      ch.drop (i + 1) = mkChain suf →
      off + (sumArgs suf : Int) = (vals.length : Int) →
      drive (r + (sumRows suf + suf.length + f + 1) + 1)
          (midCursor ch i r sp bl vals tr off lg .begin) =
        some (doneCursor tr
          (lg ++ List.replicate r (.stepped i SQLITE_ROW)
            ++ [.stepped i SQLITE_DONE, .released i]
            ++ chainEvents tr suf (i + 1) off), true) := by
  intro n
  induction n with
  | zero =>
      intro suf ch i r sp bl off lg f hn hch hoff
      have hsuf : suf = [] := List.eq_nil_of_length_eq_zero (by omega)
      subst hsuf
      have hlen : ch.length ≤ i + 1 := chain_suffix_nil ch (i + 1) hch
      rw [show r + (sumRows [] + ([] : List (Nat × Nat)).length + f + 1) + 1
        = r + (f + 1) + 1 from by simp [sumRows]]
      rw [drive_last_unit vals tr ch i r sp bl off lg f hlen]
      simp [chainEvents]
  | succ n ih =>
      intro suf ch i r sp bl off lg f hn hch hoff
      rcases suf with _ | ⟨p, rest⟩
      · have hlen : ch.length ≤ i + 1 := chain_suffix_nil ch (i + 1) hch
        rw [show r + (sumRows [] + ([] : List (Nat × Nat)).length + f + 1) + 1
          = r + (f + 1) + 1 from by simp [sumRows]]
        rw [drive_last_unit vals tr ch i r sp bl off lg f hlen]
        simp [chainEvents]
      rcases hfr : firstRowy (p :: rest) with _ | k
      · -- every remaining unit is zero-row: one stepLoop crosses them all
        have hz : ∀ q ∈ p :: rest, q.2 = 0 := firstRowy_none_rows _ hfr
        have hsr0 : sumRows (p :: rest) = 0 := sumRows_eq_zero _ hz
        have hlt : i + 1 < ch.length :=
          (chain_suffix_head ch (i + 1) p rest hch).2.2
        have hrows : drive (r + ((sumRows (p :: rest) + (p :: rest).length
            + f + 1) + 1)) (midCursor ch i r sp bl vals tr off lg .begin) =
            drive ((sumRows (p :: rest) + (p :: rest).length + f + 1) + 1)
              (midCursor ch i 0 sp bl vals tr off
                (lg ++ List.replicate r (.stepped i SQLITE_ROW)) .begin) :=
          drive_rows r (sumRows (p :: rest) + (p :: rest).length + f + 1)
            (midCursor ch i r sp bl vals tr off lg .begin)
            ⟨i, List.replicate r .row, SQLITE_OK, bl, sp⟩
            rfl rfl rfl rfl rfl rfl
        rw [show r + (sumRows (p :: rest) + (p :: rest).length + f + 1) + 1 =
          r + ((sumRows (p :: rest) + (p :: rest).length + f + 1) + 1)
          from by omega, hrows]
        have hadv := stepLoop_done_advance ch i sp bl vals tr off
          (lg ++ List.replicate r (.stepped i SQLITE_ROW))
          (sumRows (p :: rest) + (p :: rest).length + f + 1) hlt
        rw [show sumRows (p :: rest) + (p :: rest).length + f + 1 =
          (p :: rest).length + f + 1 from by omega] at hadv
        have hA := stepGoAgain_zeroCross vals tr hsafe rest p ch i sp bl off
          (lg ++ List.replicate r (.stepped i SQLITE_ROW)
            ++ [.stepped i SQLITE_DONE]) f hz hch hoff
        have hnext : APSWCursor_next
            ((sumRows (p :: rest) + (p :: rest).length + f + 1) + 1)
            (midCursor ch i 0 sp bl vals tr off
              (lg ++ List.replicate r (.stepped i SQLITE_ROW)) .begin) =
            some (doneCursor tr
              (lg ++ List.replicate r (.stepped i SQLITE_ROW)
                ++ [.stepped i SQLITE_DONE] ++ [.released i]
                ++ zeroCrossEvents tr (p :: rest) (i + 1) off),
              .exhausted) := by
          rw [show (sumRows (p :: rest) + (p :: rest).length + f + 1) + 1 =
            ((p :: rest).length + f + 1) + 1 from by omega]
          simp only [APSWCursor_next, midCursor]
          simp only [midCursor, List.replicate_zero, List.length_cons,
            List.append_assoc] at hadv hA
          simp [hadv, hA, doneCursor, List.append_assoc]
        rw [drive]
        simp only [hnext]
        rw [chainEvents_of_no_rowy tr (p :: rest) (i + 1) off hfr]
        simp [List.append_assoc]
      · -- a rowy unit exists: pause on its first row, then recurse
        obtain ⟨hklen, hzb, hkpos⟩ := firstRowy_some_spec (p :: rest) k hfr
        have hlt : i + 1 < ch.length :=
          (chain_suffix_head ch (i + 1) p rest hch).2.2
        have hTD : sumRows ((p :: rest).take (k + 1))
            + sumRows ((p :: rest).drop (k + 1)) = sumRows (p :: rest) :=
          sumRows_take_drop (p :: rest) (k + 1)
        have hTS : sumRows ((p :: rest).take (k + 1)) =
            sumRows ((p :: rest).take k) + ((p :: rest).getD k (0, 0)).2 :=
          sumRows_take_succ (p :: rest) k hklen
        have hT0 : sumRows ((p :: rest).take k) = 0 :=
          sumRows_take_eq_zero (p :: rest) k hzb
        have hLD : ((p :: rest).drop (k + 1)).length =
            (p :: rest).length - (k + 1) := List.length_drop (k + 1) (p :: rest)
        have hrows : drive (r + ((k + (sumRows (p :: rest)
            + (p :: rest).length + f - k) + 1) + 1))
            (midCursor ch i r sp bl vals tr off lg .begin) =
            drive ((k + (sumRows (p :: rest) + (p :: rest).length + f - k)
              + 1) + 1)
              (midCursor ch i 0 sp bl vals tr off
                (lg ++ List.replicate r (.stepped i SQLITE_ROW)) .begin) :=
          drive_rows r
            (k + (sumRows (p :: rest) + (p :: rest).length + f - k) + 1)
            (midCursor ch i r sp bl vals tr off lg .begin)
            ⟨i, List.replicate r .row, SQLITE_OK, bl, sp⟩
            rfl rfl rfl rfl rfl rfl
        rw [show r + (sumRows (p :: rest) + (p :: rest).length + f + 1) + 1 =
          r + ((k + (sumRows (p :: rest) + (p :: rest).length + f - k) + 1)
            + 1) from by omega, hrows]
        have hadv := stepLoop_done_advance ch i sp bl vals tr off
          (lg ++ List.replicate r (.stepped i SQLITE_ROW))
          (k + (sumRows (p :: rest) + (p :: rest).length + f - k) + 1) hlt
        obtain ⟨bl3, hB⟩ := stepGoAgain_rowy vals tr hsafe k (p :: rest) ch i
          sp bl off
          (lg ++ List.replicate r (.stepped i SQLITE_ROW)
            ++ [.stepped i SQLITE_DONE])
          (sumRows (p :: rest) + (p :: rest).length + f - k) hfr hch hoff
        have hnext : APSWCursor_next
            ((k + (sumRows (p :: rest) + (p :: rest).length + f - k) + 1) + 1)
            (midCursor ch i 0 sp bl vals tr off
              (lg ++ List.replicate r (.stepped i SQLITE_ROW)) .begin) =
            some (midCursor ch (i + 1 + k) (((p :: rest).getD k (0, 0)).2 - 1)
              ⟨((p :: rest).getD k (0, 0)).1,
                List.replicate ((p :: rest).getD k (0, 0)).1 none,
                List.replicate ((p :: rest).getD k (0, 0)).2 .row⟩ bl3 vals tr
              (off + (sumArgs ((p :: rest).take (k + 1)) : Int))
              (lg ++ List.replicate r (.stepped i SQLITE_ROW)
                ++ [.stepped i SQLITE_DONE] ++ [.released i]
                ++ zeroCrossEvents tr ((p :: rest).take k) (i + 1) off
                ++ enterEvents tr (i + 1 + k)
                    (off + (sumArgs ((p :: rest).take k) : Int))
                ++ [.stepped (i + 1 + k) SQLITE_ROW]) .begin,
              .gotRow) := by
          simp only [APSWCursor_next, midCursor]
          simp only [midCursor, List.replicate_zero, List.length_cons,
            List.append_assoc] at hadv hB
          simp [hadv, hB, List.append_assoc]
        rw [drive]
        simp only [hnext]
        have h2 : ch.drop (i + 1 + k + 1) =
            mkChain ((p :: rest).drop (k + 1)) := by
          rw [show i + 1 + k + 1 = (i + 1) + (k + 1) from by omega,
            ← List.drop_drop, hch, mkChain_drop]
        have h3 : (off + (sumArgs ((p :: rest).take (k + 1)) : Int))
            + (sumArgs ((p :: rest).drop (k + 1)) : Int) =
            (vals.length : Int) := by
          have := sumArgs_take_drop (p :: rest) (k + 1)
          push_cast at hoff ⊢
          omega
        have hIH := ih ((p :: rest).drop (k + 1)) ch (i + 1 + k)
          (((p :: rest).getD k (0, 0)).2 - 1)
          ⟨((p :: rest).getD k (0, 0)).1,
            List.replicate ((p :: rest).getD k (0, 0)).1 none,
            List.replicate ((p :: rest).getD k (0, 0)).2 .row⟩ bl3
          (off + (sumArgs ((p :: rest).take (k + 1)) : Int))
          (lg ++ List.replicate r (.stepped i SQLITE_ROW)
            ++ [.stepped i SQLITE_DONE] ++ [.released i]
            ++ zeroCrossEvents tr ((p :: rest).take k) (i + 1) off
            ++ enterEvents tr (i + 1 + k)
                (off + (sumArgs ((p :: rest).take k) : Int))
            ++ [.stepped (i + 1 + k) SQLITE_ROW])
          (f + k + 1) (by simp at hn ⊢; omega) h2 h3
        rw [show k + (sumRows (p :: rest) + (p :: rest).length + f - k) + 1 =
          (((p :: rest).getD k (0, 0)).2 - 1)
            + (sumRows ((p :: rest).drop (k + 1))
              + ((p :: rest).drop (k + 1)).length + (f + k + 1) + 1) + 1
          from by omega]
        rw [hIH]
        rw [chainEvents_split tr k (p :: rest) (i + 1) off hzb hklen]
        have hrepl : List.replicate (((p :: rest).getD k (0, 0)).2)
            (Event.stepped (i + 1 + k) SQLITE_ROW) =
            .stepped (i + 1 + k) SQLITE_ROW ::
              List.replicate ((((p :: rest).getD k (0, 0)).2) - 1)
                (Event.stepped (i + 1 + k) SQLITE_ROW) := by
          rw [show ((p :: rest).getD k (0, 0)).2 =
            (((p :: rest).getD k (0, 0)).2 - 1) + 1 from by omega]
          simp [List.replicate_succ]
        rw [hrepl]
        simp [List.append_assoc]

/-- Entering `execute` on a fresh cursor with a non-empty chain: the old
(empty) state is reset, the first unit is acquired and bound from the
start of the flat sequence, the tracer fires, and the step loop is
entered on that unit. -/
theorem execute_setup (vals : List SQValue) (tr : Bool)
    (hsafe : ∀ v ∈ vals, bindSafe v = true)
    (p : Nat × Nat) (rest : List (Nat × Nat)) (F : Nat)
    (hoff : (sumArgs (p :: rest) : Int) = (vals.length : Int)) :
    ∃ bl2, APSWCursor_execute
        { freshCursor with exectrace := if tr then some [] else none }
        (mkChain (p :: rest)) (some (.seq vals)) F =
      stepLoop F (midCursor (mkChain (p :: rest)) 0 p.2
        ⟨p.1, List.replicate p.1 none, List.replicate p.2 .row⟩ bl2 vals tr
        (p.1 : Int) (enterEvents tr 0 0) .begin) := by
  have hget0 : (mkChain (p :: rest)).get? 0 = some (PrepItem.good ⟨p.1,
      List.replicate p.1 none, List.replicate p.2 .row⟩) := by
    simp [mkChain]
  have hget2 : (mkChain (p :: rest))[0]? = some (PrepItem.good ⟨p.1,
      List.replicate p.1 none, List.replicate p.2 .row⟩) := by
    rw [← List.get?_eq_getElem?]
    exact hget0
  have hprep : statementcache_prepare (mkChain (p :: rest)) 0 =
      (SQLITE_OK, some ⟨0, List.replicate p.2 .row, SQLITE_OK,
        List.replicate p.1 none,
        ⟨p.1, List.replicate p.1 none, List.replicate p.2 .row⟩⟩, 1) := by
    simp [statementcache_prepare, hget2]
  set stF : Stmt := ⟨0, List.replicate p.2 .row, SQLITE_OK,
    List.replicate p.1 none,
    ⟨p.1, List.replicate p.1 none, List.replicate p.2 .row⟩⟩ with hstF
  set C4 : Cursor :=
    { connOpen := true, inuse := false, statement := some stF,
      zsql := some (mkChain (p :: rest)), zsqlnextpos := some 1,
      status := .done, bindings := some (.seq vals), bindingsoffset := 0,
      emiter := none, exectrace := if tr then some [] else none,
      rowtrace := false, pendingErr := none,
      log := [.prepared 0] } with hC4
  have hcount :
      (remainderNonempty C4 = true ∧
        (parameterCount stF : Int) ≤ (vals.length : Int) - C4.bindingsoffset) ∨
      (remainderNonempty C4 = false ∧
        (vals.length : Int) - C4.bindingsoffset = (parameterCount stF : Int)) := by
    rcases rest with _ | ⟨q, rest2⟩
    · right
      constructor
      · simp [remainderNonempty, hC4, mkChain]
      · simp only [sumArgs, List.map_cons, List.map_nil, List.sum_cons,
          List.sum_nil] at hoff
        simp [hC4, hstF, parameterCount]
        omega
    · left
      constructor
      · simp [remainderNonempty, hC4, mkChain]
      · have hnn : (0 : Int) ≤ (sumArgs (q :: rest2) : Int) := by positivity
        simp only [sumArgs, List.map_cons, List.sum_cons] at hoff hnn
        simp [hC4, hstF, parameterCount, sumArgs]
        omega
  obtain ⟨st2, hbind, hp2, hr2, hl2, hs2⟩ :=
    dobindings_seq_ok C4 vals stF rfl rfl rfl hsafe hcount
  refine ⟨st2.binds, ?_⟩
  have hst2 : st2 = ⟨0, List.replicate p.2 .row, SQLITE_OK, st2.binds,
      ⟨p.1, List.replicate p.1 none, List.replicate p.2 .row⟩⟩ := by
    obtain ⟨a, b, c, d, e⟩ := st2
    simp only [hstF] at hp2 hr2 hl2 hs2
    subst hp2 hr2 hl2 hs2
    rfl
  rw [APSWCursor_execute]
  simp only [freshCursor, resetcursor, resetFinalize, resetChainCheck,
    resetEmCheck, remainderNonempty, raiseIfClear, setExc,
    ne_eq, not_true_eq_false, if_false, if_true, and_false, false_and,
    ite_true, ite_false, not_false_eq_true, and_true, true_and]
  simp only [hprep]
  simp only [ne_eq, not_true_eq_false, if_false, and_false, false_and,
    ite_false, not_false_eq_true, List.nil_append, Bool.false_eq_true,
    Bool.true_eq_false]
  rw [hC4] at hbind
  rw [hst2] at hbind
  rw [hbind]
  cases tr
  case false =>
    simp [APSWCursor_doexectrace, midCursor, enterEvents, parameterCount,
      hstF, List.append_assoc]
  case true =>
    simp [APSWCursor_doexectrace, midCursor, enterEvents, parameterCount,
      hstF, List.append_assoc]

/-- Composing the step made by `execute` itself with the caller's row
loop: whatever the first `stepLoop` pauses on, draining the iterator
afterwards yields the full in-order event trail of the chain. -/
theorem stepLoop_then_drive (vals : List SQValue) (tr : Bool)
    (hsafe : ∀ v ∈ vals, bindSafe v = true)
    (suf : List (Nat × Nat)) (ch : List PrepItem) (i r : Nat)
    (sp : StmtSpec) (bl : List (Option SQValue)) (off : Int)
    (lg : List Event) (f : Nat)
    (hch : ch.drop (i + 1) = mkChain suf)
    (hoff : off + (sumArgs suf : Int) = (vals.length : Int)) :
    (match stepLoop (r + (sumRows suf + suf.length + f + 1) + 1)
        (midCursor ch i r sp bl vals tr off lg .begin) with
     | none => none
     | some (c1, false) => some (c1, false)
     | some (c1, true) =>
         drive (r + (sumRows suf + suf.length + f + 1) + 1) c1)
    = some (doneCursor tr
        (lg ++ List.replicate r (.stepped i SQLITE_ROW)
          ++ [.stepped i SQLITE_DONE, .released i]
          ++ chainEvents tr suf (i + 1) off), true) := by
  rcases r with _ | r'
  · -- the held unit has no rows: its first step reports done
    rcases suf with _ | ⟨p, rest⟩
    · -- nothing further in the chain: clean completion
      have hlen : ch.length ≤ i + 1 := chain_suffix_nil ch (i + 1) hch
      rw [show 0 + (sumRows [] + ([] : List (Nat × Nat)).length + f + 1) + 1
        = (f + 1) + 1 from by simp [sumRows]]
      have hfin := stepLoop_done_finish ch i sp bl vals tr off lg (f + 1) hlen
      simp only [hfin]
      rw [drive_done (f + 1) _ rfl rfl rfl]
      simp [chainEvents]
    rcases hfr : firstRowy (p :: rest) with _ | k
    · -- all later units are zero-row: one stepLoop crosses everything
      have hz : ∀ q ∈ p :: rest, q.2 = 0 := firstRowy_none_rows _ hfr
      have hsr0 : sumRows (p :: rest) = 0 := sumRows_eq_zero _ hz
      have hlt : i + 1 < ch.length :=
        (chain_suffix_head ch (i + 1) p rest hch).2.2
      rw [show 0 + (sumRows (p :: rest) + (p :: rest).length + f + 1) + 1
        = ((p :: rest).length + f + 1) + 1 from by omega]
      have hadv := stepLoop_done_advance ch i sp bl vals tr off lg
        ((p :: rest).length + f + 1) hlt
      have hA := stepGoAgain_zeroCross vals tr hsafe rest p ch i sp bl off
        (lg ++ [.stepped i SQLITE_DONE]) f hz hch hoff
      simp only [hadv, hA]
      rw [drive_done ((p :: rest).length + f + 1)
        (doneCursor tr (lg ++ [Event.stepped i SQLITE_DONE]
          ++ [Event.released i]
          ++ zeroCrossEvents tr (p :: rest) (i + 1) off)) rfl rfl rfl]
      rw [chainEvents_of_no_rowy tr (p :: rest) (i + 1) off hfr]
      simp [List.append_assoc]
    · -- pause on the first rowy unit, then drain the rest
      obtain ⟨hklen, hzb, hkpos⟩ := firstRowy_some_spec (p :: rest) k hfr
      have hlt : i + 1 < ch.length :=
        (chain_suffix_head ch (i + 1) p rest hch).2.2
      have hTD : sumRows ((p :: rest).take (k + 1))
          + sumRows ((p :: rest).drop (k + 1)) = sumRows (p :: rest) :=
        sumRows_take_drop (p :: rest) (k + 1)
      have hTS : sumRows ((p :: rest).take (k + 1)) =
          sumRows ((p :: rest).take k) + ((p :: rest).getD k (0, 0)).2 :=
        sumRows_take_succ (p :: rest) k hklen
      have hT0 : sumRows ((p :: rest).take k) = 0 :=
        sumRows_take_eq_zero (p :: rest) k hzb
      have hLD : ((p :: rest).drop (k + 1)).length =
          (p :: rest).length - (k + 1) := List.length_drop (k + 1) (p :: rest)
      rw [show 0 + (sumRows (p :: rest) + (p :: rest).length + f + 1) + 1
        = ((k + (sumRows (p :: rest) + (p :: rest).length + f - k)) + 1) + 1
        from by omega]
      have hadv := stepLoop_done_advance ch i sp bl vals tr off lg
        (k + (sumRows (p :: rest) + (p :: rest).length + f - k) + 1) hlt
      obtain ⟨bl3, hB⟩ := stepGoAgain_rowy vals tr hsafe k (p :: rest) ch i
        sp bl off (lg ++ [.stepped i SQLITE_DONE])
        (sumRows (p :: rest) + (p :: rest).length + f - k) hfr hch hoff
      simp only [hadv, hB]
      have hflip := next_on_row
        (k + (sumRows (p :: rest) + (p :: rest).length + f - k) + 1 + 1)
        (midCursor ch (i + 1 + k) (((p :: rest).getD k (0, 0)).2 - 1)
          ⟨((p :: rest).getD k (0, 0)).1,
            List.replicate ((p :: rest).getD k (0, 0)).1 none,
            List.replicate ((p :: rest).getD k (0, 0)).2 .row⟩ bl3 vals tr
          (off + (sumArgs ((p :: rest).take (k + 1)) : Int))
          (lg ++ [.stepped i SQLITE_DONE] ++ [.released i]
            ++ zeroCrossEvents tr ((p :: rest).take k) (i + 1) off
            ++ enterEvents tr (i + 1 + k)
                (off + (sumArgs ((p :: rest).take k) : Int))
            ++ [.stepped (i + 1 + k) SQLITE_ROW]) .row)
        rfl rfl rfl
      rw [drive]
      simp only [hflip]
      have h2 : ch.drop (i + 1 + k + 1) =
          mkChain ((p :: rest).drop (k + 1)) := by
        rw [show i + 1 + k + 1 = (i + 1) + (k + 1) from by omega,
          ← List.drop_drop, hch, mkChain_drop]
      have h3 : (off + (sumArgs ((p :: rest).take (k + 1)) : Int))
          + (sumArgs ((p :: rest).drop (k + 1)) : Int) =
          (vals.length : Int) := by
        have := sumArgs_take_drop (p :: rest) (k + 1)
        omega
      have hIH := driveChain vals tr hsafe ((p :: rest).drop (k + 1)).length
        ((p :: rest).drop (k + 1)) ch (i + 1 + k)
        (((p :: rest).getD k (0, 0)).2 - 1)
        ⟨((p :: rest).getD k (0, 0)).1,
          List.replicate ((p :: rest).getD k (0, 0)).1 none,
          List.replicate ((p :: rest).getD k (0, 0)).2 .row⟩ bl3
        (off + (sumArgs ((p :: rest).take (k + 1)) : Int))
        (lg ++ [.stepped i SQLITE_DONE] ++ [.released i]
          ++ zeroCrossEvents tr ((p :: rest).take k) (i + 1) off
          ++ enterEvents tr (i + 1 + k)
              (off + (sumArgs ((p :: rest).take k) : Int))
          ++ [.stepped (i + 1 + k) SQLITE_ROW])
        (f + k + 1) le_rfl h2 h3
      rw [show k + (sumRows (p :: rest) + (p :: rest).length + f - k) + 1 =
        (((p :: rest).getD k (0, 0)).2 - 1)
          + (sumRows ((p :: rest).drop (k + 1))
            + ((p :: rest).drop (k + 1)).length + (f + k + 1) + 1) + 1
        from by omega]
      refine Eq.trans hIH ?_
      rw [chainEvents_split tr k (p :: rest) (i + 1) off hzb hklen]
      have hrepl : List.replicate (((p :: rest).getD k (0, 0)).2)
          (Event.stepped (i + 1 + k) SQLITE_ROW) =
          .stepped (i + 1 + k) SQLITE_ROW ::
            List.replicate ((((p :: rest).getD k (0, 0)).2) - 1)
              (Event.stepped (i + 1 + k) SQLITE_ROW) := by
        rw [show ((p :: rest).getD k (0, 0)).2 =
          (((p :: rest).getD k (0, 0)).2 - 1) + 1 from by omega]
        simp [List.replicate_succ]
      rw [hrepl]
      simp [List.append_assoc]
  · -- the held unit still yields rows: the first step pauses on a row
    have hrow := stepLoop_row
      (midCursor ch i (r' + 1) sp bl vals tr off lg .begin)
      ⟨i, List.replicate (r' + 1) .row, SQLITE_OK, bl, sp⟩
      (List.replicate r' .row)
      (r' + (sumRows suf + suf.length + f + 1) + 1) rfl
      (by simp [List.replicate_succ]) rfl
    rw [show (r' + 1) + (sumRows suf + suf.length + f + 1) + 1
      = (r' + (sumRows suf + suf.length + f + 1) + 1) + 1 from by omega]
    have hrow2 : stepLoop (r' + (sumRows suf + suf.length + f + 1) + 1 + 1)
        (midCursor ch i (r' + 1) sp bl vals tr off lg .begin) =
      some (midCursor ch i r' sp bl vals tr off
        (lg ++ [.stepped i SQLITE_ROW]) .row, true) := hrow
    simp only [hrow2]
    have hflip := next_on_row
      (r' + (sumRows suf + suf.length + f + 1) + 1 + 1)
      (midCursor ch i r' sp bl vals tr off
        (lg ++ [.stepped i SQLITE_ROW]) .row) rfl rfl rfl
    rw [drive]
    simp only [hflip]
    have hdc := driveChain vals tr hsafe suf.length suf ch i r' sp bl off
      (lg ++ [.stepped i SQLITE_ROW]) f le_rfl hch hoff
    refine Eq.trans hdc ?_
    simp [List.replicate_succ, List.append_assoc]

/-- Claim C1: for a multi-statement input "A;B;C" executed once, the
cursor steps the compiled units for A, then B, then C in that order:
after each unit reports done with a non-empty remainder, the next unit is
acquired, its bindings reconciled from the flat sequence at the running
chain offset, the optional pre-execution trace callback fired, and
stepping resumed — the complete event log equals `chainEvents` of the
three unit descriptions, in chain order. -/
theorem multi_statement_execute_order (ua ub uc : Nat × Nat)
    (vals : List SQValue) (tr : Bool) (f : Nat)
    (hsafe : ∀ v ∈ vals, bindSafe v = true)
    (hlen : (sumArgs [ua, ub, uc] : Int) = (vals.length : Int)) :
    runExecute { freshCursor with exectrace := if tr then some [] else none }
        (mkChain [ua, ub, uc]) (some (.seq vals))
        (ua.2 + (sumRows [ub, uc] + ([ub, uc] : List (Nat × Nat)).length
          + f + 1) + 1) =
      some (doneCursor tr (chainEvents tr [ua, ub, uc] 0 0), true) := by
  obtain ⟨bl2, hsetup⟩ := execute_setup vals tr hsafe ua [ub, uc]
    (ua.2 + (sumRows [ub, uc] + ([ub, uc] : List (Nat × Nat)).length
      + f + 1) + 1) hlen
  have hch0 : (mkChain [ua, ub, uc]).drop (0 + 1) = mkChain [ub, uc] := rfl
  have hoff0 : ((ua.1 : Nat) : Int) + (sumArgs [ub, uc] : Int) =
      (vals.length : Int) := by
    simp only [sumArgs, List.map_cons, List.map_nil, List.sum_cons,
      List.sum_nil] at hlen ⊢
    push_cast at hlen ⊢
    omega
  have hcomp := stepLoop_then_drive vals tr hsafe [ub, uc]
    (mkChain [ua, ub, uc]) 0 ua.2
    ⟨ua.1, List.replicate ua.1 none, List.replicate ua.2 .row⟩ bl2
    (ua.1 : Int) (enterEvents tr 0 0) f hch0 hoff0
  simp only [runExecute]
  rw [hsetup]
  refine Eq.trans hcomp ?_
  simp [chainEvents, List.append_assoc]

/-- Concrete instance of claim C1: three units with one, zero and two
rows and one, zero and two positional parameters, with a tracer
installed. -/
theorem multi_statement_execute_order_witness :
    runExecute { freshCursor with exectrace := some [] }
        (mkChain [(1, 1), (0, 0), (2, 2)])
        (some (.seq [.int 5, .int 6, .int 7])) 7 =
      some (doneCursor true (chainEvents true [(1, 1), (0, 0), (2, 2)] 0 0),
        true) :=
  multi_statement_execute_order (1, 1) (0, 0) (2, 2)
    [.int 5, .int 6, .int 7] true 0 (by decide) (by decide)


/-- Batch mode, iterator exhausted: the unit's done releases it and the
run completes cleanly. -/
theorem stepLoop_em_finish (n r0 : Nat) (sp : StmtSpec)
    (bl : List (Option SQValue)) (b : Option Bindings) (off : Int)
    (tr : Bool) (lg : List Event) (f : Nat) :
    stepLoop (f + 1) (emCursor n r0 0 sp bl b off [] tr lg .begin) =
      some (doneCursor tr
        (lg ++ [.stepped 0 SQLITE_DONE, .released 0]), true) := by
  have hreset := resetcursor_clean_final
    { emCursor n r0 0 sp bl b off [] tr lg .begin with
      statement := some ⟨0, [], SQLITE_OK, bl, sp⟩,
      log := lg ++ [Event.stepped 0 SQLITE_DONE], status := .done }
    ⟨0, [], SQLITE_OK, bl, sp⟩ rfl rfl rfl rfl (Or.inr rfl)
  have hrem : remainderNonempty
      { emCursor n r0 0 sp bl b off [] tr lg .begin with
        statement := some ⟨0, [], SQLITE_OK, bl, sp⟩,
        log := lg ++ [Event.stepped 0 SQLITE_DONE], status := .done } = false := by
    simp [remainderNonempty, emCursor, mkChain]
  simp only [stepLoop, emCursor, List.replicate, sqlite3_step]
  simp only [emCursor, SQLITE_DONE, SQLITE_OK] at hrem hreset
  simp [SQLITE_DONE, SQLITE_ROW, hrem, hreset, emCursor, doneCursor,
    SQLITE_OK, List.append_assoc]

/-- Batch mode, another binding set available: the unit's done pulls it,
rewinds the remainder position, and hands control to "finalise and go
again". -/
theorem stepLoop_em_pull (n r0 : Nat) (sp : StmtSpec)
    (bl : List (Option SQValue)) (b : Option Bindings) (off : Int)
    (bb : Bindings) (tail : List EMItem) (tr : Bool) (lg : List Event)
    (f : Nat) :
    stepLoop (f + 1)
        (emCursor n r0 0 sp bl b off (.item bb :: tail) tr lg .begin) =
      stepGoAgain f
        (emPulled n r0 sp bl bb tail tr
          (lg ++ [.stepped 0 SQLITE_DONE])) := by
  have hrem : remainderNonempty
      { emCursor n r0 0 sp bl b off (.item bb :: tail) tr lg .begin with
        statement := some ⟨0, [], SQLITE_OK, bl, sp⟩,
        log := lg ++ [Event.stepped 0 SQLITE_DONE], status := .done } = false := by
    simp [remainderNonempty, emCursor, mkChain]
  simp only [stepLoop, emCursor, List.replicate, sqlite3_step]
  simp only [emCursor, SQLITE_DONE, SQLITE_OK] at hrem
  simp [SQLITE_DONE, SQLITE_ROW, SQLITE_OK, hrem, emCursor, emPulled]

/-- Re-entering the chain for the next batch repetition: the finished
unit is released, the first (only) unit of the chain is re-acquired, the
pulled binding set is reconciled at offset 0, the tracer fires, and the
step loop re-enters with the unit's full row script. -/
theorem emGoAgain_advance (n r0 : Nat) (tr : Bool) (vs : List SQValue)
    (hlen : vs.length = n) (hsafe : ∀ v ∈ vs, bindSafe v = true)
    (sp : StmtSpec) (bl : List (Option SQValue)) (tail : List EMItem)
    (lg : List Event) (f : Nat) :
    ∃ bl2, stepGoAgain f (emPulled n r0 sp bl (.seq vs) tail tr lg) =
      stepLoop f (emCursor n r0 r0
        ⟨n, List.replicate n none, List.replicate r0 .row⟩ bl2
        (some (.seq vs)) (n : Int) tail tr
        (lg ++ [.released 0] ++ enterEvents tr 0 0) .begin) := by
  have hget2 : (mkChain [(n, r0)])[0]? = some (PrepItem.good ⟨n,
      List.replicate n none, List.replicate r0 .row⟩) := by
    simp [mkChain]
  have hprep : statementcache_prepare (mkChain [(n, r0)]) 0 =
      (SQLITE_OK, some ⟨0, List.replicate r0 .row, SQLITE_OK,
        List.replicate n none,
        ⟨n, List.replicate n none, List.replicate r0 .row⟩⟩, 1) := by
    simp [statementcache_prepare, hget2]
  set stF : Stmt := ⟨0, List.replicate r0 .row, SQLITE_OK,
    List.replicate n none,
    ⟨n, List.replicate n none, List.replicate r0 .row⟩⟩ with hstF
  set C3 : Cursor :=
    { connOpen := true, inuse := false, statement := some stF,
      zsql := some (mkChain [(n, r0)]), zsqlnextpos := some 1,
      status := .done, bindings := some (.seq vs), bindingsoffset := 0,
      emiter := some tail, exectrace := if tr then some [] else none,
      rowtrace := false, pendingErr := none,
      log := lg ++ [.released 0, .prepared 0] } with hC3
  have hcount :
      (remainderNonempty C3 = true ∧
        (parameterCount stF : Int) ≤ (vs.length : Int) - C3.bindingsoffset) ∨
      (remainderNonempty C3 = false ∧
        (vs.length : Int) - C3.bindingsoffset = (parameterCount stF : Int)) := by
    right
    constructor
    · simp [remainderNonempty, hC3, mkChain]
    · simp [hC3, hstF, parameterCount, hlen]
  obtain ⟨st2, hbind, hp2, hr2, hl2, hs2⟩ :=
    dobindings_seq_ok C3 vs stF rfl rfl rfl hsafe hcount
  refine ⟨st2.binds, ?_⟩
  have hst2 : st2 = ⟨0, List.replicate r0 .row, SQLITE_OK, st2.binds,
      ⟨n, List.replicate n none, List.replicate r0 .row⟩⟩ := by
    obtain ⟨a, b, c, d, e⟩ := st2
    simp only [hstF] at hp2 hr2 hl2 hs2
    subst hp2 hr2 hl2 hs2
    rfl
  rw [stepGoAgain]
  simp only [emPulled, statementcache_finalize, releaseEvent, setExc,
    ne_eq, not_true_eq_false, if_false, if_true, and_false, false_and,
    ite_true, ite_false, not_false_eq_true, and_true, true_and]
  simp only [Option.getD_some, hprep]
  have hlog : lg ++ [Event.released 0] ++ [Event.prepared 0] =
      lg ++ [Event.released 0, Event.prepared 0] := by simp
  rw [hlog]
  rw [hC3] at hbind
  rw [hst2] at hbind
  rw [hbind]
  cases tr
  case false =>
    simp [APSWCursor_doexectrace, emCursor, enterEvents, parameterCount,
      hstF, hlen, List.append_assoc]
  case true =>
    simp [APSWCursor_doexectrace, emCursor, enterEvents, parameterCount,
      hstF, hlen, List.append_assoc]

/-- Re-entering the chain on a binding set whose arity does not match:
the unit is released and re-acquired, but reconciliation fails with
`ExcBindings` before anything is stepped, aborting the batch with the
never-visited remainder still in the iterator. -/
theorem emGoAgain_abort (n r0 : Nat) (tr : Bool) (vs : List SQValue)
    (hlen : (vs.length : Int) ≠ (n : Int))
    (sp : StmtSpec) (bl : List (Option SQValue)) (tail : List EMItem)
    (lg : List Event) (f : Nat) :
    stepGoAgain f (emPulled n r0 sp bl (.seq vs) tail tr lg) =
      some (emAbortCursor n r0 (.seq vs) tail tr
        (lg ++ [.released 0, .prepared 0]), false) := by
  have hget2 : (mkChain [(n, r0)])[0]? = some (PrepItem.good ⟨n,
      List.replicate n none, List.replicate r0 .row⟩) := by
    simp [mkChain]
  have hprep : statementcache_prepare (mkChain [(n, r0)]) 0 =
      (SQLITE_OK, some ⟨0, List.replicate r0 .row, SQLITE_OK,
        List.replicate n none,
        ⟨n, List.replicate n none, List.replicate r0 .row⟩⟩, 1) := by
    simp [statementcache_prepare, hget2]
  set stF : Stmt := ⟨0, List.replicate r0 .row, SQLITE_OK,
    List.replicate n none,
    ⟨n, List.replicate n none, List.replicate r0 .row⟩⟩ with hstF
  set C3 : Cursor :=
    { connOpen := true, inuse := false, statement := some stF,
      zsql := some (mkChain [(n, r0)]), zsqlnextpos := some 1,
      status := .done, bindings := some (.seq vs), bindingsoffset := 0,
      emiter := some tail, exectrace := if tr then some [] else none,
      rowtrace := false, pendingErr := none,
      log := lg ++ [.released 0, .prepared 0] } with hC3
  have hcount :
      (remainderNonempty C3 = true ∧
        (vs.length : Int) - C3.bindingsoffset < (parameterCount stF : Int)) ∨
      (remainderNonempty C3 = false ∧
        (vs.length : Int) - C3.bindingsoffset ≠ (parameterCount stF : Int)) := by
    right
    constructor
    · simp [remainderNonempty, hC3, mkChain]
    · simp [hC3, hstF, parameterCount]
      omega
  have hbind := dobindings_seq_count_fail C3 vs stF rfl rfl rfl hcount
  rw [stepGoAgain]
  simp only [emPulled, statementcache_finalize, releaseEvent, setExc,
    ne_eq, not_true_eq_false, if_false, if_true, and_false, false_and,
    ite_true, ite_false, not_false_eq_true, and_true, true_and]
  simp only [Option.getD_some, hprep]
  have hlog : lg ++ [Event.released 0] ++ [Event.prepared 0] =
      lg ++ [Event.released 0, Event.prepared 0] := by simp
  rw [hlog]
  rw [hC3] at hbind
  rw [hbind]
  simp [emAbortCursor, hstF]

/-- One batch repetition appended in front of a repetition tail. -/
theorem emTail_succ (r0 : Nat) (tr : Bool) (k : Nat) :
    emTail r0 tr (k + 1) =
      [Event.released 0] ++ c2Rep r0 tr ++ emTail r0 tr k := by
  simp [emTail, List.replicate_succ]

/-- The per-repetition trails agree: a repetition body followed by the
release-led tail of `k` further repetitions and the closing release is
the `k + 1`-repetition event trail. -/
theorem c2Events_shift (r0 : Nat) (tr : Bool) :
    ∀ (k : Nat), c2Rep r0 tr ++ (emTail r0 tr k ++ [Event.released 0]) =
      c2Events r0 tr (k + 1) := by
  intro k
  induction k with
  | zero => simp [c2Events, emTail, List.replicate_succ]
  | succ k ih =>
      rw [emTail_succ]
      have h2 : c2Events r0 tr (k + 1 + 1) =
          (c2Rep r0 tr ++ [Event.released 0]) ++ c2Events r0 tr (k + 1) := by
        simp [c2Events, List.replicate_succ]
      rw [h2, ← ih]
      simp [List.append_assoc]

/-- With a zero-row statement, every remaining batch repetition finishes
inside a single entry of the step loop: each pulled binding set re-enters
the unit, reports done immediately, and pulls the next, until the
iterator is exhausted and the closing reset releases the unit. -/
theorem emZeroCross (n : Nat) (tr : Bool) :
    ∀ (bss : List (List SQValue)) (vs : List SQValue),
      vs.length = n → (∀ v ∈ vs, bindSafe v = true) →
      (∀ ws ∈ bss, ws.length = n ∧ ∀ v ∈ ws, bindSafe v = true) →
      ∀ (sp : StmtSpec) (bl : List (Option SQValue)) (lg : List Event)
        (f : Nat),
      stepGoAgain (bss.length + f + 1)
          (emPulled n 0 sp bl (.seq vs)
            (bss.map fun ws => .item (.seq ws)) tr lg) =
        some (doneCursor tr (lg ++ [.released 0] ++ c2Rep 0 tr
          ++ emTail 0 tr bss.length ++ [.released 0]), true) := by
  intro bss
  induction bss with
  | nil =>
      intro vs hlen hsafe _ sp bl lg f
      obtain ⟨bl2, hadv⟩ := emGoAgain_advance n 0 tr vs hlen hsafe sp bl
        (([] : List (List SQValue)).map fun ws => .item (.seq ws)) lg
        (([] : List (List SQValue)).length + f + 1)
      rw [hadv]
      simp only [List.map_nil, List.length_nil, Nat.zero_add]
      rw [stepLoop_em_finish n 0 _ bl2 (some (.seq vs)) (n : Int) tr _ f]
      simp [c2Rep, emTail, enterEvents, c2Events, List.append_assoc]
  | cons ws bss ih =>
      intro vs hlen hsafe hgood sp bl lg f
      obtain ⟨bl2, hadv⟩ := emGoAgain_advance n 0 tr vs hlen hsafe sp bl
        ((ws :: bss).map fun w => .item (.seq w)) lg
        ((ws :: bss).length + f + 1)
      rw [hadv]
      simp only [List.map_cons, List.length_cons]
      rw [show bss.length + 1 + f + 1 = (bss.length + f + 1) + 1
        from by omega]
      rw [stepLoop_em_pull n 0 _ bl2 (some (.seq vs)) (n : Int)
        (.seq ws) _ tr _ (bss.length + f + 1)]
      rw [ih ws (hgood ws (by simp)).1 (hgood ws (by simp)).2
        (fun w hw => hgood w (by simp [hw])) _ bl2 _ f]
      rw [emTail_succ]
      simp [c2Rep, enterEvents, List.append_assoc]

/-- With a zero-row statement, the crossing of the remaining batch stops
dead at the first binding set whose arity does not match: the repetitions
before it run, the bad set's reconciliation fails, and the never-visited
remainder stays in the iterator. -/
theorem emZeroCrossAbort (n : Nat) (tr : Bool) :
    ∀ (goods : List (List SQValue)) (vs : List SQValue),
      vs.length = n → (∀ v ∈ vs, bindSafe v = true) →
      (∀ ws ∈ goods, ws.length = n ∧ ∀ v ∈ ws, bindSafe v = true) →
      ∀ (bad : List SQValue), ((bad.length : Int) ≠ (n : Int)) →
      ∀ (more : List (List SQValue)) (sp : StmtSpec)
        (bl : List (Option SQValue)) (lg : List Event) (f : Nat),
      stepGoAgain (goods.length + f + 1)
          (emPulled n 0 sp bl (.seq vs)
            ((goods ++ bad :: more).map fun ws => .item (.seq ws)) tr lg) =
        some (emAbortCursor n 0 (.seq bad)
          (more.map fun ws => .item (.seq ws)) tr
          (lg ++ [.released 0] ++ c2Rep 0 tr ++ emTail 0 tr goods.length
            ++ [.released 0, .prepared 0]), false) := by
  intro goods
  induction goods with
  | nil =>
      intro vs hlen hsafe _ bad hbad more sp bl lg f
      obtain ⟨bl2, hadv⟩ := emGoAgain_advance n 0 tr vs hlen hsafe sp bl
        (([] ++ bad :: more : List (List SQValue)).map
          fun ws => .item (.seq ws)) lg
        (([] : List (List SQValue)).length + f + 1)
      rw [hadv]
      simp only [List.map_nil, List.map_cons, List.length_nil,
        Nat.zero_add, List.nil_append]
      rw [stepLoop_em_pull n 0 _ bl2 (some (.seq vs)) (n : Int)
        (.seq bad) _ tr _ f]
      rw [emGoAgain_abort n 0 tr bad hbad _ bl2 _ _ f]
      simp [c2Rep, emTail, enterEvents, List.append_assoc]
  | cons ws goods ih =>
      intro vs hlen hsafe hgood bad hbad more sp bl lg f
      obtain ⟨bl2, hadv⟩ := emGoAgain_advance n 0 tr vs hlen hsafe sp bl
        ((ws :: goods ++ bad :: more : List (List SQValue)).map
          fun w => .item (.seq w)) lg
        ((ws :: goods : List (List SQValue)).length + f + 1)
      rw [hadv]
      simp only [List.map_cons, List.length_cons, List.cons_append]
      rw [show goods.length + 1 + f + 1 = (goods.length + f + 1) + 1
        from by omega]
      rw [stepLoop_em_pull n 0 _ bl2 (some (.seq vs)) (n : Int)
        (.seq ws) _ tr _ (goods.length + f + 1)]
      rw [ih ws (hgood ws (by simp)).1 (hgood ws (by simp)).2
        (fun w hw => hgood w (by simp [hw])) bad hbad more _ bl2 _ f]
      rw [emTail_succ]
      simp [c2Rep, enterEvents, List.append_assoc]

/-- Draining the last batch repetition: its pending rows are pulled one
`next` at a time, its done finds the iterator exhausted, and the closing
reset releases the unit. -/
theorem drive_em_last (n r0 : Nat) (tr : Bool) (r : Nat) (sp : StmtSpec)
    (bl : List (Option SQValue)) (b : Option Bindings) (off : Int)
    (lg : List Event) (f : Nat) :
    drive (r + (f + 1) + 1)
        (emCursor n r0 r sp bl b off [] tr lg .begin) =
      some (doneCursor tr
        (lg ++ List.replicate r (.stepped 0 SQLITE_ROW)
          ++ [.stepped 0 SQLITE_DONE, .released 0]), true) := by
  have hrows : drive (r + ((f + 1) + 1))
      (emCursor n r0 r sp bl b off [] tr lg .begin) =
      drive ((f + 1) + 1) (emCursor n r0 0 sp bl b off [] tr
        (lg ++ List.replicate r (.stepped 0 SQLITE_ROW)) .begin) :=
    drive_rows r (f + 1) (emCursor n r0 r sp bl b off [] tr lg .begin)
      ⟨0, List.replicate r .row, SQLITE_OK, bl, sp⟩ rfl rfl rfl rfl rfl rfl
  rw [show r + (f + 1) + 1 = r + ((f + 1) + 1) from by omega, hrows]
  have hSL := stepLoop_em_finish n r0 sp bl b off tr
    (lg ++ List.replicate r (.stepped 0 SQLITE_ROW)) (f + 1)
  have hnext : APSWCursor_next ((f + 1) + 1)
      (emCursor n r0 0 sp bl b off [] tr
        (lg ++ List.replicate r (.stepped 0 SQLITE_ROW)) .begin) =
      some (doneCursor tr
        (lg ++ List.replicate r (.stepped 0 SQLITE_ROW)
          ++ [.stepped 0 SQLITE_DONE, .released 0]), .exhausted) := by
    simp only [APSWCursor_next, emCursor]
    simp only [emCursor, List.replicate_zero] at hSL
    simp [hSL, doneCursor, List.append_assoc]
  rw [drive]
  simp only [hnext]

/-- Driving a mid-batch cursor to exhaustion: the rows pending on the
current repetition are pulled in order, then every remaining binding set
of the batch is bound and stepped to completion, once each and in batch
order, each repetition re-acquiring the chain's first unit at offset 0
before the next binding set is touched. -/
theorem driveEM (n r0 : Nat) (tr : Bool) :
    ∀ (bss : List (List SQValue)),
      (∀ ws ∈ bss, ws.length = n ∧ ∀ v ∈ ws, bindSafe v = true) →
      ∀ (r : Nat) (sp : StmtSpec) (bl : List (Option SQValue))
        (b : Option Bindings) (off : Int) (lg : List Event) (f : Nat),
      drive (r + (bss.length * (r0 + 1) + f + 1) + 1)
          (emCursor n r0 r sp bl b off
            (bss.map fun ws => .item (.seq ws)) tr lg .begin) =
        some (doneCursor tr
          (lg ++ List.replicate r (.stepped 0 SQLITE_ROW)
            ++ [.stepped 0 SQLITE_DONE]
            ++ emTail r0 tr bss.length ++ [.released 0]), true) := by
  intro bss
  induction bss with
  | nil =>
      intro _ r sp bl b off lg f
      simp only [List.map_nil, List.length_nil, Nat.zero_mul, Nat.zero_add]
      rw [drive_em_last n r0 tr r sp bl b off lg f]
      simp [emTail, List.append_assoc]
  | cons ws bss ih =>
      intro hgood r sp bl b off lg f
      simp only [List.map_cons, List.length_cons]
      have hrows : drive (r + (((bss.length + 1) * (r0 + 1) + f + 1) + 1))
          (emCursor n r0 r sp bl b off
            (.item (.seq ws) :: bss.map fun w => .item (.seq w)) tr lg
            .begin) =
          drive (((bss.length + 1) * (r0 + 1) + f + 1) + 1)
            (emCursor n r0 0 sp bl b off
              (.item (.seq ws) :: bss.map fun w => .item (.seq w)) tr
              (lg ++ List.replicate r (.stepped 0 SQLITE_ROW)) .begin) :=
        drive_rows r ((bss.length + 1) * (r0 + 1) + f + 1)
          (emCursor n r0 r sp bl b off
            (.item (.seq ws) :: bss.map fun w => .item (.seq w)) tr lg
            .begin)
          ⟨0, List.replicate r .row, SQLITE_OK, bl, sp⟩ rfl rfl rfl rfl rfl rfl
      rw [show r + ((bss.length + 1) * (r0 + 1) + f + 1) + 1 =
        r + (((bss.length + 1) * (r0 + 1) + f + 1) + 1) from by omega, hrows]
      have hpull := stepLoop_em_pull n r0 sp bl b off (.seq ws)
        (bss.map fun w => .item (.seq w)) tr
        (lg ++ List.replicate r (.stepped 0 SQLITE_ROW))
        ((bss.length + 1) * (r0 + 1) + f + 1)
      rcases r0 with _ | rr
      · -- zero-row statement: the rest of the batch crosses in one stepLoop
        obtain ⟨hlw, hsw⟩ := hgood ws (by simp)
        have hA := emZeroCross n tr bss ws hlw hsw
          (fun w hw => hgood w (by simp [hw])) sp bl
          (lg ++ List.replicate r (.stepped 0 SQLITE_ROW)
            ++ [.stepped 0 SQLITE_DONE]) (f + 1)
        rw [show (bss.length + 1) * (0 + 1) + f + 1 = bss.length + f + 1 + 1
          from by ring_nf] at hpull
        rw [show bss.length + (f + 1) + 1 = bss.length + f + 1 + 1
          from by omega] at hA
        have hnext : APSWCursor_next
            (((bss.length + 1) * (0 + 1) + f + 1) + 1)
            (emCursor n 0 0 sp bl b off
              (.item (.seq ws) :: bss.map fun w => .item (.seq w)) tr
              (lg ++ List.replicate r (.stepped 0 SQLITE_ROW)) .begin) =
            some (doneCursor tr
              (lg ++ List.replicate r (.stepped 0 SQLITE_ROW)
                ++ [.stepped 0 SQLITE_DONE] ++ [.released 0] ++ c2Rep 0 tr
                ++ emTail 0 tr bss.length ++ [.released 0]), .exhausted) := by
          rw [show ((bss.length + 1) * (0 + 1) + f + 1) + 1 =
            (bss.length + f + 1 + 1) + 1 from by ring_nf]
          simp only [APSWCursor_next, emCursor]
          simp only [emCursor, emPulled, List.replicate_zero,
            List.append_assoc] at hpull hA
          simp [hpull, hA, doneCursor, List.append_assoc]
        rw [drive]
        simp only [hnext]
        rw [emTail_succ]
        simp [c2Rep, enterEvents, List.append_assoc]
      · -- the fresh repetition pauses on its first row; recurse
        obtain ⟨hlw, hsw⟩ := hgood ws (by simp)
        obtain ⟨bl2, hadv⟩ := emGoAgain_advance n (rr + 1) tr ws hlw hsw
          sp bl (bss.map fun w => .item (.seq w))
          (lg ++ List.replicate r (.stepped 0 SQLITE_ROW)
            ++ [.stepped 0 SQLITE_DONE])
          ((bss.length + 1) * (rr + 1 + 1) + f + 1)
        have hrowstep := stepLoop_row
          (emCursor n (rr + 1) (rr + 1)
            ⟨n, List.replicate n none, List.replicate (rr + 1) .row⟩ bl2
            (some (.seq ws)) (n : Int) (bss.map fun w => .item (.seq w)) tr
            (lg ++ List.replicate r (.stepped 0 SQLITE_ROW)
              ++ [.stepped 0 SQLITE_DONE] ++ [.released 0]
              ++ enterEvents tr 0 0) .begin)
          ⟨0, List.replicate (rr + 1) .row, SQLITE_OK, bl2,
            ⟨n, List.replicate n none, List.replicate (rr + 1) .row⟩⟩
          (List.replicate rr .row)
          ((bss.length + 1) * (rr + 1 + 1) + f) rfl
          (by simp [List.replicate_succ]) rfl
        have hrow2 : stepLoop ((bss.length + 1) * (rr + 1 + 1) + f + 1)
            (emCursor n (rr + 1) (rr + 1)
              ⟨n, List.replicate n none, List.replicate (rr + 1) .row⟩ bl2
              (some (.seq ws)) (n : Int)
              (bss.map fun w => .item (.seq w)) tr
              (lg ++ List.replicate r (.stepped 0 SQLITE_ROW)
                ++ [.stepped 0 SQLITE_DONE] ++ [.released 0]
                ++ enterEvents tr 0 0) .begin) =
            some (emCursor n (rr + 1) rr
              ⟨n, List.replicate n none, List.replicate (rr + 1) .row⟩ bl2
              (some (.seq ws)) (n : Int)
              (bss.map fun w => .item (.seq w)) tr
              (lg ++ List.replicate r (.stepped 0 SQLITE_ROW)
                ++ [.stepped 0 SQLITE_DONE] ++ [.released 0]
                ++ enterEvents tr 0 0 ++ [.stepped 0 SQLITE_ROW]) .row,
              true) := by
          exact hrowstep
        have hnext : APSWCursor_next
            (((bss.length + 1) * (rr + 1 + 1) + f + 1) + 1)
            (emCursor n (rr + 1) 0 sp bl b off
              (.item (.seq ws) :: bss.map fun w => .item (.seq w)) tr
              (lg ++ List.replicate r (.stepped 0 SQLITE_ROW)) .begin) =
            some (emCursor n (rr + 1) rr
              ⟨n, List.replicate n none, List.replicate (rr + 1) .row⟩ bl2
              (some (.seq ws)) (n : Int)
              (bss.map fun w => .item (.seq w)) tr
              (lg ++ List.replicate r (.stepped 0 SQLITE_ROW)
                ++ [.stepped 0 SQLITE_DONE] ++ [.released 0]
                ++ enterEvents tr 0 0 ++ [.stepped 0 SQLITE_ROW]) .begin,
              .gotRow) := by
          simp only [APSWCursor_next, emCursor]
          simp only [emCursor, emPulled, List.append_assoc,
            List.singleton_append, List.cons_append, List.nil_append,
            List.replicate_zero] at hpull hadv hrow2
          simp [hpull, hadv, hrow2, List.append_assoc]
        rw [drive]
        simp only [hnext]
        have hIH := ih (fun w hw => hgood w (by simp [hw])) rr
          ⟨n, List.replicate n none, List.replicate (rr + 1) .row⟩ bl2
          (some (.seq ws)) (n : Int)
          (lg ++ List.replicate r (.stepped 0 SQLITE_ROW)
            ++ [.stepped 0 SQLITE_DONE] ++ [.released 0]
            ++ enterEvents tr 0 0 ++ [.stepped 0 SQLITE_ROW]) (f + 1)
        rw [show (bss.length + 1) * (rr + 1 + 1) + f + 1 =
          rr + (bss.length * (rr + 1 + 1) + (f + 1) + 1) + 1
          from by ring_nf]
        rw [hIH]
        rw [emTail_succ]
        simp [c2Rep, enterEvents, List.replicate_succ, List.append_assoc]

/-- Driving a mid-batch cursor into an arity-mismatched binding set: the
repetitions for the good binding sets before it run to completion in
order, then the bad set's reconciliation fails and the batch aborts at
once — the binding sets after the bad one are never touched. -/
theorem driveEMAbort (n r0 : Nat) (tr : Bool) :
    ∀ (goods : List (List SQValue)),
      (∀ ws ∈ goods, ws.length = n ∧ ∀ v ∈ ws, bindSafe v = true) →
      ∀ (bad : List SQValue), ((bad.length : Int) ≠ (n : Int)) →
      ∀ (more : List (List SQValue)) (r : Nat) (sp : StmtSpec)
        (bl : List (Option SQValue)) (b : Option Bindings) (off : Int)
        (lg : List Event) (f : Nat),
      drive (r + (goods.length * (r0 + 1) + f + 1) + 1)
          (emCursor n r0 r sp bl b off
            ((goods ++ bad :: more).map fun ws => .item (.seq ws)) tr lg
            .begin) =
        some (emAbortCursor n r0 (.seq bad)
          (more.map fun ws => .item (.seq ws)) tr
          (lg ++ List.replicate r (.stepped 0 SQLITE_ROW)
            ++ [.stepped 0 SQLITE_DONE]
            ++ emTail r0 tr goods.length
            ++ [.released 0, .prepared 0]), false) := by
  intro goods
  induction goods with
  | nil =>
      intro _ bad hbad more r sp bl b off lg f
      simp only [List.map_cons, List.length_nil, List.nil_append,
        Nat.zero_mul, Nat.zero_add]
      have hrows : drive (r + ((f + 1) + 1))
          (emCursor n r0 r sp bl b off
            (.item (.seq bad) :: more.map fun w => .item (.seq w)) tr lg
            .begin) =
          drive ((f + 1) + 1)
            (emCursor n r0 0 sp bl b off
              (.item (.seq bad) :: more.map fun w => .item (.seq w)) tr
              (lg ++ List.replicate r (.stepped 0 SQLITE_ROW)) .begin) :=
        drive_rows r (f + 1)
          (emCursor n r0 r sp bl b off
            (.item (.seq bad) :: more.map fun w => .item (.seq w)) tr lg
            .begin)
          ⟨0, List.replicate r .row, SQLITE_OK, bl, sp⟩ rfl rfl rfl rfl rfl rfl
      rw [show r + (f + 1) + 1 = r + ((f + 1) + 1) from by omega, hrows]
      have hpull := stepLoop_em_pull n r0 sp bl b off (.seq bad)
        (more.map fun w => .item (.seq w)) tr
        (lg ++ List.replicate r (.stepped 0 SQLITE_ROW)) (f + 1)
      have habort := emGoAgain_abort n r0 tr bad hbad sp bl
        (more.map fun w => .item (.seq w))
        (lg ++ List.replicate r (.stepped 0 SQLITE_ROW)
          ++ [.stepped 0 SQLITE_DONE]) (f + 1)
      have hnext : APSWCursor_next ((f + 1) + 1)
          (emCursor n r0 0 sp bl b off
            (.item (.seq bad) :: more.map fun w => .item (.seq w)) tr
            (lg ++ List.replicate r (.stepped 0 SQLITE_ROW)) .begin) =
          some (emAbortCursor n r0 (.seq bad)
            (more.map fun w => .item (.seq w)) tr
            (lg ++ List.replicate r (.stepped 0 SQLITE_ROW)
              ++ [.stepped 0 SQLITE_DONE]
              ++ [.released 0, .prepared 0]), .failed) := by
        simp only [APSWCursor_next, emCursor]
        simp only [emCursor, emPulled, emAbortCursor, List.append_assoc,
          List.singleton_append, List.cons_append, List.nil_append,
          List.map_append, List.map_cons,
          List.replicate_zero] at hpull habort
        simp [hpull, habort, emAbortCursor, List.append_assoc]
      rw [drive]
      simp only [hnext]
      simp [emTail, List.append_assoc]
  | cons ws goods ih =>
      intro hgood bad hbad more r sp bl b off lg f
      simp only [List.cons_append, List.map_cons, List.length_cons]
      have hrows : drive (r + (((goods.length + 1) * (r0 + 1) + f + 1) + 1))
          (emCursor n r0 r sp bl b off
            (.item (.seq ws) ::
              (goods ++ bad :: more).map fun w => .item (.seq w)) tr lg
            .begin) =
          drive (((goods.length + 1) * (r0 + 1) + f + 1) + 1)
            (emCursor n r0 0 sp bl b off
              (.item (.seq ws) ::
                (goods ++ bad :: more).map fun w => .item (.seq w)) tr
              (lg ++ List.replicate r (.stepped 0 SQLITE_ROW)) .begin) :=
        drive_rows r ((goods.length + 1) * (r0 + 1) + f + 1)
          (emCursor n r0 r sp bl b off
            (.item (.seq ws) ::
              (goods ++ bad :: more).map fun w => .item (.seq w)) tr lg
            .begin)
          ⟨0, List.replicate r .row, SQLITE_OK, bl, sp⟩ rfl rfl rfl rfl rfl rfl
      rw [show r + ((goods.length + 1) * (r0 + 1) + f + 1) + 1 =
        r + (((goods.length + 1) * (r0 + 1) + f + 1) + 1) from by omega,
        hrows]
      have hpull := stepLoop_em_pull n r0 sp bl b off (.seq ws)
        ((goods ++ bad :: more).map fun w => .item (.seq w)) tr
        (lg ++ List.replicate r (.stepped 0 SQLITE_ROW))
        ((goods.length + 1) * (r0 + 1) + f + 1)
      rcases r0 with _ | rr
      · obtain ⟨hlw, hsw⟩ := hgood ws (by simp)
        have hA := emZeroCrossAbort n tr goods ws hlw hsw
          (fun w hw => hgood w (by simp [hw])) bad hbad more sp bl
          (lg ++ List.replicate r (.stepped 0 SQLITE_ROW)
            ++ [.stepped 0 SQLITE_DONE]) (f + 1)
        rw [show (goods.length + 1) * (0 + 1) + f + 1 =
          goods.length + f + 1 + 1 from by ring_nf] at hpull
        rw [show goods.length + (f + 1) + 1 = goods.length + f + 1 + 1
          from by omega] at hA
        have hnext : APSWCursor_next
            (((goods.length + 1) * (0 + 1) + f + 1) + 1)
            (emCursor n 0 0 sp bl b off
              (.item (.seq ws) ::
                (goods ++ bad :: more).map fun w => .item (.seq w)) tr
              (lg ++ List.replicate r (.stepped 0 SQLITE_ROW)) .begin) =
            some (emAbortCursor n 0 (.seq bad)
              (more.map fun w => .item (.seq w)) tr
              (lg ++ List.replicate r (.stepped 0 SQLITE_ROW)
                ++ [.stepped 0 SQLITE_DONE] ++ [.released 0] ++ c2Rep 0 tr
                ++ emTail 0 tr goods.length
                ++ [.released 0, .prepared 0]), .failed) := by
          rw [show ((goods.length + 1) * (0 + 1) + f + 1) + 1 =
            (goods.length + f + 1 + 1) + 1 from by ring_nf]
          simp only [APSWCursor_next, emCursor]
          simp only [emCursor, emPulled, emAbortCursor, List.append_assoc,
            List.singleton_append, List.cons_append, List.nil_append,
            List.map_append, List.map_cons,
            List.replicate_zero] at hpull hA
          simp [hpull, hA, emAbortCursor, List.append_assoc]
        rw [drive]
        simp only [hnext]
        rw [emTail_succ]
        simp [c2Rep, enterEvents, List.append_assoc]
      · obtain ⟨hlw, hsw⟩ := hgood ws (by simp)
        obtain ⟨bl2, hadv⟩ := emGoAgain_advance n (rr + 1) tr ws hlw hsw
          sp bl ((goods ++ bad :: more).map fun w => .item (.seq w))
          (lg ++ List.replicate r (.stepped 0 SQLITE_ROW)
            ++ [.stepped 0 SQLITE_DONE])
          ((goods.length + 1) * (rr + 1 + 1) + f + 1)
        have hrowstep := stepLoop_row
          (emCursor n (rr + 1) (rr + 1)
            ⟨n, List.replicate n none, List.replicate (rr + 1) .row⟩ bl2
            (some (.seq ws)) (n : Int)
            ((goods ++ bad :: more).map fun w => .item (.seq w)) tr
            (lg ++ List.replicate r (.stepped 0 SQLITE_ROW)
              ++ [.stepped 0 SQLITE_DONE] ++ [.released 0]
              ++ enterEvents tr 0 0) .begin)
          ⟨0, List.replicate (rr + 1) .row, SQLITE_OK, bl2,
            ⟨n, List.replicate n none, List.replicate (rr + 1) .row⟩⟩
          (List.replicate rr .row)
          ((goods.length + 1) * (rr + 1 + 1) + f) rfl
          (by simp [List.replicate_succ]) rfl
        have hrow2 : stepLoop ((goods.length + 1) * (rr + 1 + 1) + f + 1)
            (emCursor n (rr + 1) (rr + 1)
              ⟨n, List.replicate n none, List.replicate (rr + 1) .row⟩ bl2
              (some (.seq ws)) (n : Int)
              ((goods ++ bad :: more).map fun w => .item (.seq w)) tr
              (lg ++ List.replicate r (.stepped 0 SQLITE_ROW)
                ++ [.stepped 0 SQLITE_DONE] ++ [.released 0]
                ++ enterEvents tr 0 0) .begin) =
            some (emCursor n (rr + 1) rr
              ⟨n, List.replicate n none, List.replicate (rr + 1) .row⟩ bl2
              (some (.seq ws)) (n : Int)
              ((goods ++ bad :: more).map fun w => .item (.seq w)) tr
              (lg ++ List.replicate r (.stepped 0 SQLITE_ROW)
                ++ [.stepped 0 SQLITE_DONE] ++ [.released 0]
                ++ enterEvents tr 0 0 ++ [.stepped 0 SQLITE_ROW]) .row,
              true) := by
          exact hrowstep
        have hnext : APSWCursor_next
            (((goods.length + 1) * (rr + 1 + 1) + f + 1) + 1)
            (emCursor n (rr + 1) 0 sp bl b off
              (.item (.seq ws) ::
                (goods ++ bad :: more).map fun w => .item (.seq w)) tr
              (lg ++ List.replicate r (.stepped 0 SQLITE_ROW)) .begin) =
            some (emCursor n (rr + 1) rr
              ⟨n, List.replicate n none, List.replicate (rr + 1) .row⟩ bl2
              (some (.seq ws)) (n : Int)
              ((goods ++ bad :: more).map fun w => .item (.seq w)) tr
              (lg ++ List.replicate r (.stepped 0 SQLITE_ROW)
                ++ [.stepped 0 SQLITE_DONE] ++ [.released 0]
                ++ enterEvents tr 0 0 ++ [.stepped 0 SQLITE_ROW]) .begin,
              .gotRow) := by
          simp only [APSWCursor_next, emCursor]
          simp only [emCursor, emPulled, List.append_assoc,
            List.singleton_append, List.cons_append, List.nil_append,
            List.map_append, List.map_cons,
            List.replicate_zero] at hpull hadv hrow2
          simp [hpull, hadv, hrow2, List.append_assoc]
        rw [drive]
        simp only [hnext]
        have hIH := ih (fun w hw => hgood w (by simp [hw])) bad hbad more rr
          ⟨n, List.replicate n none, List.replicate (rr + 1) .row⟩ bl2
          (some (.seq ws)) (n : Int)
          (lg ++ List.replicate r (.stepped 0 SQLITE_ROW)
            ++ [.stepped 0 SQLITE_DONE] ++ [.released 0]
            ++ enterEvents tr 0 0 ++ [.stepped 0 SQLITE_ROW]) (f + 1)
        rw [show (goods.length + 1) * (rr + 1 + 1) + f + 1 =
          rr + (goods.length * (rr + 1 + 1) + (f + 1) + 1) + 1
          from by ring_nf]
        rw [hIH]
        rw [emTail_succ]
        simp [c2Rep, enterEvents, List.replicate_succ, List.append_assoc]

/-- Entering `executemany` on a fresh cursor with a well-formed first
binding set: the state is reset, the batch tail parked in the iterator,
the chain's only unit acquired and bound from the first set at offset 0,
the tracer fired, and the step loop entered. -/
theorem executemany_setup (n r0 : Nat) (tr : Bool) (vs : List SQValue)
    (hlen : vs.length = n) (hsafe : ∀ v ∈ vs, bindSafe v = true)
    (tail : List EMItem) (F : Nat) :
    ∃ bl2, APSWCursor_executemany
        { freshCursor with exectrace := if tr then some [] else none }
        (mkChain [(n, r0)]) (.item (.seq vs) :: tail) F =
      stepLoop F (emCursor n r0 r0
        ⟨n, List.replicate n none, List.replicate r0 .row⟩ bl2
        (some (.seq vs)) (n : Int) tail tr (enterEvents tr 0 0) .begin) := by
  have hget2 : (mkChain [(n, r0)])[0]? = some (PrepItem.good ⟨n,
      List.replicate n none, List.replicate r0 .row⟩) := by
    simp [mkChain]
  have hprep : statementcache_prepare (mkChain [(n, r0)]) 0 =
      (SQLITE_OK, some ⟨0, List.replicate r0 .row, SQLITE_OK,
        List.replicate n none,
        ⟨n, List.replicate n none, List.replicate r0 .row⟩⟩, 1) := by
    simp [statementcache_prepare, hget2]
  set stF : Stmt := ⟨0, List.replicate r0 .row, SQLITE_OK,
    List.replicate n none,
    ⟨n, List.replicate n none, List.replicate r0 .row⟩⟩ with hstF
  set C6 : Cursor :=
    { connOpen := true, inuse := false, statement := some stF,
      zsql := some (mkChain [(n, r0)]), zsqlnextpos := some 1,
      status := .done, bindings := some (.seq vs), bindingsoffset := 0,
      emiter := some tail, exectrace := if tr then some [] else none,
      rowtrace := false, pendingErr := none,
      log := [.prepared 0] } with hC6
  have hcount :
      (remainderNonempty C6 = true ∧
        (parameterCount stF : Int) ≤ (vs.length : Int) - C6.bindingsoffset) ∨
      (remainderNonempty C6 = false ∧
        (vs.length : Int) - C6.bindingsoffset = (parameterCount stF : Int)) := by
    right
    constructor
    · simp [remainderNonempty, hC6, mkChain]
    · simp [hC6, hstF, parameterCount, hlen]
  obtain ⟨st2, hbind, hp2, hr2, hl2, hs2⟩ :=
    dobindings_seq_ok C6 vs stF rfl rfl rfl hsafe hcount
  refine ⟨st2.binds, ?_⟩
  have hst2 : st2 = ⟨0, List.replicate r0 .row, SQLITE_OK, st2.binds,
      ⟨n, List.replicate n none, List.replicate r0 .row⟩⟩ := by
    obtain ⟨a, b, c, d, e⟩ := st2
    simp only [hstF] at hp2 hr2 hl2 hs2
    subst hp2 hr2 hl2 hs2
    rfl
  rw [APSWCursor_executemany]
  simp only [freshCursor, resetcursor, resetFinalize, resetChainCheck,
    resetEmCheck, remainderNonempty, raiseIfClear, setExc,
    ne_eq, not_true_eq_false, if_false, if_true, and_false, false_and,
    ite_true, ite_false, not_false_eq_true, and_true, true_and]
  simp only [hprep]
  simp only [ne_eq, not_true_eq_false, if_false, and_false, false_and,
    ite_false, not_false_eq_true, List.nil_append, Bool.false_eq_true,
    Bool.true_eq_false]
  rw [hC6] at hbind
  rw [hst2] at hbind
  rw [hbind]
  cases tr
  case false =>
    simp [APSWCursor_doexectrace, emCursor, enterEvents, parameterCount,
      hstF, hlen, List.append_assoc]
  case true =>
    simp [APSWCursor_doexectrace, emCursor, enterEvents, parameterCount,
      hstF, hlen, List.append_assoc]

/-- Entering `executemany` with a first binding set whose arity does not
match: the unit is acquired but reconciliation fails immediately and
nothing is ever stepped. -/
theorem executemany_setup_abort (n r0 : Nat) (tr : Bool)
    (bad : List SQValue) (hbad : (bad.length : Int) ≠ (n : Int))
    (tail : List EMItem) (F : Nat) :
    APSWCursor_executemany
        { freshCursor with exectrace := if tr then some [] else none }
        (mkChain [(n, r0)]) (.item (.seq bad) :: tail) F =
      some (emAbortCursor n r0 (.seq bad) tail tr [.prepared 0], false) := by
  have hget2 : (mkChain [(n, r0)])[0]? = some (PrepItem.good ⟨n,
      List.replicate n none, List.replicate r0 .row⟩) := by
    simp [mkChain]
  have hprep : statementcache_prepare (mkChain [(n, r0)]) 0 =
      (SQLITE_OK, some ⟨0, List.replicate r0 .row, SQLITE_OK,
        List.replicate n none,
        ⟨n, List.replicate n none, List.replicate r0 .row⟩⟩, 1) := by
    simp [statementcache_prepare, hget2]
  set stF : Stmt := ⟨0, List.replicate r0 .row, SQLITE_OK,
    List.replicate n none,
    ⟨n, List.replicate n none, List.replicate r0 .row⟩⟩ with hstF
  set C6 : Cursor :=
    { connOpen := true, inuse := false, statement := some stF,
      zsql := some (mkChain [(n, r0)]), zsqlnextpos := some 1,
      status := .done, bindings := some (.seq bad), bindingsoffset := 0,
      emiter := some tail, exectrace := if tr then some [] else none,
      rowtrace := false, pendingErr := none,
      log := [.prepared 0] } with hC6
  have hcount :
      (remainderNonempty C6 = true ∧
        (bad.length : Int) - C6.bindingsoffset < (parameterCount stF : Int)) ∨
      (remainderNonempty C6 = false ∧
        (bad.length : Int) - C6.bindingsoffset ≠ (parameterCount stF : Int)) := by
    right
    constructor
    · simp [remainderNonempty, hC6, mkChain]
    · simp [hC6, hstF, parameterCount]
      omega
  have hbind := dobindings_seq_count_fail C6 bad stF rfl rfl rfl hcount
  rw [APSWCursor_executemany]
  simp only [freshCursor, resetcursor, resetFinalize, resetChainCheck,
    resetEmCheck, remainderNonempty, raiseIfClear, setExc,
    ne_eq, not_true_eq_false, if_false, if_true, and_false, false_and,
    ite_true, ite_false, not_false_eq_true, and_true, true_and]
  simp only [hprep]
  simp only [ne_eq, not_true_eq_false, if_false, and_false, false_and,
    ite_false, not_false_eq_true, List.nil_append, Bool.false_eq_true,
    Bool.true_eq_false]
  rw [hC6] at hbind
  rw [hbind]
  simp [emAbortCursor, hstF]

/-- Composing the step made by `executemany` itself with the caller's row
loop, all binding sets well-formed: the whole batch runs to completion. -/
theorem stepLoop_then_drive_em (n r0 : Nat) (tr : Bool)
    (bss : List (List SQValue))
    (hgood : ∀ ws ∈ bss, ws.length = n ∧ ∀ v ∈ ws, bindSafe v = true)
    (r : Nat) (sp : StmtSpec) (bl : List (Option SQValue))
    (b : Option Bindings) (off : Int) (lg : List Event) (f : Nat) :
    (match stepLoop (r + (bss.length * (r0 + 1) + f + 1) + 1)
        (emCursor n r0 r sp bl b off
          (bss.map fun ws => .item (.seq ws)) tr lg .begin) with
     | none => none
     | some (c1, false) => some (c1, false)
     | some (c1, true) =>
         drive (r + (bss.length * (r0 + 1) + f + 1) + 1) c1)
    = some (doneCursor tr
        (lg ++ List.replicate r (.stepped 0 SQLITE_ROW)
          ++ [.stepped 0 SQLITE_DONE]
          ++ emTail r0 tr bss.length ++ [.released 0]), true) := by
  rcases r with _ | rr
  · rcases bss with _ | ⟨ws, bss⟩
    · simp only [List.map_nil, List.length_nil, Nat.zero_mul, Nat.zero_add]
      have hfin := stepLoop_em_finish n r0 sp bl b off tr lg (f + 1)
      simp only [hfin]
      rw [drive_done (f + 1) _ rfl rfl rfl]
      simp [emTail, List.append_assoc]
    · simp only [List.map_cons, List.length_cons]
      have hpull := stepLoop_em_pull n r0 sp bl b off (.seq ws)
        (bss.map fun w => .item (.seq w)) tr lg
        ((bss.length + 1) * (r0 + 1) + f + 1)
      rw [show 0 + ((bss.length + 1) * (r0 + 1) + f + 1) + 1 =
        ((bss.length + 1) * (r0 + 1) + f + 1) + 1 from by omega]
      obtain ⟨hlw, hsw⟩ := hgood ws (by simp)
      rcases r0 with _ | rr0
      · -- zero-row statement: everything happens inside this stepLoop
        have hA := emZeroCross n tr bss ws hlw hsw
          (fun w hw => hgood w (by simp [hw]))
          sp bl (lg ++ [.stepped 0 SQLITE_DONE]) (f + 1)
        rw [show (bss.length + 1) * (0 + 1) + f + 1 = bss.length + f + 1 + 1
          from by ring_nf]
        rw [show (bss.length + 1) * (0 + 1) + f + 1 = bss.length + f + 1 + 1
          from by ring_nf] at hpull
        rw [show bss.length + (f + 1) + 1 = bss.length + f + 1 + 1
          from by omega] at hA
        simp only [hpull, hA]
        rw [drive_done (bss.length + f + 1 + 1) _ rfl rfl rfl]
        rw [emTail_succ]
        simp [c2Rep, enterEvents, List.append_assoc]
      · -- the fresh repetition pauses on its first row
        obtain ⟨bl2, hadv⟩ := emGoAgain_advance n (rr0 + 1) tr ws hlw hsw
          sp bl (bss.map fun w => .item (.seq w))
          (lg ++ [.stepped 0 SQLITE_DONE])
          ((bss.length + 1) * (rr0 + 1 + 1) + f + 1)
        have hrowstep := stepLoop_row
          (emCursor n (rr0 + 1) (rr0 + 1)
            ⟨n, List.replicate n none, List.replicate (rr0 + 1) .row⟩ bl2
            (some (.seq ws)) (n : Int)
            (bss.map fun w => .item (.seq w)) tr
            (lg ++ [.stepped 0 SQLITE_DONE] ++ [.released 0]
              ++ enterEvents tr 0 0) .begin)
          ⟨0, List.replicate (rr0 + 1) .row, SQLITE_OK, bl2,
            ⟨n, List.replicate n none, List.replicate (rr0 + 1) .row⟩⟩
          (List.replicate rr0 .row)
          ((bss.length + 1) * (rr0 + 1 + 1) + f) rfl
          (by simp [List.replicate_succ]) rfl
        have hrow2 : stepLoop ((bss.length + 1) * (rr0 + 1 + 1) + f + 1)
            (emCursor n (rr0 + 1) (rr0 + 1)
              ⟨n, List.replicate n none, List.replicate (rr0 + 1) .row⟩ bl2
              (some (.seq ws)) (n : Int)
              (bss.map fun w => .item (.seq w)) tr
              (lg ++ [.stepped 0 SQLITE_DONE] ++ [.released 0]
                ++ enterEvents tr 0 0) .begin) =
            some (emCursor n (rr0 + 1) rr0
              ⟨n, List.replicate n none, List.replicate (rr0 + 1) .row⟩ bl2
              (some (.seq ws)) (n : Int)
              (bss.map fun w => .item (.seq w)) tr
              (lg ++ [.stepped 0 SQLITE_DONE] ++ [.released 0]
                ++ enterEvents tr 0 0 ++ [.stepped 0 SQLITE_ROW]) .row,
              true) := hrowstep
        simp only [hpull, hadv, hrow2]
        have hflip := next_on_row
          ((bss.length + 1) * (rr0 + 1 + 1) + f + 1 + 1)
          (emCursor n (rr0 + 1) rr0
            ⟨n, List.replicate n none, List.replicate (rr0 + 1) .row⟩ bl2
            (some (.seq ws)) (n : Int)
            (bss.map fun w => .item (.seq w)) tr
            (lg ++ [.stepped 0 SQLITE_DONE] ++ [.released 0]
              ++ enterEvents tr 0 0 ++ [.stepped 0 SQLITE_ROW]) .row)
          rfl rfl rfl
        rw [drive]
        simp only [hflip]
        have hdc := driveEM n (rr0 + 1) tr bss
          (fun w hw => hgood w (by simp [hw])) rr0
          ⟨n, List.replicate n none, List.replicate (rr0 + 1) .row⟩ bl2
          (some (.seq ws)) (n : Int)
          (lg ++ [.stepped 0 SQLITE_DONE] ++ [.released 0]
            ++ enterEvents tr 0 0 ++ [.stepped 0 SQLITE_ROW]) (f + 1)
        rw [show ((bss.length + 1) * (rr0 + 1 + 1) + f) + 1 =
          rr0 + (bss.length * (rr0 + 1 + 1) + (f + 1) + 1) + 1
          from by ring_nf]
        refine Eq.trans hdc ?_
        rw [emTail_succ]
        simp [c2Rep, enterEvents, List.replicate_succ, List.append_assoc]
  · -- rows pending on the current repetition: pause, then drain
    have hrowstep := stepLoop_row
      (emCursor n r0 (rr + 1) sp bl b off
        (bss.map fun ws => .item (.seq ws)) tr lg .begin)
      ⟨0, List.replicate (rr + 1) .row, SQLITE_OK, bl, sp⟩
      (List.replicate rr .row)
      (rr + (bss.length * (r0 + 1) + f + 1) + 1) rfl
      (by simp [List.replicate_succ]) rfl
    rw [show (rr + 1) + (bss.length * (r0 + 1) + f + 1) + 1
      = (rr + (bss.length * (r0 + 1) + f + 1) + 1) + 1 from by omega]
    have hrow2 : stepLoop (rr + (bss.length * (r0 + 1) + f + 1) + 1 + 1)
        (emCursor n r0 (rr + 1) sp bl b off
          (bss.map fun ws => .item (.seq ws)) tr lg .begin) =
      some (emCursor n r0 rr sp bl b off
        (bss.map fun ws => .item (.seq ws)) tr
        (lg ++ [.stepped 0 SQLITE_ROW]) .row, true) := hrowstep
    simp only [hrow2]
    have hflip := next_on_row
      (rr + (bss.length * (r0 + 1) + f + 1) + 1 + 1)
      (emCursor n r0 rr sp bl b off
        (bss.map fun ws => .item (.seq ws)) tr
        (lg ++ [.stepped 0 SQLITE_ROW]) .row) rfl rfl rfl
    rw [drive]
    simp only [hflip]
    have hdc := driveEM n r0 tr bss hgood rr sp bl b off
      (lg ++ [.stepped 0 SQLITE_ROW]) f
    refine Eq.trans hdc ?_
    simp [List.replicate_succ, List.append_assoc]

/-- Composing the step made by `executemany` itself with the caller's row
loop when an arity-mismatched binding set lies in the batch: the good
sets before it run once each, then the batch aborts on the bad set. -/
theorem stepLoop_then_drive_em_abort (n r0 : Nat) (tr : Bool)
    (goods : List (List SQValue))
    (hgood : ∀ ws ∈ goods, ws.length = n ∧ ∀ v ∈ ws, bindSafe v = true)
    (bad : List SQValue) (hbad : (bad.length : Int) ≠ (n : Int))
    (more : List (List SQValue)) (r : Nat) (sp : StmtSpec)
    (bl : List (Option SQValue)) (b : Option Bindings) (off : Int)
    (lg : List Event) (f : Nat) :
    (match stepLoop (r + (goods.length * (r0 + 1) + f + 1) + 1)
        (emCursor n r0 r sp bl b off
          ((goods ++ bad :: more).map fun ws => .item (.seq ws)) tr lg
          .begin) with
     | none => none
     | some (c1, false) => some (c1, false)
     | some (c1, true) =>
         drive (r + (goods.length * (r0 + 1) + f + 1) + 1) c1)
    = some (emAbortCursor n r0 (.seq bad)
        (more.map fun ws => .item (.seq ws)) tr
        (lg ++ List.replicate r (.stepped 0 SQLITE_ROW)
          ++ [.stepped 0 SQLITE_DONE]
          ++ emTail r0 tr goods.length
          ++ [.released 0, .prepared 0]), false) := by
  rcases r with _ | rr
  · rcases goods with _ | ⟨ws, gs⟩
    · simp only [List.map_cons, List.length_nil, List.nil_append,
        Nat.zero_mul, Nat.zero_add]
      have hpull := stepLoop_em_pull n r0 sp bl b off (.seq bad)
        (more.map fun w => .item (.seq w)) tr lg (f + 1)
      have habort := emGoAgain_abort n r0 tr bad hbad sp bl
        (more.map fun w => .item (.seq w))
        (lg ++ [.stepped 0 SQLITE_DONE]) (f + 1)
      simp only [hpull, habort]
      simp [emTail, List.append_assoc]
    · simp only [List.cons_append, List.map_cons, List.length_cons]
      have hpull := stepLoop_em_pull n r0 sp bl b off (.seq ws)
        ((gs ++ bad :: more).map fun w => .item (.seq w)) tr lg
        ((gs.length + 1) * (r0 + 1) + f + 1)
      rw [show 0 + ((gs.length + 1) * (r0 + 1) + f + 1) + 1 =
        ((gs.length + 1) * (r0 + 1) + f + 1) + 1 from by omega]
      obtain ⟨hlw, hsw⟩ := hgood ws (by simp)
      rcases r0 with _ | rr0
      · have hA := emZeroCrossAbort n tr gs ws hlw hsw
          (fun w hw => hgood w (by simp [hw])) bad hbad more
          sp bl (lg ++ [.stepped 0 SQLITE_DONE]) (f + 1)
        rw [show (gs.length + 1) * (0 + 1) + f + 1 = gs.length + f + 1 + 1
          from by ring_nf]
        rw [show (gs.length + 1) * (0 + 1) + f + 1 = gs.length + f + 1 + 1
          from by ring_nf] at hpull
        rw [show gs.length + (f + 1) + 1 = gs.length + f + 1 + 1
          from by omega] at hA
        simp only [hpull, hA]
        rw [emTail_succ]
        simp [c2Rep, enterEvents, List.append_assoc]
      · obtain ⟨bl2, hadv⟩ := emGoAgain_advance n (rr0 + 1) tr ws hlw hsw
          sp bl ((gs ++ bad :: more).map fun w => .item (.seq w))
          (lg ++ [.stepped 0 SQLITE_DONE])
          ((gs.length + 1) * (rr0 + 1 + 1) + f + 1)
        have hrowstep := stepLoop_row
          (emCursor n (rr0 + 1) (rr0 + 1)
            ⟨n, List.replicate n none, List.replicate (rr0 + 1) .row⟩ bl2
            (some (.seq ws)) (n : Int)
            ((gs ++ bad :: more).map fun w => .item (.seq w)) tr
            (lg ++ [.stepped 0 SQLITE_DONE] ++ [.released 0]
              ++ enterEvents tr 0 0) .begin)
          ⟨0, List.replicate (rr0 + 1) .row, SQLITE_OK, bl2,
            ⟨n, List.replicate n none, List.replicate (rr0 + 1) .row⟩⟩
          (List.replicate rr0 .row)
          ((gs.length + 1) * (rr0 + 1 + 1) + f) rfl
          (by simp [List.replicate_succ]) rfl
        have hrow2 : stepLoop ((gs.length + 1) * (rr0 + 1 + 1) + f + 1)
            (emCursor n (rr0 + 1) (rr0 + 1)
              ⟨n, List.replicate n none, List.replicate (rr0 + 1) .row⟩ bl2
              (some (.seq ws)) (n : Int)
              ((gs ++ bad :: more).map fun w => .item (.seq w)) tr
              (lg ++ [.stepped 0 SQLITE_DONE] ++ [.released 0]
                ++ enterEvents tr 0 0) .begin) =
            some (emCursor n (rr0 + 1) rr0
              ⟨n, List.replicate n none, List.replicate (rr0 + 1) .row⟩ bl2
              (some (.seq ws)) (n : Int)
              ((gs ++ bad :: more).map fun w => .item (.seq w)) tr
              (lg ++ [.stepped 0 SQLITE_DONE] ++ [.released 0]
                ++ enterEvents tr 0 0 ++ [.stepped 0 SQLITE_ROW]) .row,
              true) := hrowstep
        simp only [hpull, hadv, hrow2]
        have hflip := next_on_row
          ((gs.length + 1) * (rr0 + 1 + 1) + f + 1 + 1)
          (emCursor n (rr0 + 1) rr0
            ⟨n, List.replicate n none, List.replicate (rr0 + 1) .row⟩ bl2
            (some (.seq ws)) (n : Int)
            ((gs ++ bad :: more).map fun w => .item (.seq w)) tr
            (lg ++ [.stepped 0 SQLITE_DONE] ++ [.released 0]
              ++ enterEvents tr 0 0 ++ [.stepped 0 SQLITE_ROW]) .row)
          rfl rfl rfl
        rw [drive]
        simp only [hflip]
        have hdc := driveEMAbort n (rr0 + 1) tr gs
          (fun w hw => hgood w (by simp [hw])) bad hbad more rr0
          ⟨n, List.replicate n none, List.replicate (rr0 + 1) .row⟩ bl2
          (some (.seq ws)) (n : Int)
          (lg ++ [.stepped 0 SQLITE_DONE] ++ [.released 0]
            ++ enterEvents tr 0 0 ++ [.stepped 0 SQLITE_ROW]) (f + 1)
        rw [show (gs.length + 1) * (rr0 + 1 + 1) + f + 1 =
          rr0 + (gs.length * (rr0 + 1 + 1) + (f + 1) + 1) + 1
          from by ring_nf]
        refine Eq.trans hdc ?_
        rw [emTail_succ]
        simp [c2Rep, enterEvents, List.replicate_succ, List.append_assoc]
  · have hrowstep := stepLoop_row
      (emCursor n r0 (rr + 1) sp bl b off
        ((goods ++ bad :: more).map fun ws => .item (.seq ws)) tr lg .begin)
      ⟨0, List.replicate (rr + 1) .row, SQLITE_OK, bl, sp⟩
      (List.replicate rr .row)
      (rr + (goods.length * (r0 + 1) + f + 1) + 1) rfl
      (by simp [List.replicate_succ]) rfl
    rw [show (rr + 1) + (goods.length * (r0 + 1) + f + 1) + 1
      = (rr + (goods.length * (r0 + 1) + f + 1) + 1) + 1 from by omega]
    have hrow2 : stepLoop (rr + (goods.length * (r0 + 1) + f + 1) + 1 + 1)
        (emCursor n r0 (rr + 1) sp bl b off
          ((goods ++ bad :: more).map fun ws => .item (.seq ws)) tr lg
          .begin) =
      some (emCursor n r0 rr sp bl b off
        ((goods ++ bad :: more).map fun ws => .item (.seq ws)) tr
        (lg ++ [.stepped 0 SQLITE_ROW]) .row, true) := hrowstep
    simp only [hrow2]
    have hflip := next_on_row
      (rr + (goods.length * (r0 + 1) + f + 1) + 1 + 1)
      (emCursor n r0 rr sp bl b off
        ((goods ++ bad :: more).map fun ws => .item (.seq ws)) tr
        (lg ++ [.stepped 0 SQLITE_ROW]) .row) rfl rfl rfl
    rw [drive]
    simp only [hflip]
    have hdc := driveEMAbort n r0 tr goods hgood bad hbad more rr sp bl b off
      (lg ++ [.stepped 0 SQLITE_ROW]) f
    refine Eq.trans hdc ?_
    simp [List.replicate_succ, List.append_assoc]

/-- Claim C2: for every batch of length k ≥ 1 passed to `executemany`
over a single-statement chain, the statement is bound and stepped to
completion exactly k times, once per binding set in input order — each
repetition re-acquires the first unit of the chain and rebinds the fresh
set at offset 0, so the full event log is exactly `c2Events` of k
repetitions — and on the first erroneous binding set the batch aborts
immediately: reconciliation fails, nothing more is stepped, and the
binding sets after the bad one are never executed (they remain untouched
in the iterator). -/
theorem executemany_batch_order_and_abort (n r0 : Nat) (tr : Bool) :
    (∀ (vs : List SQValue) (rest : List (List SQValue)) (f : Nat),
      (∀ ws ∈ vs :: rest, ws.length = n ∧ ∀ v ∈ ws, bindSafe v = true) →
      runExecutemany
          { freshCursor with exectrace := if tr then some [] else none }
          (mkChain [(n, r0)])
          ((vs :: rest).map fun ws => .item (.seq ws))
          (r0 + (rest.length * (r0 + 1) + f + 1) + 1) =
        some (doneCursor tr (c2Events r0 tr (vs :: rest).length), true)) ∧
    (∀ (goods : List (List SQValue)) (bad : List SQValue)
        (more : List (List SQValue)) (f : Nat),
      (∀ ws ∈ goods, ws.length = n ∧ ∀ v ∈ ws, bindSafe v = true) →
      (bad.length : Int) ≠ (n : Int) →
      runExecutemany
          { freshCursor with exectrace := if tr then some [] else none }
          (mkChain [(n, r0)])
          ((goods ++ bad :: more).map fun ws => .item (.seq ws))
          (r0 + (goods.length * (r0 + 1) + f + 1) + 1) =
        some (emAbortCursor n r0 (.seq bad)
          (more.map fun ws => .item (.seq ws)) tr
          (c2Events r0 tr goods.length ++ [.prepared 0]), false)) := by
  constructor
  · intro vs rest f hgood
    obtain ⟨bl2, hsetup⟩ := executemany_setup n r0 tr vs
      (hgood vs (by simp)).1 (hgood vs (by simp)).2
      (rest.map fun ws => .item (.seq ws))
      (r0 + (rest.length * (r0 + 1) + f + 1) + 1)
    have hcomp := stepLoop_then_drive_em n r0 tr rest
      (fun w hw => hgood w (by simp [hw])) r0
      ⟨n, List.replicate n none, List.replicate r0 .row⟩ bl2
      (some (.seq vs)) (n : Int) (enterEvents tr 0 0) f
    simp only [runExecutemany, List.map_cons]
    rw [hsetup]
    refine Eq.trans hcomp ?_
    rw [show ((vs :: rest : List (List SQValue))).length = rest.length + 1
      from by simp]
    rw [← c2Events_shift r0 tr rest.length]
    simp [c2Rep, enterEvents, List.append_assoc]
  · intro goods bad more f hgood hbad
    rcases goods with _ | ⟨g, gs⟩
    · simp only [runExecutemany, List.nil_append, List.map_cons,
        List.length_nil, Nat.zero_mul, Nat.zero_add]
      rw [executemany_setup_abort n r0 tr bad hbad
        (more.map fun ws => .item (.seq ws)) (r0 + (f + 1) + 1)]
      simp [c2Events, List.append_assoc]
    · simp only [runExecutemany, List.cons_append, List.map_cons,
        List.length_cons]
      rw [show r0 + ((gs.length + 1) * (r0 + 1) + f + 1) + 1 =
        r0 + (gs.length * (r0 + 1) + (f + r0 + 1) + 1) + 1 from by ring_nf]
      obtain ⟨bl2, hsetup⟩ := executemany_setup n r0 tr g
        (hgood g (by simp)).1 (hgood g (by simp)).2
        ((gs ++ bad :: more).map fun ws => .item (.seq ws))
        (r0 + (gs.length * (r0 + 1) + (f + r0 + 1) + 1) + 1)
      rw [hsetup]
      have hcomp := stepLoop_then_drive_em_abort n r0 tr gs
        (fun w hw => hgood w (by simp [hw])) bad hbad more r0
        ⟨n, List.replicate n none, List.replicate r0 .row⟩ bl2
        (some (.seq g)) (n : Int) (enterEvents tr 0 0) (f + r0 + 1)
      refine Eq.trans hcomp ?_
      rw [← c2Events_shift r0 tr gs.length]
      simp [c2Rep, enterEvents, List.append_assoc]

/-- Concrete instance of claim C2: a one-parameter, one-row statement,
tracer installed; a two-set batch runs twice in order, and a batch whose
second set is empty aborts there with the third set never executed. -/
theorem executemany_batch_order_and_abort_witness :
    (runExecutemany { freshCursor with exectrace := some [] }
        (mkChain [(1, 1)])
        (([SQValue.int 5] :: [[SQValue.int 6]]).map fun ws => .item (.seq ws))
        5 =
      some (doneCursor true (c2Events 1 true 2), true)) ∧
    (runExecutemany { freshCursor with exectrace := some [] }
        (mkChain [(1, 1)])
        (([[SQValue.int 5]] ++ [] :: [[SQValue.int 7]]).map
          fun ws => .item (.seq ws)) 5 =
      some (emAbortCursor 1 1 (.seq [])
        ([[SQValue.int 7]].map fun ws => .item (.seq ws)) true
        (c2Events 1 true 1 ++ [.prepared 0]), false)) := by
  constructor
  · exact (executemany_batch_order_and_abort 1 1 true).1
      [SQValue.int 5] [[SQValue.int 6]] 0 (by decide)
  · exact (executemany_batch_order_and_abort 1 1 true).2
      [[SQValue.int 5]] [] [[SQValue.int 7]] 0 (by decide) (by decide)


end APSW
